import Mathlib

/-!
# Kanban board store: entity model, cascading deletes and drag-and-drop reordering

A shallow embedding of `src/script.js` (renderer process of the task app).

* JavaScript objects become structures; a property the code reads but that an
  object may lack (`undefined`, `null`) is an `Option`.
* The module-level `let` collections (`boards`, `columns`, `cards`, `labels`,
  `subtasks`, `comments`) together with the loaded `data` document form the
  `Store`; every handler is a function on the store.
* An object reference held by a closure (`column`, `board`, `cardsContainer`) was
  obtained with `find(x => x.id === ...)` when the view was rendered, so it is modelled
  as "the first entry with that id".
* `saveData(data)` is modelled by appending the written document to `written`.
* `generateId`, `Date.now` and `window.confirm` are inputs of the handlers.
* The rendered document is the list of `.cards-container` elements in document order,
  each with its children; an element carries the bounding box that
  `getBoundingClientRect` reports at the time of the event.  Elements are compared by
  value.
* Pixel coordinates are finite doubles, hence rationals; the arithmetic on them rounds
  each result to the nearest double (see "Double arithmetic").
* A handler that can stop on an uncaught `TypeError` returns an `Outcome`.
* The open card modal is the store together with the card object its closures hold and
  a flag telling whether that object is still the one stored in `cards`.
-/

namespace TaskApp

/-! ## Entities -/

/-- Label of the global pool: `{ id, name, color }` (label create handler). -/
structure Label where
  id : String
  name : String
  color : String
deriving DecidableEq, Repr

/-- Reference from a card to a label: `{ id: label.id }` (label checkbox handler). -/
structure LabelRef where
  id : String
deriving DecidableEq, Repr

/-- Checklist item embedded in a card: `{ id, text, completed }`. -/
structure Subtask where
  id : String
  text : String
  completed : Bool
deriving DecidableEq, Repr

/-- Card object.  The first fourteen fields are those of `defaultCard` in `createCard`;
`boardId` is supplied by the add-card handler; `columnId` is read by the
delete-card handler and written nowhere in the program. -/
structure Card where
  id : String
  name : String
  description : String
  subtasks : List Subtask
  labels : Option (List LabelRef)
  note : String
  completed : Bool
  priority : String
  difficulty : String
  dueDate : Option String
  dueTime : Option String
  createdAt : Nat
  updatedAt : Option Nat
  boardId : Option String
  columnId : Option String
deriving DecidableEq, Repr

/-- Column object as built by `createColumn`. -/
structure Column where
  id : String
  name : String
  colour : String
  cardIds : List String
  boardId : String
deriving DecidableEq, Repr

/-- Board object as built by `createBoard`, with the optional display properties. -/
structure Board where
  id : String
  name : String
  createdAt : String
  columnIds : List String
  background : Option String
  blurAmount : Option Nat
  titleColor : Option String
deriving DecidableEq, Repr

/-- Entry of the top-level `subtasks` (and `comments`) collection.  The program never
creates one; the delete cascades read its `cardId` and `boardId`. -/
structure Entry where
  id : String
  cardId : Option String
  boardId : Option String
deriving DecidableEq, Repr

/-- The document handed to `saveData` / returned by `loadData`. -/
structure Snapshot where
  boards : List Board
  columns : List Column
  cards : List Card
  labels : List Label
  subtasks : Option (List Entry)
  comments : Option (List Entry)
deriving DecidableEq, Repr

/-- Module state of `script.js`: the six collections, the `data` document and the
sequence of documents written by `saveData` (oldest first). -/
structure Store where
  boards : List Board
  columns : List Column
  cards : List Card
  labels : List Label
  subtasks : List Entry
  comments : List Entry
  data : Snapshot
  written : List Snapshot
deriving DecidableEq, Repr

/-! ## Utilities -/

/-- Replace the first element satisfying `p` by its image under `f`
(in-place mutation of the object returned by `find`). -/
def updateFirst {α : Type} (p : α → Bool) (f : α → α) : List α → List α
  | [] => []
  | x :: xs => if p x then f x :: xs else x :: updateFirst p f xs

/-- Model of `Array.prototype.findIndex`; `none` stands for the result `-1`. -/
def findIndex {α : Type} (p : α → Bool) : List α → Option Nat
  | [] => none
  | x :: xs => if p x then some 0 else (findIndex p xs).map (fun i => i + 1)

/-- ECMAScript `WhiteSpace` and `LineTerminator` code points, stripped by
`String.prototype.trim`. -/
def isJsWhiteSpace (c : Char) : Bool :=
  decide (c.val.toNat ∈ [0x9, 0xA, 0xB, 0xC, 0xD, 0x20, 0xA0, 0x1680, 0x2028, 0x2029,
    0x202F, 0x205F, 0x3000, 0xFEFF]) || (decide (0x2000 ≤ c.val.toNat) && decide (c.val.toNat ≤ 0x200A))

/-- Model of `String.prototype.trim`. -/
def jsTrim (s : String) : String :=
  String.mk ((s.data.dropWhile isJsWhiteSpace).reverse.dropWhile isJsWhiteSpace).reverse

/-- Body of `save(...types)`: copy the named collections into `data`, then `saveData(data)`.
Only the four names tested by `save` have an effect on `data`; `data.subtasks` and
`data.comments` keep the value that was loaded.  (In the program `data.boards` is the same
array as `boards` until `boards` is rebound, likewise for the other three; every handler
modelled here that returns normally names each collection it rebinds or edits.) -/
def save (types : List String) (s : Store) : Store :=
  let d0 := s.data
  let d1 := if "boards" ∈ types then { d0 with boards := s.boards } else d0
  let d2 := if "columns" ∈ types then { d1 with columns := s.columns } else d1
  let d3 := if "cards" ∈ types then { d2 with cards := s.cards } else d2
  let d4 := if "labels" ∈ types then { d3 with labels := s.labels } else d3
  { s with data := d4, written := s.written ++ [d4] }

/-! ## Entity store operations -/

/-- Model of `updateCard(card)`: `findIndex` by id, overwrite that slot with a copy, save. -/
def updateCard (card : Card) (s : Store) : Store :=
  match findIndex (fun c => c.id == card.id) s.cards with
  | some index => save ["cards"] { s with cards := s.cards.set index card }
  | none => s

/-- Optional fields of the `overrides` argument of `createCard`. -/
structure CardOverrides where
  id : Option String := none
  name : Option String := none
  description : Option String := none
  subtasks : Option (List Subtask) := none
  labels : Option (List LabelRef) := none
  note : Option String := none
  completed : Option Bool := none
  priority : Option String := none
  difficulty : Option String := none
  dueDate : Option String := none
  dueTime : Option String := none
  createdAt : Option Nat := none
  updatedAt : Option Nat := none
  boardId : Option String := none
  columnId : Option String := none
deriving DecidableEq, Repr

/-- Model of `createCard(overrides)`: the spread of `overrides` over `defaultCard`.
`freshId` is the value of `generateId("card")`, `now` that of `Date.now()`. -/
def createCard (freshId : String) (now : Nat) (overrides : CardOverrides) : Card where
  id := overrides.id.getD freshId
  name := overrides.name.getD ""
  description := overrides.description.getD ""
  subtasks := overrides.subtasks.getD []
  labels := some (overrides.labels.getD [])
  note := overrides.note.getD ""
  completed := overrides.completed.getD false
  priority := overrides.priority.getD ""
  difficulty := overrides.difficulty.getD ""
  dueDate := overrides.dueDate
  dueTime := overrides.dueTime
  createdAt := overrides.createdAt.getD now
  updatedAt := overrides.updatedAt
  boardId := overrides.boardId
  columnId := overrides.columnId

/-- Save-button click handler of the column `colId` in `renderColumns`.
`inputValue` is `input.value`; `cardId` the value of `generateId("card")`; `innerId`, `now`
the values of `generateId` and `Date.now()` evaluated inside `createCard`.
The handler exists only for a column found by `columns.find`. -/
def saveCardClick (colId inputValue cardId innerId : String) (now : Nat) (s : Store) : Store :=
  match s.columns.find? (fun c => c.id == colId) with
  | none => s
  | some column =>
    let cardTitle := jsTrim inputValue
    if cardTitle ≠ "" then
      if s.cards.any (fun c => c.id == cardId) then s
      else
        let newCard := createCard innerId now
          { id := some cardId, name := some cardTitle, boardId := some column.boardId }
        save ["cards", "columns"]
          { s with
            cards := s.cards ++ [newCard]
            columns := updateFirst (fun c => c.id == colId)
              (fun c => { c with cardIds := c.cardIds ++ [cardId] }) s.columns }
    else s

/-- Click handler of the "Delete card" button in `renderModalContent`, for the card
shown in the modal; `confirmed` is the answer of `window.confirm`. -/
def deleteCardClick (card : Card) (confirmed : Bool) (s : Store) : Store :=
  if !confirmed then s
  else
    let columns1 :=
      match card.columnId with
      | none => s.columns
      | some colId =>
        updateFirst (fun col => col.id == colId)
          (fun col => { col with cardIds := col.cardIds.filter (fun id => id != card.id) })
          s.columns
    save ["columns", "cards", "subtasks"]
      { s with
        columns := columns1
        cards := s.cards.filter (fun c => c.id != card.id)
        subtasks := s.subtasks.filter (fun sub => sub.cardId != some card.id) }

/-- Model of `deleteColumn(board, columnId)`; `boardId` identifies the board object passed
by the caller, `confirmed` is the answer of `window.confirm`. -/
def deleteColumn (boardId columnId : String) (confirmed : Bool) (s : Store) : Store :=
  match s.columns.find? (fun c => c.id == columnId) with
  | none => s
  | some column =>
    if !confirmed then s
    else
      let cardIdsToDelete := column.cardIds
      save ["boards", "columns", "cards", "subtasks"]
        { s with
          boards := updateFirst (fun b => b.id == boardId)
            (fun b => { b with columnIds := b.columnIds.filter (fun id => id != columnId) })
            s.boards
          cards := s.cards.filter (fun card => !cardIdsToDelete.contains card.id)
          subtasks := s.subtasks.filter (fun sub =>
            match sub.cardId with
            | some cid => !cardIdsToDelete.contains cid
            | none => true)
          columns := s.columns.filter (fun c => c.id != columnId) }

/-- Model of `deleteBoard(id)`. -/
def deleteBoard (id : String) (s : Store) : Store :=
  let boards1 := s.boards.filter (fun b => b.id != id)
  let columns1 := s.columns.filter (fun col => col.boardId != id)
  let cardIdsToDelete := (s.cards.filter (fun card => card.boardId == some id)).map (fun card => card.id)
  let cards1 := s.cards.filter (fun card => card.boardId != some id)
  let subtasks1 := s.subtasks.filter (fun sub => sub.boardId != some id)
  let comments1 := s.comments.filter (fun com => com.boardId != some id)
  let columns2 := columns1.map (fun col =>
    { col with cardIds := col.cardIds.filter (fun cardId => !cardIdsToDelete.contains cardId) })
  save ["boards", "columns", "cards", "subtasks", "comments"]
    { s with boards := boards1, columns := columns2, cards := cards1,
             subtasks := subtasks1, comments := comments1 }

/-- Click handler of the label "Delete" button in `renderLabelPanel` for `label`;
`confirmed` is the answer of `window.confirm`. -/
def deleteLabelClick (label : Label) (confirmed : Bool) (s : Store) : Store :=
  if !confirmed then s
  else
    save ["labels", "cards"]
      { s with
        labels := s.labels.filter (fun l => l.id != label.id)
        cards := s.cards.map (fun card =>
          match card.labels with
          | some ls => { card with labels := some (ls.filter (fun l => l.id != label.id)) }
          | none => card) }

/-! ## Rendered document -/

/-- The part of `getBoundingClientRect()` that the program reads. -/
structure Box where
  top : ℚ
  height : ℚ
deriving DecidableEq, Repr

/-- A rendered card element (`renderCard`): its `data-id`, whether it carries the class
`dragging`, and its bounding box at the time of the event. -/
structure CardEl where
  dataId : String
  dragging : Bool
  box : Box
deriving DecidableEq, Repr

/-- Child of a `.cards-container`: a card element or the `.drop-placeholder`. -/
inductive Node where
  | card (el : CardEl)
  | placeholder
deriving DecidableEq, Repr

/-- The `.cards-container` rendered for the column `columnId`. -/
structure Container where
  columnId : String
  children : List Node
deriving DecidableEq, Repr

/-- Store together with the rendered containers, in document order. -/
structure World where
  store : Store
  dom : List Container
deriving DecidableEq, Repr

/-- Result of a handler that may stop on an uncaught exception: the state in which it
returned, or the state at the moment it threw. -/
inductive Outcome where
  | returned (w : World)
  | threw (w : World)
deriving DecidableEq, Repr

/-- Model of `querySelectorAll(".card:not(.dragging)")` on a container. -/
def cardsNotDragging (children : List Node) : List CardEl :=
  children.filterMap (fun n =>
    match n with
    | Node.card el => if el.dragging then none else some el
    | Node.placeholder => none)

/-! ### Double arithmetic

The coordinates that the program reads and the results of its arithmetic are IEEE-754
doubles.  A finite double is a rational number, and an arithmetic operation of the engine
returns its exact result rounded to the nearest double.  That rounding is the parameter
`fl` of `offset` and of the functions built on it; `roundDouble` is the rounding of the
engine for results of magnitude below `2 ^ 1024` (no overflow to `Infinity`). -/

/-- Rounding to the nearest integer, a tie going to the even one. -/
def roundHalfEven (s : ℚ) : ℤ :=
  if s - ⌊s⌋ < 1 / 2 then ⌊s⌋
  else if 1 / 2 < s - ⌊s⌋ then ⌊s⌋ + 1
  else if ⌊s⌋ % 2 = 0 then ⌊s⌋ else ⌊s⌋ + 1

/-- Exponent of the last place of the doubles near a positive `q`: a significand of 53
bits, and the fixed exponent `-1074` in the subnormal range. -/
def ulpExponent (q : ℚ) : ℤ :=
  max (Int.log 2 q - 52) (-1074)

/-- The double nearest to a non-negative rational. -/
def roundPos (q : ℚ) : ℚ :=
  (roundHalfEven (q / 2 ^ ulpExponent q) : ℚ) * 2 ^ ulpExponent q

/-- The double nearest to a rational, ties to even (the default rounding of IEEE-754). -/
def roundDouble (q : ℚ) : ℚ :=
  if 0 ≤ q then roundPos q else -roundPos (-q)

/-- The value of `y - box.top - box.height / 2` as `getDragAfterElement` computes it:
each of the three operations rounds its exact result with `fl`. -/
def offset (fl : ℚ → ℚ) (y : ℚ) (child : CardEl) : ℚ :=
  fl (fl (y - child.box.top) - fl (child.box.height / 2))

/-- None of the three operations that compute the offset of `child` rounds: every exact
result is a double. -/
def ExactAt (fl : ℚ → ℚ) (y : ℚ) (child : CardEl) : Prop :=
  fl (y - child.box.top) = y - child.box.top ∧
  fl (child.box.height / 2) = child.box.height / 2 ∧
  fl (y - child.box.top - child.box.height / 2) =
    y - child.box.top - child.box.height / 2

/-- Vertical midpoint of the bounding box of an element. -/
def midpoint (child : CardEl) : ℚ :=
  child.box.top + child.box.height / 2

/-- Accumulator of the `reduce` in `getDragAfterElement`; `offset = none` stands for
`Number.NEGATIVE_INFINITY`, `element = none` for the missing property. -/
structure Closest where
  offset : Option ℚ
  element : Option CardEl
deriving DecidableEq, Repr

/-- The comparison `offset > closest.offset`. -/
def exceeds (o : ℚ) : Option ℚ → Bool
  | none => true
  | some c => decide (o > c)

/-- Callback of the `reduce` in `getDragAfterElement`. -/
def closestStep (fl : ℚ → ℚ) (y : ℚ) (closest : Closest) (child : CardEl) : Closest :=
  if offset fl y child < 0 ∧ exceeds (offset fl y child) closest.offset = true then
    { offset := some (offset fl y child), element := some child }
  else closest

/-- Model of `getDragAfterElement(container, y)`; `none` is the result `undefined`. -/
def getDragAfterElement (fl : ℚ → ℚ) (children : List Node) (y : ℚ) : Option CardEl :=
  ((cardsNotDragging children).foldl (closestStep fl y)
    { offset := none, element := none }).element

/-- The accumulator `c` describes the best candidate among `l`: either no element of `l`
has a negative offset and `c` is the initial accumulator, or `c` holds an element of `l`
with negative offset that is maximal, and earliest among the maximal ones. -/
def IsClosest (fl : ℚ → ℚ) (y : ℚ) (l : List CardEl) (c : Closest) : Prop :=
  (c = { offset := none, element := none } ∧ ∀ e ∈ l, ¬ offset fl y e < 0) ∨
  (∃ (i : Nat) (e : CardEl), l[i]? = some e ∧
    c = { offset := some (offset fl y e), element := some e } ∧
    offset fl y e < 0 ∧ (∀ e1 ∈ l, offset fl y e1 < 0 → offset fl y e1 ≤ offset fl y e) ∧
    (∀ (j : Nat) (e1 : CardEl), j < i → l[j]? = some e1 → offset fl y e1 < 0 →
      offset fl y e1 < offset fl y e))

/-- Whether a node is a card element with the class `dragging`. -/
def isDragging : Node → Bool
  | Node.card el => el.dragging
  | Node.placeholder => false

/-- Model of `document.querySelector(".dragging")`: the first element with the class
`dragging` in document order. -/
def querySelectorDragging : List Container → Option Node
  | [] => none
  | c :: cs =>
    match c.children.find? isDragging with
    | some n => some n
    | none => querySelectorDragging cs

/-- Detach the element returned by `document.querySelector(".dragging")` from its parent
(first step of `insertBefore` for a node that is already in the document). -/
def removeDragging : List Container → List Container
  | [] => []
  | c :: cs =>
    match c.children.find? isDragging with
    | some _ => { c with children := c.children.eraseP isDragging } :: cs
    | none => c :: removeDragging cs

/-- The `dataset.id` of the children carrying the class `card`, in document order
(`Array.from(children).filter(...).map(...)` in the drop handler). -/
def cardIdsOfChildren (children : List Node) : List String :=
  children.filterMap (fun n =>
    match n with
    | Node.card el => some el.dataId
    | Node.placeholder => none)

/-- Model of `parent.appendChild(n)` on the child list: a node that is already a child is
moved to the end. -/
def appendChild (n : Node) (children : List Node) : List Node :=
  children.erase n ++ [n]

/-- Insert `n` right before the first occurrence of `ref`. -/
def insertBeforeFirst (n ref : Node) : List Node → List Node
  | [] => []
  | x :: xs => if x = ref then n :: x :: xs else x :: insertBeforeFirst n ref xs

/-- Model of `parent.insertBefore(n, ref)` for a node `n` that is a child of `parent` or
detached: `n` is taken out of the child list and put back before `ref`.  The `ref` passed
by the `dragover` handler is the result of `getDragAfterElement`, which is the earliest
of the children equal to it, so the first occurrence is the element meant. -/
def insertBefore (n ref : Node) (children : List Node) : List Node :=
  insertBeforeFirst n ref (children.erase n)

/-- The `dragover` handler of the container of column `colId`, for a pointer at
`clientY`.  Only the document changes. -/
def dragoverHandler (fl : ℚ → ℚ) (colId : String) (clientY : ℚ) (dom : List Container) :
    List Container :=
  match dom.find? (fun c => c.columnId == colId) with
  | none => dom
  | some cardsContainer =>
    let draggingEl := querySelectorDragging dom
    let afterElement := getDragAfterElement fl cardsContainer.children clientY
    match draggingEl with
    | none => dom
    | some _ =>
      let children1 :=
        match afterElement with
        | none => appendChild Node.placeholder cardsContainer.children
        | some el => insertBefore Node.placeholder (Node.card el) cardsContainer.children
      updateFirst (fun c => c.columnId == colId) (fun c => { c with children := children1 }) dom

/-- The `drop` handler of the container of column `colId`; `draggedId` is the value of
`e.dataTransfer.getData("text/plain")`.  The handler exists only for a column that
`renderColumns` found and rendered.  It throws when `insertBefore` is given `null` and
when `sourceColumn` is `undefined`; in the second case the columns are already
modified and `save` is not reached. -/
def dropHandler (colId draggedId : String) (w : World) : Outcome :=
  match w.dom.find? (fun c => c.columnId == colId),
        w.store.columns.find? (fun c => c.id == colId) with
  | some cardsContainer, some _ =>
    let moved : Option (List Container) :=
      if Node.placeholder ∈ cardsContainer.children then
        match querySelectorDragging w.dom with
        | none => none
        | some draggingEl =>
          some (updateFirst (fun c => c.columnId == colId)
            (fun c => { c with
              children :=
                (insertBeforeFirst draggingEl Node.placeholder c.children).erase
                  Node.placeholder })
            (removeDragging w.dom))
      else some w.dom
    match moved with
    | none => Outcome.threw w
    | some dom1 =>
      let sourceColumn := w.store.columns.find? (fun col => col.cardIds.contains draggedId)
      let columns1 := w.store.columns.map (fun col =>
        { col with cardIds := col.cardIds.filter (fun id => id != draggedId) })
      let newCardIds :=
        match dom1.find? (fun c => c.columnId == colId) with
        | some c => cardIdsOfChildren c.children
        | none => []
      let columns2 := updateFirst (fun c => c.id == colId)
        (fun c => { c with cardIds := newCardIds }) columns1
      let store1 := { w.store with columns := columns2 }
      match sourceColumn with
      | none => Outcome.threw { store := store1, dom := dom1 }
      | some _ => Outcome.returned { store := save ["columns"] store1, dom := dom1 }
  | _, _ => Outcome.returned w

/-- The fields of a column other than `cardIds`. -/
def Column.header (c : Column) : String × String × String × String :=
  (c.id, c.name, c.colour, c.boardId)

/-! ## Sample stores -/

/-- A board with no display properties. -/
def mkBoard (id name : String) (columnIds : List String) : Board :=
  { id := id, name := name, createdAt := "2025-01-01T00:00:00.000Z", columnIds := columnIds,
    background := none, blurAmount := none, titleColor := none }

/-- The document returned by `loadData` when no file can be read. -/
def emptySnapshot : Snapshot :=
  { boards := [], columns := [], cards := [], labels := [], subtasks := none, comments := none }

/-- Store right after start-up from the document `d` (the `let` initialisers of `script.js`). -/
def initStore (d : Snapshot) : Store :=
  { boards := d.boards, columns := d.columns, cards := d.cards, labels := d.labels,
    subtasks := d.subtasks.getD [], comments := d.comments.getD [], data := d, written := [] }

/-- One board "Sprint 1" holding one empty column "To Do". -/
def sampleStore : Store :=
  initStore { emptySnapshot with
    boards := [mkBoard "board-1" "Sprint 1" ["column-1"]]
    columns := [{ id := "column-1", name := "To Do", colour := "grey", cardIds := [],
                  boardId := "board-1" }] }

/-- The card that the add-card action creates for the title "Write spec". -/
def sampleCard : Card :=
  createCard "card-0" 0
    { id := some "card-1", name := some "Write spec", boardId := some "board-1" }

/-- The store after the add-card action on column "To Do" of `sampleStore`. -/
def storeWithCard : Store :=
  saveCardClick "column-1" "  Write spec " "card-1" "card-0" 0 sampleStore

/-- The only column of `sampleStore` once it lists the card "card-1". -/
def sampleColumn : Column :=
  { id := "column-1", name := "To Do", colour := "grey", cardIds := ["card-1"],
    boardId := "board-1" }

/-- A store whose only card carries no `boardId` (as `createCard` builds it when the
caller passes none) although a column of "board-1" lists it. -/
def legacyStore : Store :=
  initStore { emptySnapshot with
    boards := [mkBoard "board-1" "Sprint 1" ["column-1"]]
    columns := [sampleColumn]
    cards := [createCard "card-1" 0 { name := some "Write spec" }] }

/-- Two boards that both list "column-1", whose `boardId` is "board-1". -/
def crossLinkedStore : Store :=
  initStore { emptySnapshot with
    boards := [mkBoard "board-1" "Sprint 1" ["column-1"], mkBoard "board-2" "Sprint 2" ["column-1"]]
    columns := [sampleColumn]
    cards := [sampleCard] }

/-- A card element 40 pixels high whose top edge is at `top`. -/
def mkCardEl (dataId : String) (dragging : Bool) (top : ℚ) : CardEl :=
  { dataId := dataId, dragging := dragging, box := { top := top, height := 40 } }

/-- A card whose box has the doubles nearest to 0.7 and to 60.6 as `top` and `height`. -/
def borderlineCard : CardEl :=
  { dataId := "card-2", dragging := false,
    box := { top := 3152519739159347 / 4503599627370496,
             height := 8528691794332877 / 140737488355328 } }

/-- One rendered column holding one card; nothing is being dragged. -/
def idleDom : List Container :=
  [{ columnId := "column-1", children := [Node.card (mkCardEl "card-1" false 0)] }]

/-- The two card elements rendered in the second column. -/
def targetChildren : List Node :=
  [Node.card (mkCardEl "card-2" false 0), Node.card (mkCardEl "card-3" false 50)]

/-- Two rendered columns; the card of the first one is being dragged. -/
def draggingDom : List Container :=
  [{ columnId := "column-1", children := [Node.card (mkCardEl "card-1" true 0)] },
   { columnId := "column-2", children := targetChildren }]

/-- A second column of "board-1", listing two cards. -/
def doingColumn : Column :=
  { id := "column-2", name := "Doing", colour := "grey", cardIds := ["card-2", "card-3"],
    boardId := "board-1" }

/-- Column "To Do" lists "card-1", column "Doing" lists "card-2" and "card-3"; both are
rendered, "card-1" is being dragged and the placeholder sits between the two cards of
"Doing". -/
def dropWorld : World :=
  { store := initStore { emptySnapshot with
      boards := [mkBoard "board-1" "Sprint 1" ["column-1", "column-2"]]
      columns := [sampleColumn, doingColumn]
      cards := [sampleCard, { sampleCard with id := "card-2" }, { sampleCard with id := "card-3" }] }
    dom :=
      [{ columnId := "column-1", children := [Node.card (mkCardEl "card-1" true 0)] },
       { columnId := "column-2", children := [Node.card (mkCardEl "card-2" false 0),
           Node.placeholder, Node.card (mkCardEl "card-3" false 50)] }] }

/-! ## Definitions for the reorder scenarios -/

/-- Words of the spec: the element lies fully above the pointer, that is, its lower edge
is at or above `y`. -/
def fullyAbove (y : ℚ) (e : CardEl) : Bool :=
  decide (e.box.top + e.box.height ≤ y)

/-- Words of the spec: the last non-dragging card of the container that lies fully
above the pointer. -/
def lastFullyAbove (children : List Node) (y : ℚ) : Option CardEl :=
  (cardsNotDragging children).reverse.find? (fullyAbove y)

/-- The element built by `renderCard(card)` when it returns; `box` is where the layout
puts it.  `renderCard` calls `createLabelBar(card)`, which throws on a card that has no
`labels` list. -/
def renderCard (card : Card) (box : Box) : CardEl :=
  { dataId := card.id, dragging := false, box := box }

/-- The loop `column.cardIds.forEach(...)` of `renderColumns` that fills the emptied
container: an id with no stored card is skipped.  `layout i` is the box of the `i`-th
child; `i` counts the children appended so far.  The result is `none` when `renderCard`
throws, that is, when a card to render has no `labels` list. -/
def renderCardsFrom (layout : Nat → Box) (cards : List Card) :
    Nat → List String → Option (List Node)
  | _, [] => some []
  | i, cardId :: rest =>
    match cards.find? (fun c => c.id == cardId) with
    | some card =>
      if card.labels.isSome then
        (renderCardsFrom layout cards (i + 1) rest).map
          (fun children => Node.card (renderCard card (layout i)) :: children)
      else none
    | none => renderCardsFrom layout cards i rest

/-- The children of the container of `column` right after `renderColumns`, when the
rendering completes. -/
def renderCards (layout : Nat → Box) (cards : List Card) (column : Column) :
    Option (List Node) :=
  renderCardsFrom layout cards 0 column.cardIds

/-- Boxes of 40 pixels stacked with a gap of 10 pixels. -/
def stackedLayout (i : Nat) : Box :=
  { top := 50 * (i : ℚ), height := 40 }

/-- The store of `storeWithCard` with its column rendered and nothing being dragged. -/
def idleWorld : World :=
  { store := storeWithCard, dom := idleDom }

/-! ## Completion toggle, reload -/

/-- Model of `toggleCardCompletion(card)` for the card object stored at position `i` of
`cards`: the object is edited in place, then handed to `updateCard`. -/
def toggleCardCompletion (i : Nat) (s : Store) : Store :=
  match s.cards[i]? with
  | none => s
  | some card =>
    let card1 := { card with completed := !card.completed }
    updateCard card1 { s with cards := s.cards.set i card1 }

/-- The store a restart builds from the document written last: `loadData()` parses what
`saveData` serialised. -/
def reload (s : Store) : Option Store :=
  s.written.getLast?.map initStore

/-- A loaded document that carries one top-level subtask entry for "card-1". -/
def storeWithSubtasks : Store :=
  initStore { emptySnapshot with
    boards := [mkBoard "board-1" "Sprint 1" ["column-1"]]
    columns := [sampleColumn]
    cards := [sampleCard]
    subtasks := some [{ id := "subtask-1", cardId := some "card-1", boardId := some "board-1" }] }

/-! ## Card modal

`openModal(card)` receives the object found by `cards.find`; the closures built by
`renderModalContent(card)` and the globals `currentCard` and `activeCard` all refer to
that one object.  `updateCard` replaces the slot of `cards` by a copy, after which the
object of the modal is no longer the stored one.  The actions below are those that
write scalar properties of the card. -/

/-- State while the card modal is open: the store, the card object the modal is bound
to, and whether that object is still the one held in `cards`. -/
structure Modal where
  store : Store
  card : Card
  attached : Bool
deriving DecidableEq, Repr

/-- Click on a rendered card: `cards.find(c => c.id === cardEl.dataset.id)`, then
`openModal(card)` when a card is found.  For a card without a `labels` list
`renderModalContent` stops on the `TypeError` of `createLabelBar`; that half-built modal
is not modelled. -/
def openModal (cardId : String) (s : Store) : Option Modal :=
  match s.cards.find? (fun c => c.id == cardId) with
  | some card =>
    if card.labels.isSome then some { store := s, card := card, attached := true } else none
  | none => none

/-- Assignment to properties of the bound card object; it shows in `cards` only while
the object is still the stored one. -/
def Modal.edit (f : Card → Card) (m : Modal) : Modal :=
  { m with
    card := f m.card
    store :=
      if m.attached then
        { m.store with cards := updateFirst (fun c => c.id == m.card.id) f m.store.cards }
      else m.store }

/-- The call `updateCard(card)` with the bound card object. -/
def Modal.commitCard (m : Modal) : Modal :=
  { m with
    store := updateCard m.card m.store
    attached :=
      match findIndex (fun c => c.id == m.card.id) m.store.cards with
      | some _ => false
      | none => m.attached }

/-- Blur handler of the note field (`renderCardNote`): assigns `card.note`, then
`save("cards")`. -/
def noteBlur (innerText : String) (m : Modal) : Modal :=
  let m1 := m.edit (fun c => { c with note := jsTrim innerText })
  { m1 with store := save ["cards"] m1.store }

/-- Blur handler of the description field (`renderCardDescription`). -/
def descriptionBlur (innerText : String) (m : Modal) : Modal :=
  (m.edit (fun c => { c with description := jsTrim innerText })).commitCard

/-- Change handler of the priority dropdown (`renderPriorityDropdown`). -/
def priorityChange (value : String) (m : Modal) : Modal :=
  (m.edit (fun c => { c with priority := value })).commitCard

/-- Click on a day of the calendar (`renderDatePanel`). -/
def dueDateClick (dateStr : String) (m : Modal) : Modal :=
  (m.edit (fun c => { c with dueDate := some dateStr })).commitCard

/-- Change handler of the time select (`renderDatePanel`). -/
def dueTimeChange (value : String) (m : Modal) : Modal :=
  (m.edit (fun c => { c with dueTime := some value })).commitCard

/-- Blur handler of the modal title (`renderModalContent`). -/
def titleBlur (textContent : String) (m : Modal) : Modal :=
  let newTitle := jsTrim textContent
  if newTitle ≠ m.card.name then
    (m.edit (fun c => { c with name := newTitle })).commitCard
  else m

/-- Click on the completion toggle of the modal (`createCompleteToggle`): the card is
looked up afresh in `cards` and handed to `toggleCardCompletion`. -/
def completeToggleClick (m : Modal) : Modal :=
  match findIndex (fun c => c.id == m.card.id) m.store.cards with
  | none => m
  | some i =>
    { store := toggleCardCompletion i m.store
      card := if m.attached then { m.card with completed := !m.card.completed } else m.card
      attached := false }

/-- Model of `closeModal()` with the modal open; `textContent` is the text of the title
element.  The result is the store after the modal is closed. -/
def closeModal (textContent : String) (m : Modal) : Store :=
  let newTitle := jsTrim textContent
  if newTitle ≠ m.card.name then
    ((m.edit (fun c => { c with name := newTitle })).commitCard).store
  else m.store

/-- Blur handler of the board title (`openBoard`). -/
def boardTitleBlur (boardId textContent : String) (s : Store) : Store :=
  match s.boards.find? (fun b => b.id == boardId) with
  | none => s
  | some board =>
    let newName := jsTrim textContent
    if newName ≠ "" ∧ newName ≠ board.name then
      save ["boards"]
        { s with
          boards := updateFirst (fun b => b.id == boardId)
            (fun b => { b with name := newName }) s.boards }
    else s

/-- Blur handler of a column title (`renderColumns`). -/
def columnTitleBlur (colId textContent : String) (s : Store) : Store :=
  match s.columns.find? (fun c => c.id == colId) with
  | none => s
  | some _ =>
    let newName := jsTrim textContent
    if newName ≠ "" then
      save ["boards", "columns"]
        { s with
          columns := updateFirst (fun c => c.id == colId)
            (fun c => { c with name := newName }) s.columns }
    else s

/-- The modal opened on the card "Write spec" of `storeWithCard`. -/
def sampleModal : Modal :=
  { store := storeWithCard, card := sampleCard, attached := true }

/-! ## Columns of a board -/

/-- Model of `createColumn(name, colour, boardId)`; `freshId` is the value of
`generateId("column")`. -/
def createColumn (name colour boardId freshId : String) : Column :=
  { id := freshId, name := name, colour := colour, cardIds := [], boardId := boardId }

/-- Model of `addColumnToBoard(boardId, columnName, columnColour)`; `freshId` is the value
of `generateId("column")`. -/
def addColumnToBoard (boardId columnName columnColour freshId : String) (s : Store) : Store :=
  match s.boards.find? (fun b => b.id == boardId) with
  | none => s
  | some _ =>
    let newColumn := createColumn columnName columnColour boardId freshId
    save ["boards", "columns"]
      { s with
        columns := s.columns ++ [newColumn]
        boards := updateFirst (fun b => b.id == boardId)
          (fun b => { b with columnIds := b.columnIds ++ [newColumn.id] }) s.boards }

/-- Every id in every board's `columnIds` resolves (by `columns.find`) to a column whose
`boardId` is the id of that board. -/
def ColumnIdsResolve (s : Store) : Prop :=
  ∀ b ∈ s.boards, ∀ cid ∈ b.columnIds,
    (s.columns.find? (fun c => c.id == cid)).map (fun c => c.boardId) = some b.id

/-- Every board that lists `columnId` is the board object passed to `deleteColumn`, that
is, the first board with id `boardId`. -/
def ListedOnlyBy (s : Store) (boardId columnId : String) : Prop :=
  ∀ (i : Nat) (b : Board), s.boards[i]? = some b → columnId ∈ b.columnIds →
    findIndex (fun b => b.id == boardId) s.boards = some i

/-- Board "Sprint 1" owns one column, whose id has the form that `generateId("column")`
builds; board "Sprint 2" has no column. -/
def uuidColumnStore : Store :=
  initStore { emptySnapshot with
    boards := [mkBoard "board-1" "Sprint 1" ["column-123e4567-e89b-42d3-a456-426614174000"],
               mkBoard "board-2" "Sprint 2" []]
    columns := [{ sampleColumn with id := "column-123e4567-e89b-42d3-a456-426614174000" }]
    cards := [sampleCard] }

/-- Board "Sprint 1" owns "column-1"; board "Sprint 2" has no column. -/
def twoBoardStore : Store :=
  initStore { emptySnapshot with
    boards := [mkBoard "board-1" "Sprint 1" ["column-1"], mkBoard "board-2" "Sprint 2" []]
    columns := [sampleColumn]
    cards := [sampleCard] }

/-! ## Definitions for the drag from one column to the top of another -/

/-- The two cards of "Doing" with boxes that do not follow the document order: the
first child lies below the second. -/
def unorderedChildren : List Node :=
  [Node.card (mkCardEl "card-2" false 50), Node.card (mkCardEl "card-3" false 0)]

/-- The store of `dropWorld`; "card-1" is being dragged, no placeholder is shown yet,
and the boxes of "Doing" are those of `unorderedChildren`. -/
def unorderedWorld : World :=
  { store := dropWorld.store
    dom := [{ columnId := "column-1", children := [Node.card (mkCardEl "card-1" true 0)] },
            { columnId := "column-2", children := unorderedChildren }] }

/-- The store of `dropWorld`; "card-1" is being dragged, no placeholder is shown yet,
and the cards of "Doing" are stacked top to bottom. -/
def stackedWorld : World :=
  { store := dropWorld.store, dom := draggingDom }

/-- Column "To Do" lists "card-1", which is being dragged; column "Doing" lists
"card-2", rendered with the box of `borderlineCard`; no placeholder is shown yet. -/
def borderlineWorld : World :=
  { store := initStore { emptySnapshot with
      boards := [mkBoard "board-1" "Sprint 1" ["column-1", "column-2"]]
      columns := [sampleColumn, { doingColumn with cardIds := ["card-2"] }]
      cards := [sampleCard, { sampleCard with id := "card-2" }] }
    dom := [{ columnId := "column-1", children := [Node.card (mkCardEl "card-1" true 0)] },
            { columnId := "column-2", children := [Node.card borderlineCard] }] }

/-! ## Label checkbox, board creation -/

/-- Change handler of the checkbox of the label `labelId` in the label panel, as it acts
on the object `activeCard`; `checked` is the state of the checkbox after the click.  The
result is `none` when the handler throws, `activeCard.labels` being no list.  The
handler ends with `save("cards")`. -/
def labelCheckboxChange (labelId : String) (checked : Bool) (activeCard : Card) :
    Option Card :=
  match activeCard.labels with
  | none => none
  | some ls =>
    if checked then
      if !ls.any (fun l => l.id == labelId) then
        some { activeCard with labels := some (ls ++ [{ id := labelId }]) }
      else some activeCard
    else
      some { activeCard with labels := some (ls.filter (fun l => l.id != labelId)) }

/-- Model of `createBoard(name)`; without an argument the name is "Board n".  `freshId`
is the value of `generateId("board")`, `createdAt` that of `new Date().toISOString()`. -/
def createBoard (name : Option String) (freshId createdAt : String) (s : Store) : Store :=
  let newBoard : Board :=
    { id := freshId
      name := name.getD ("Board " ++ toString (s.boards.length + 1))
      createdAt := createdAt
      columnIds := []
      background := none
      blurAmount := none
      titleColor := none }
  save ["boards"] { s with boards := s.boards ++ [newBoard] }

/-- Every stored card that a column lists carries the `boardId` of that column. -/
def CardsFollowColumns (s : Store) : Prop :=
  ∀ col ∈ s.columns, ∀ c ∈ s.cards, c.id ∈ col.cardIds → c.boardId = some col.boardId

/-- A loaded document whose subtask entry names its card but no board. -/
def storeWithUnboundSubtask : Store :=
  initStore { emptySnapshot with
    boards := [mkBoard "board-1" "Sprint 1" ["column-1"]]
    columns := [sampleColumn]
    cards := [sampleCard]
    subtasks := some [{ id := "subtask-1", cardId := some "card-1", boardId := none }] }

/-- Two boards with one column and one card each; the card of each column carries the
id of the board of that column. -/
def twoBoardCardsStore : Store :=
  initStore { emptySnapshot with
    boards := [mkBoard "board-1" "Sprint 1" ["column-1"], mkBoard "board-2" "Sprint 2" ["column-2"]]
    columns := [sampleColumn,
      { id := "column-2", name := "Doing", colour := "grey", cardIds := ["card-2"],
        boardId := "board-2" }]
    cards := [sampleCard, { sampleCard with id := "card-2", boardId := some "board-2" }] }


/-! ## Definitions for the drop inside one column -/

/-- The store of `dropWorld`; "card-3", the second card of "Doing", is being dragged and
the placeholder sits above the first card of that column. -/
def reorderWorld : World :=
  { store := dropWorld.store
    dom :=
      [{ columnId := "column-1", children := [Node.card (mkCardEl "card-1" false 0)] },
       { columnId := "column-2", children := [Node.placeholder,
           Node.card (mkCardEl "card-2" false 0), Node.card (mkCardEl "card-3" true 50)] }] }


/-! ## storage.js

The file `data.json` is a value of `Option String`: its text, or `none` when it cannot
be read (`fs.readFileSync` throws).  `JSON.parse` and `JSON.stringify(·, null, 2)`
belong to the engine and are parameters of the functions below; an expression that may
throw is a value of `Except String`. -/

/-- A value as `JSON.parse` returns it.  Numbers are carried as rationals; the functions
of this section never look inside a value. -/
inductive Json where
  | null : Json
  | bool (b : Bool) : Json
  | num (x : ℚ) : Json
  | str (s : String) : Json
  | arr (items : List Json) : Json
  | obj (members : List (String × Json)) : Json

/-- Model of `fs.readFileSync(dataPath, "utf-8")`. -/
def readFileSync (file : Option String) : Except String String :=
  match file with
  | some raw => Except.ok raw
  | none => Except.error "ENOENT"

/-- Model of `try { body } catch { handler }`. -/
def tryCatch {α : Type} (body : Except String α) (handler : Unit → Except String α) :
    Except String α :=
  match body with
  | Except.ok v => Except.ok v
  | Except.error _ => handler ()

/-- The object literal returned by the `catch` block of `loadData`. -/
def emptyDocument : Json :=
  Json.obj [("boards", Json.arr []), ("columns", Json.arr []), ("cards", Json.arr []),
    ("labels", Json.arr [])]

/-- Model of `loadData()`; `parse` is `JSON.parse`, `file` the state of `data.json`. -/
def loadData (parse : String → Except String Json) (file : Option String) :
    Except String Json :=
  tryCatch
    (match readFileSync file with
      | Except.ok raw => parse raw
      | Except.error e => Except.error e)
    (fun _ => Except.ok emptyDocument)

/-- Model of `saveData(data)`: the new state of `data.json`; `stringify` is
`JSON.stringify(·, null, 2)`. -/
def saveData (stringify : Json → String) (data : Json) (_file : Option String) :
    Option String :=
  some (stringify data)

/-- Model of `saveData(loadData())`; an exception of `loadData` would leave the file as
it is. -/
def saveLoaded (parse : String → Except String Json) (stringify : Json → String)
    (file : Option String) : Option String :=
  match loadData parse file with
  | Except.ok data => saveData stringify data file
  | Except.error _ => file

/-- Property of the engine's JSON functions: the text written for a parsed value parses
again, to a value for which the same text is written. -/
def StringifyStable (parse : String → Except String Json) (stringify : Json → String) :
    Prop :=
  ∀ raw d, parse raw = Except.ok d →
    ∃ d1, parse (stringify d) = Except.ok d1 ∧ stringify d1 = stringify d

/-- A parser that knows two texts. -/
def parseTiny (raw : String) : Except String Json :=
  if raw = "null" then Except.ok Json.null
  else if raw = "[]" then Except.ok (Json.arr [])
  else Except.error "SyntaxError"

/-- A printer for the values of `parseTiny`. -/
def stringifyTiny : Json → String
  | Json.arr [] => "[]"
  | _ => "null"


/-! ## The card-element cache

`cardElements` is a `Map` from card id to card element.  Two elements created by two
calls of `document.createElement` are different objects even when they carry the same
`data-id`, so an element is represented here by the serial number of its creation.  The
only statement of the program that writes the map is `cardElements.set` in
`renderCard`; nothing deletes from it. -/

/-- Model of `Map.prototype.set` on the entries of the map in insertion order. -/
def mapSet (k : String) (v : Nat) : List (String × Nat) → List (String × Nat)
  | [] => [(k, v)]
  | e :: rest => if e.1 == k then (k, v) :: rest else e :: mapSet k v rest

/-- Model of `Map.prototype.get`; `none` stands for `undefined`. -/
def mapGet (k : String) (m : List (String × Nat)) : Option Nat :=
  (m.find? (fun e => e.1 == k)).map (fun e => e.2)

/-- The card elements of the page: the entries of `cardElements`, the card elements
attached to the document as pairs of `dataset.id` and element in document order, and the
number of card elements created so far. -/
structure CardView where
  cardElements : List (String × Nat)
  mounted : List (String × Nat)
  created : Nat
deriving DecidableEq, Repr

/-- The part of `renderCard(card)` that concerns the elements: a new element is created
and stored in `cardElements` under the id of the card; the element is returned. -/
def CardView.renderCard (cardId : String) (v : CardView) : Nat × CardView :=
  (v.created,
    { v with cardElements := mapSet cardId v.created v.cardElements
             created := v.created + 1 })

/-- Tail of the save-button click handler, and body of the loop of `renderColumns`:
`renderCard` followed by `cardsContainer.appendChild(cardEl)`. -/
def CardView.appendCard (cardId : String) (v : CardView) : CardView :=
  let r := v.renderCard cardId
  { r.2 with mounted := r.2.mounted ++ [(cardId, r.1)] }

/-- Card part of `renderColumns`: the containers are emptied and the cards found for the
ids of the columns are rendered and appended; `cardIds` lists those ids in the order of
the columns. -/
def CardView.renderColumns (cardIds : List String) (v : CardView) : CardView :=
  cardIds.foldl (fun acc cardId => acc.appendCard cardId) { v with mounted := [] }

/-- Re-render at the end of `closeModal()` for the card `cardId`; `stored` tells whether
`cards.find` finds the card.  `document.querySelector` returns the first element with
that `data-id`, which `replaceWith` replaces by the element that `renderCard` returns. -/
def CardView.closeModal (cardId : String) (stored : Bool) (v : CardView) : CardView :=
  if stored then
    match v.mounted.find? (fun m => m.1 == cardId) with
    | some _ =>
      let r := v.renderCard cardId
      { r.2 with mounted := updateFirst (fun m => m.1 == cardId) (fun _ => (cardId, r.1))
                   r.2.mounted }
    | none => v
  else v

/-- Document part of the delete-card click handler: the first element with the `data-id`
of the card is removed; the `closeModal()` that follows finds no stored card. -/
def CardView.deleteCard (cardId : String) (v : CardView) : CardView :=
  CardView.closeModal cardId false
    { v with mounted := v.mounted.eraseP (fun m => m.1 == cardId) }

/-- The page before any card is rendered. -/
def CardView.initial : CardView :=
  { cardElements := [], mounted := [], created := 0 }

/-- No two attached card elements carry the same `data-id`, the entry of `cardElements`
for the `data-id` of an attached card element is that element, and every element that
is attached or cached has been created. -/
def CardView.Tracks (v : CardView) : Prop :=
  (v.mounted.map (fun m => m.1)).Nodup ∧
  (∀ m ∈ v.mounted, mapGet m.1 v.cardElements = some m.2) ∧
  (∀ m ∈ v.mounted, m.2 < v.created) ∧
  (∀ e ∈ v.cardElements, e.2 < v.created)


/-- Document part of `colDiv.remove()` in `deleteColumn`: the card elements `els` inside
the column are detached with it. -/
def CardView.removeSubtree (els : List Nat) (v : CardView) : CardView :=
  { v with mounted := v.mounted.filter (fun m => !els.contains m.2) }


/-- A store whose only board has an id of the form that `generateId("board")` builds. -/
def uuidBoardStore : Store :=
  initStore { emptySnapshot with
    boards := [mkBoard "board-123e4567-e89b-42d3-a456-426614174000" "Sprint 1" []] }


end TaskApp

namespace TaskApp

/-! ## Auxiliary lemmas -/

section Projections
variable (types : List String) (s : Store)

@[simp] theorem save_boards : (save types s).boards = s.boards := rfl
@[simp] theorem save_columns : (save types s).columns = s.columns := rfl
@[simp] theorem save_cards : (save types s).cards = s.cards := rfl
@[simp] theorem save_labels : (save types s).labels = s.labels := rfl
@[simp] theorem save_subtasks : (save types s).subtasks = s.subtasks := rfl
@[simp] theorem save_comments : (save types s).comments = s.comments := rfl

theorem save_written_length : (save types s).written.length = s.written.length + 1 := by
  simp [save]

end Projections

theorem updateFirst_of_find_none {α : Type} (p : α → Bool) (f : α → α) :
    ∀ l : List α, l.find? p = none → updateFirst p f l = l
  | [], _ => rfl
  | x :: xs, h => by
    by_cases hx : p x = true
    · simp [List.find?, hx] at h
    · have hx' : p x = false := by simpa using hx
      have h' : xs.find? p = none := by simpa [List.find?, hx'] using h
      simp [updateFirst, hx', updateFirst_of_find_none p f xs h']

theorem updateFirst_split {α : Type} (p : α → Bool) (f : α → α) :
    ∀ (l : List α) (x : α), l.find? p = some x →
      ∃ pre post, l = pre ++ x :: post ∧ (∀ y ∈ pre, p y = false) ∧
        updateFirst p f l = pre ++ f x :: post
  | [], x, h => by simp at h
  | y :: ys, x, h => by
    by_cases hy : p y = true
    · have hxy : y = x := by simpa [List.find?, hy] using h
      subst hxy
      exact ⟨[], ys, rfl, by simp, by simp [updateFirst, hy]⟩
    · have hy' : p y = false := by simpa using hy
      have h' : ys.find? p = some x := by simpa [List.find?, hy'] using h
      obtain ⟨pre, post, h1, h2, h3⟩ := updateFirst_split p f ys x h'
      refine ⟨y :: pre, post, by simp [h1], ?_, by simp [updateFirst, hy', h3]⟩
      intro z hz
      rcases List.mem_cons.1 hz with rfl | hz
      · exact hy'
      · exact h2 z hz

theorem findIndex_none {α : Type} (p : α → Bool) :
    ∀ l : List α, findIndex p l = none ↔ ∀ x ∈ l, p x = false
  | [] => by simp [findIndex]
  | x :: xs => by
    by_cases hx : p x = true
    · simp [findIndex, hx]
    · have hx' : p x = false := by simpa using hx
      simp [findIndex, hx', findIndex_none p xs]

theorem findIndex_split {α : Type} (p : α → Bool) (a : α) :
    ∀ (l : List α) (i : Nat), findIndex p l = some i →
      ∃ pre old post, l = pre ++ old :: post ∧ pre.length = i ∧ p old = true ∧
        (∀ y ∈ pre, p y = false) ∧ l.set i a = pre ++ a :: post
  | [], i, h => by simp [findIndex] at h
  | x :: xs, i, h => by
    by_cases hx : p x = true
    · have hi : i = 0 := by simpa [findIndex, hx, eq_comm] using h
      subst hi
      exact ⟨[], x, xs, rfl, rfl, hx, by simp, rfl⟩
    · have hx' : p x = false := by simpa using hx
      simp only [findIndex, hx', Bool.false_eq_true, if_false, Option.map_eq_some'] at h
      obtain ⟨j, hj, rfl⟩ := h
      obtain ⟨pre, old, post, h1, h2, h3, h4, h5⟩ := findIndex_split p a xs j hj
      refine ⟨x :: pre, old, post, by simp [h1], by simp [h2], h3, ?_, by simp [h5]⟩
      intro z hz
      rcases List.mem_cons.1 hz with rfl | hz
      · exact hx'
      · exact h4 z hz


/-! ## Delete-card action -/

/-- C1 (code defect): in the store produced by the add-card action, the confirmed
delete-card action removes the card from `cards` but its id stays in the column's
`cardIds`, because the handler looks the column up through `card.columnId`, a property
no card is ever given. -/
theorem deleteCardClick_leaves_dangling_cardId :
    storeWithCard.cards = [sampleCard] ∧
    storeWithCard.columns = [sampleColumn] ∧
    sampleCard.columnId = none ∧
    (deleteCardClick sampleCard true storeWithCard).cards = [] ∧
    (deleteCardClick sampleCard true storeWithCard).columns = [sampleColumn] ∧
    "card-1" ∈ sampleColumn.cardIds := by
  decide


/-! ## deleteBoard -/

/-- C3 (counterexample): the claim quantified over every store fails.  In `legacyStore`
the column of "board-1" lists "card-1", whose card has no `boardId`; `deleteBoard`
selects cards by their own `boardId`, so the card survives. -/
theorem deleteBoard_keeps_card_of_removed_column :
    ¬ (∀ (s : Store) (B : Board), B ∈ s.boards →
        ∀ col ∈ s.columns, col.boardId = B.id →
          ∀ c ∈ (deleteBoard B.id s).cards, c.id ∉ col.cardIds) := by
  intro h
  have h1 := h legacyStore (mkBoard "board-1" "Sprint 1" ["column-1"]) (by decide)
    sampleColumn (by decide) (by decide)
    (createCard "card-1" 0 { name := some "Write spec" }) (by decide)
  exact h1 (by decide)

/-- C3 (amended): if every stored card listed by a column of board `id` carries
`boardId = id`, then after `deleteBoard id` no card listed by that (removed) column
remains in `cards`. -/
theorem deleteBoard_removes_cards_of_removed_column (s : Store) (id : String) (col : Column)
    (hcol : col ∈ s.columns) (hboard : col.boardId = id)
    (hlink : ∀ c ∈ s.cards, c.id ∈ col.cardIds → c.boardId = some id) :
    col ∉ (deleteBoard id s).columns ∧
    ∀ c ∈ (deleteBoard id s).cards, c.id ∉ col.cardIds := by
  constructor
  · intro hmem
    simp only [deleteBoard, save_columns, List.mem_map, List.mem_filter] at hmem
    obtain ⟨c0, ⟨_, hc0⟩, rfl⟩ := hmem
    simp at hc0
    exact hc0 hboard
  · intro c hc hmem
    simp only [deleteBoard, save_cards, List.mem_filter] at hc
    have := hlink c hc.1 hmem
    simp [this] at hc

/-- Witness for C3 (amended): the store produced by the add-card action. -/
theorem deleteBoard_removes_cards_of_removed_column_witness :
    sampleColumn ∉ (deleteBoard "board-1" storeWithCard).columns ∧
    ∀ c ∈ (deleteBoard "board-1" storeWithCard).cards, c.id ∉ sampleColumn.cardIds :=
  deleteBoard_removes_cards_of_removed_column storeWithCard "board-1" sampleColumn
    (by decide) (by decide) (by decide)

/-- C4: after `deleteBoard id` no board has that id and no column has `boardId = id`;
the boards are exactly the other boards in their original order, and the columns are
exactly the columns with a different `boardId`, in their original order, each with its
id, name, colour and `boardId` unchanged. -/
theorem deleteBoard_boards_columns (s : Store) (id : String) :
    (∀ b ∈ (deleteBoard id s).boards, b.id ≠ id) ∧
    (∀ col ∈ (deleteBoard id s).columns, col.boardId ≠ id) ∧
    (deleteBoard id s).boards = s.boards.filter (fun b => b.id != id) ∧
    (∀ b ∈ s.boards, b.id ≠ id → b ∈ (deleteBoard id s).boards) ∧
    (deleteBoard id s).columns.map Column.header =
      (s.columns.filter (fun col => col.boardId != id)).map Column.header ∧
    (∀ col ∈ s.columns, col.boardId ≠ id →
      ∃ col1 ∈ (deleteBoard id s).columns, col1.header = col.header) := by
  have hcols : (deleteBoard id s).columns.map Column.header =
      (s.columns.filter (fun col => col.boardId != id)).map Column.header := by
    simp only [deleteBoard, save_columns, List.map_map]
    rfl
  refine ⟨?_, ?_, rfl, ?_, hcols, ?_⟩
  · intro b hb
    simp only [deleteBoard, save_boards, List.mem_filter] at hb
    simpa using hb.2
  · intro col hc
    simp only [deleteBoard, save_columns, List.mem_map, List.mem_filter] at hc
    obtain ⟨c0, ⟨_, hc0⟩, rfl⟩ := hc
    simpa using hc0
  · intro b hb hne
    simp only [deleteBoard, save_boards, List.mem_filter]
    exact ⟨hb, by simpa using hne⟩
  · intro col hc hne
    have hmem : col.header ∈ (deleteBoard id s).columns.map Column.header := by
      rw [hcols]
      exact List.mem_map.2 ⟨col, List.mem_filter.2 ⟨hc, by simpa using hne⟩, rfl⟩
    obtain ⟨col1, h1, h2⟩ := List.mem_map.1 hmem
    exact ⟨col1, h1, h2⟩


/-! ## deleteColumn -/

/-- C5 (counterexample): `deleteColumn` edits the `columnIds` of the board object it is
passed, not of the board named by the column's `boardId`.  In `crossLinkedStore` the
column "column-1" has `boardId = "board-1"` and is also listed by "board-2"; deleting it
from the view of "board-2" leaves its id in the `columnIds` of "board-1". -/
theorem deleteColumn_keeps_columnId_in_owner_board :
    crossLinkedStore.columns.find? (fun c => c.id == "column-1") = some sampleColumn ∧
    sampleColumn.boardId = "board-1" ∧
    ∃ b ∈ (deleteColumn "board-2" "column-1" true crossLinkedStore).boards,
      b.id = sampleColumn.boardId ∧ "column-1" ∈ b.columnIds := by
  refine ⟨by decide, by decide, mkBoard "board-1" "Sprint 1" ["column-1"], ?_, ?_, ?_⟩ <;> decide

/-- C5 (amended): when a column with id `columnId` exists and the user confirms, after
`deleteColumn` no column has that id, the board passed by the caller (the first board
with id `boardId`) no longer lists `columnId` while its other column ids and all other
boards are unchanged, no card listed by the column remains in `cards`, and no entry of
`subtasks` has a `cardId` listed by the column. -/
theorem deleteColumn_cascade (s : Store) (boardId columnId : String) (column : Column)
    (hfind : s.columns.find? (fun c => c.id == columnId) = some column) :
    (∀ c ∈ (deleteColumn boardId columnId true s).columns, c.id ≠ columnId) ∧
    column ∉ (deleteColumn boardId columnId true s).columns ∧
    (∀ board, s.boards.find? (fun b => b.id == boardId) = some board →
      ∃ pre post, s.boards = pre ++ board :: post ∧ (∀ b ∈ pre, b.id ≠ boardId) ∧
        (deleteColumn boardId columnId true s).boards =
          pre ++ { board with columnIds := board.columnIds.filter (fun id => id != columnId) }
            :: post ∧
        columnId ∉ board.columnIds.filter (fun id => id != columnId)) ∧
    (s.boards.find? (fun b => b.id == boardId) = none →
      (deleteColumn boardId columnId true s).boards = s.boards) ∧
    (∀ c ∈ (deleteColumn boardId columnId true s).cards, c.id ∉ column.cardIds) ∧
    (∀ sub ∈ (deleteColumn boardId columnId true s).subtasks,
      ∀ cid, sub.cardId = some cid → cid ∉ column.cardIds) := by
  have hid : column.id = columnId := by
    have := List.find?_some hfind
    simpa using this
  have hcols : ∀ c ∈ (deleteColumn boardId columnId true s).columns, c.id ≠ columnId := by
    intro c hc
    simp only [deleteColumn, hfind, Bool.not_true, Bool.false_eq_true, if_false, save_columns,
      List.mem_filter] at hc
    simpa using hc.2
  refine ⟨hcols, fun hmem => hcols column hmem hid, ?_, ?_, ?_, ?_⟩
  · intro board hb
    obtain ⟨pre, post, h1, h2, h3⟩ := updateFirst_split (fun b => b.id == boardId)
      (fun b => { b with columnIds := b.columnIds.filter (fun id => id != columnId) })
      s.boards board hb
    refine ⟨pre, post, h1, ?_, ?_, ?_⟩
    · intro b hbm
      simpa using h2 b hbm
    · simp only [deleteColumn, hfind, Bool.not_true, Bool.false_eq_true, if_false, save_boards]
      exact h3
    · simp
  · intro hb
    simp only [deleteColumn, hfind, Bool.not_true, Bool.false_eq_true, if_false, save_boards]
    exact updateFirst_of_find_none _ _ _ hb
  · intro c hc hmem
    simp only [deleteColumn, hfind, Bool.not_true, Bool.false_eq_true, if_false, save_cards,
      List.mem_filter] at hc
    simp [hmem] at hc
  · intro sub hsub cid hcid hmem
    simp only [deleteColumn, hfind, Bool.not_true, Bool.false_eq_true, if_false, save_subtasks,
      List.mem_filter, hcid] at hsub
    simp [hmem] at hsub

/-- Witness for C5 (amended): deleting "column-1" from the view of "board-1". -/
theorem deleteColumn_cascade_witness :
    (deleteColumn "board-1" "column-1" true storeWithCard).columns = [] ∧
    (deleteColumn "board-1" "column-1" true storeWithCard).cards = [] ∧
    ∀ c ∈ (deleteColumn "board-1" "column-1" true storeWithCard).cards,
      c.id ∉ sampleColumn.cardIds :=
  ⟨by decide, by decide,
    (deleteColumn_cascade storeWithCard "board-1" "column-1" sampleColumn (by decide)).2.2.2.2.1⟩


/-! ## Delete-label action -/

/-- C6: after the confirmed delete-label action for `L`, no label with the id of `L`
(in particular not `L`) is in `labels`; the card `C` stored at position `i` is still
at position `i` with every field other than `labels` unchanged; its `labels` are the
old references without those of id `L.id`, the others in their original order. -/
theorem deleteLabelClick_frame (s : Store) (L : Label) (i : Nat) (C : Card)
    (hC : s.cards[i]? = some C) :
    (∀ l ∈ (deleteLabelClick L true s).labels, l.id ≠ L.id) ∧
    L ∉ (deleteLabelClick L true s).labels ∧
    (deleteLabelClick L true s).cards.length = s.cards.length ∧
    (deleteLabelClick L true s).cards[i]? =
      some { C with labels := C.labels.map (fun ls => ls.filter (fun l => l.id != L.id)) } ∧
    (∀ ls, C.labels = some ls →
      ∀ r ∈ ls.filter (fun l => l.id != L.id), r.id ≠ L.id) ∧
    (∀ ls, C.labels = some ls →
      (ls.filter (fun l => l.id != L.id)).Sublist ls ∧
      ∀ r ∈ ls, r.id ≠ L.id → r ∈ ls.filter (fun l => l.id != L.id)) := by
  have hlab : ∀ l ∈ (deleteLabelClick L true s).labels, l.id ≠ L.id := by
    intro l hl
    simp only [deleteLabelClick, Bool.not_true, Bool.false_eq_true, if_false, save_labels,
      List.mem_filter] at hl
    simpa using hl.2
  refine ⟨hlab, fun h => hlab L h rfl, ?_, ?_, ?_, ?_⟩
  · simp [deleteLabelClick]
  · simp only [deleteLabelClick, Bool.not_true, Bool.false_eq_true, if_false, save_cards,
      List.getElem?_map, hC, Option.map_some']
    cases hl : C.labels <;> simp [hl]
    cases C
    simp_all
  · intro ls _ r hr
    simpa using (List.mem_filter.1 hr).2
  · intro ls _
    refine ⟨List.filter_sublist _, fun r hr hne => List.mem_filter.2 ⟨hr, by simpa using hne⟩⟩


/-- Witness for C6: a card carrying the labels "Bug" and "Urgent" keeps only "Urgent"
after the label "Bug" is deleted. -/
theorem deleteLabelClick_frame_witness :
    (deleteLabelClick (Label.mk "label-1" "Bug" "red") true
        { storeWithCard with
          labels := [Label.mk "label-1" "Bug" "red", Label.mk "label-2" "Urgent" "orange"]
          cards := [{ sampleCard with labels := some [⟨"label-1"⟩, ⟨"label-2"⟩] }] }).cards[0]? =
      some { sampleCard with labels := some [⟨"label-2"⟩] } :=
  (deleteLabelClick_frame
    { storeWithCard with
      labels := [Label.mk "label-1" "Bug" "red", Label.mk "label-2" "Urgent" "orange"]
      cards := [{ sampleCard with labels := some [⟨"label-1"⟩, ⟨"label-2"⟩] }] }
    (Label.mk "label-1" "Bug" "red") 0
    { sampleCard with labels := some [⟨"label-1"⟩, ⟨"label-2"⟩] } rfl).2.2.2.1

/-! ## updateCard -/

/-- C7: if some stored card has the id of `c`, `updateCard c` puts `c` in the place of
the first such card and leaves every other position and the length unchanged; if no
stored card has that id, `updateCard c` returns the store as it was (no change to any
collection, nothing written). -/
theorem updateCard_replaces_or_noop (s : Store) (c : Card) :
    ((∃ x ∈ s.cards, x.id = c.id) →
      ∃ pre old post, s.cards = pre ++ old :: post ∧ old.id = c.id ∧
        (∀ y ∈ pre, y.id ≠ c.id) ∧
        (updateCard c s).cards = pre ++ c :: post ∧
        (updateCard c s).cards.length = s.cards.length) ∧
    ((∀ x ∈ s.cards, x.id ≠ c.id) →
      updateCard c s = s ∧ (updateCard c s).written = s.written) := by
  constructor
  · rintro ⟨x, hx, hid⟩
    cases hfi : findIndex (fun k => k.id == c.id) s.cards with
    | none =>
      have := (findIndex_none _ _).1 hfi x hx
      simp [hid] at this
    | some i =>
      obtain ⟨pre, old, post, h1, _, h3, h4, h5⟩ := findIndex_split _ c _ _ hfi
      refine ⟨pre, old, post, h1, by simpa using h3, ?_, ?_, ?_⟩
      · intro y hy
        simpa using h4 y hy
      · simp only [updateCard, hfi, save_cards]
        exact h5
      · simp [updateCard, hfi]
  · intro h
    have hfi : findIndex (fun k => k.id == c.id) s.cards = none :=
      (findIndex_none _ _).2 (fun x hx => by simpa using h x hx)
    simp [updateCard, hfi]

/-- Witness for C7: renaming the stored card, and updating a card that is not stored. -/
theorem updateCard_replaces_or_noop_witness :
    (∃ pre old post, storeWithCard.cards = pre ++ old :: post ∧ old.id = "card-1" ∧
        (∀ y ∈ pre, y.id ≠ "card-1") ∧
        (updateCard { sampleCard with name := "Write proof" } storeWithCard).cards =
          pre ++ { sampleCard with name := "Write proof" } :: post ∧
        (updateCard { sampleCard with name := "Write proof" } storeWithCard).cards.length =
          storeWithCard.cards.length) ∧
    (updateCard { sampleCard with id := "card-9" } storeWithCard = storeWithCard ∧
      (updateCard { sampleCard with id := "card-9" } storeWithCard).written =
        storeWithCard.written) :=
  ⟨(updateCard_replaces_or_noop storeWithCard { sampleCard with name := "Write proof" }).1
      ⟨sampleCard, by decide, by decide⟩,
   (updateCard_replaces_or_noop storeWithCard { sampleCard with id := "card-9" }).2
      (by decide)⟩


/-! ## Add-card action -/

/-- C8: in the add-card action of the column `column` (found by id `colId`) with a
non-empty trimmed title: if a stored card already has the generated id, the store is
left as it was; otherwise one card with that id, the trimmed title as name and the
column's `boardId` is appended to `cards` and the id is appended to the `cardIds` of
that column, all other columns unchanged.  Pairwise distinct card ids stay pairwise
distinct. -/
theorem saveCardClick_guards_duplicate_id (s : Store) (colId inputValue cardId innerId : String)
    (now : Nat) (column : Column)
    (hcol : s.columns.find? (fun c => c.id == colId) = some column)
    (htitle : jsTrim inputValue ≠ "") :
    ((∃ c ∈ s.cards, c.id = cardId) →
      saveCardClick colId inputValue cardId innerId now s = s) ∧
    ((∀ c ∈ s.cards, c.id ≠ cardId) →
      ∃ newCard pre post,
        newCard.id = cardId ∧ newCard.name = jsTrim inputValue ∧
        newCard.boardId = some column.boardId ∧
        (saveCardClick colId inputValue cardId innerId now s).cards = s.cards ++ [newCard] ∧
        ((saveCardClick colId inputValue cardId innerId now s).cards.map (fun c => c.id)).count
          cardId = 1 ∧
        s.columns = pre ++ column :: post ∧ (∀ c ∈ pre, c.id ≠ colId) ∧
        (saveCardClick colId inputValue cardId innerId now s).columns =
          pre ++ { column with cardIds := column.cardIds ++ [cardId] } :: post) ∧
    ((s.cards.map (fun c => c.id)).Nodup →
      ((saveCardClick colId inputValue cardId innerId now s).cards.map (fun c => c.id)).Nodup) := by
  have hdup : (∃ c ∈ s.cards, c.id = cardId) →
      saveCardClick colId inputValue cardId innerId now s = s := by
    rintro ⟨c, hc, hid⟩
    have hany : s.cards.any (fun c => c.id == cardId) = true :=
      List.any_eq_true.2 ⟨c, hc, by simpa using hid⟩
    simp [saveCardClick, hcol, htitle, hany]
  have hfresh : (∀ c ∈ s.cards, c.id ≠ cardId) →
      (saveCardClick colId inputValue cardId innerId now s).cards =
        s.cards ++ [createCard innerId now
          { id := some cardId, name := some (jsTrim inputValue),
            boardId := some column.boardId }] ∧
      (saveCardClick colId inputValue cardId innerId now s).columns =
        updateFirst (fun c => c.id == colId)
          (fun c => { c with cardIds := c.cardIds ++ [cardId] }) s.columns := by
    intro h
    have hany : s.cards.any (fun c => c.id == cardId) = false := by
      rw [List.any_eq_false]
      intro c hc
      simpa using h c hc
    simp [saveCardClick, hcol, htitle, hany]
  refine ⟨hdup, ?_, ?_⟩
  · intro h
    obtain ⟨hcards, hcols⟩ := hfresh h
    obtain ⟨pre, post, h1, h2, h3⟩ := updateFirst_split (fun c => c.id == colId)
      (fun c => { c with cardIds := c.cardIds ++ [cardId] }) s.columns column hcol
    refine ⟨_, pre, post, rfl, rfl, rfl, hcards, ?_, h1, ?_, ?_⟩
    · rw [hcards]
      have hnot : cardId ∉ s.cards.map (fun c => c.id) := by
        intro hm
        obtain ⟨c, hc, hid⟩ := List.mem_map.1 hm
        exact h c hc hid
      simp [List.count_eq_zero_of_not_mem hnot, createCard]
    · intro c hc
      simpa using h2 c hc
    · rw [hcols]
      exact h3
  · intro hnd
    by_cases hex : ∃ c ∈ s.cards, c.id = cardId
    · rw [hdup hex]
      exact hnd
    · have h : ∀ c ∈ s.cards, c.id ≠ cardId := by
        intro c hc hid
        exact hex ⟨c, hc, hid⟩
      rw [(hfresh h).1]
      simp only [List.map_append, List.map_cons, List.map_nil]
      refine List.Nodup.append hnd (List.nodup_singleton _) ?_
      intro x hx hx2
      obtain ⟨c, hc, hid⟩ := List.mem_map.1 hx
      have hx3 : x = cardId := by simpa [createCard] using hx2
      exact h c hc (hid.trans hx3)

/-- Witness for C8: adding "Write spec" to the empty column, then a second click for
which the generator returns the same id. -/
theorem saveCardClick_guards_duplicate_id_witness :
    saveCardClick "column-1" "Again" "card-1" "card-0" 1 storeWithCard = storeWithCard ∧
    (saveCardClick "column-1" "  Write spec " "card-1" "card-0" 0 sampleStore).cards =
      [sampleCard] :=
  ⟨(saveCardClick_guards_duplicate_id storeWithCard "column-1" "Again" "card-1" "card-0" 1
      sampleColumn (by decide) (by decide)).1 ⟨sampleCard, by decide, by decide⟩,
   by decide⟩


/-! ## getDragAfterElement -/

theorem isClosest_nil (fl : ℚ → ℚ) (y : ℚ) :
    IsClosest fl y [] { offset := none, element := none } :=
  Or.inl ⟨rfl, by simp⟩

theorem getElem?_append_singleton_of_lt {α : Type} (l : List α) (x : α) (j : Nat)
    (hj : j < l.length) : (l ++ [x])[j]? = l[j]? := by
  rw [List.getElem?_append_left hj]

theorem getElem?_lt_length {α : Type} {l : List α} {i : Nat} {e : α} (h : l[i]? = some e) :
    i < l.length := by
  by_contra hge
  have : l[i]? = none := List.getElem?_eq_none (by omega)
  rw [this] at h
  cases h

theorem isClosest_step (fl : ℚ → ℚ) (y : ℚ) (l : List CardEl) (c : Closest) (x : CardEl)
    (h : IsClosest fl y l c) : IsClosest fl y (l ++ [x]) (closestStep fl y c x) := by
  rcases h with ⟨rfl, hneg⟩ | ⟨i, e, hie, rfl, he, hmax, hfirst⟩
  · by_cases hx : offset fl y x < 0
    · right
      refine ⟨l.length, x, by simp, by simp [closestStep, hx, exceeds], hx, ?_, ?_⟩
      · intro e1 he1 hneg1
        rcases List.mem_append.1 he1 with h1 | h1
        · exact absurd hneg1 (hneg e1 h1)
        · simp at h1
          rw [h1]
      · intro j e1 hj hje hneg1
        rw [getElem?_append_singleton_of_lt l x j hj] at hje
        exact absurd hneg1 (hneg e1 (List.getElem?_mem hje))
    · left
      refine ⟨by simp [closestStep, hx], ?_⟩
      intro e1 he1
      rcases List.mem_append.1 he1 with h1 | h1
      · exact hneg e1 h1
      · simp at h1
        rw [h1]
        exact hx
  · have hil : i < l.length := getElem?_lt_length hie
    by_cases hx : offset fl y x < 0 ∧ offset fl y x > offset fl y e
    · right
      refine ⟨l.length, x, by simp, by simp [closestStep, hx.1, hx.2, exceeds], hx.1, ?_, ?_⟩
      · intro e1 he1 hneg1
        rcases List.mem_append.1 he1 with h1 | h1
        · exact le_of_lt (lt_of_le_of_lt (hmax e1 h1 hneg1) hx.2)
        · simp at h1
          rw [h1]
      · intro j e1 hj hje hneg1
        rw [getElem?_append_singleton_of_lt l x j hj] at hje
        exact lt_of_le_of_lt (hmax e1 (List.getElem?_mem hje) hneg1) hx.2
    · right
      have hstep : closestStep fl y { offset := some (offset fl y e), element := some e } x =
          { offset := some (offset fl y e), element := some e } := by
        simp only [closestStep, exceeds]
        rw [if_neg]
        simpa using hx
      refine ⟨i, e, by rw [getElem?_append_singleton_of_lt l x i hil]; exact hie, hstep, he,
        ?_, ?_⟩
      · intro e1 he1 hneg1
        rcases List.mem_append.1 he1 with h1 | h1
        · exact hmax e1 h1 hneg1
        · simp at h1
          rw [h1]
          rw [h1] at hneg1
          by_contra hgt
          exact hx ⟨hneg1, lt_of_not_le hgt⟩
      · intro j e1 hj hje hneg1
        rw [getElem?_append_singleton_of_lt l x j (lt_trans hj hil)] at hje
        exact hfirst j e1 hj hje hneg1

theorem isClosest_foldl (fl : ℚ → ℚ) (y : ℚ) (l : List CardEl) :
    IsClosest fl y l (l.foldl (closestStep fl y) { offset := none, element := none }) := by
  induction l using List.reverseRecOn with
  | nil => exact isClosest_nil fl y
  | append_singleton l x ih =>
    rw [List.foldl_append]
    exact isClosest_step fl y l _ x ih

theorem dragging_false_of_mem_cardsNotDragging (children : List Node) (el : CardEl)
    (h : el ∈ cardsNotDragging children) : el.dragging = false ∧ Node.card el ∈ children := by
  simp only [cardsNotDragging, List.mem_filterMap] at h
  obtain ⟨n, hn, hsome⟩ := h
  cases n with
  | placeholder => simp at hsome
  | card e =>
    by_cases hd : e.dragging = true
    · simp [hd] at hsome
    · simp only [hd, Bool.false_eq_true, if_false, Option.some.injEq] at hsome
      subst hsome
      exact ⟨by simpa using hd, hn⟩


theorem getDragAfterElement_isClosest (fl : ℚ → ℚ) (children : List Node) (y : ℚ) :
    ∃ c, IsClosest fl y (cardsNotDragging children) c ∧
      getDragAfterElement fl children y = c.element :=
  ⟨_, isClosest_foldl fl y (cardsNotDragging children), rfl⟩

theorem find?_eq_some_of_first {α : Type} (p : α → Bool) :
    ∀ (l : List α) (i : Nat) (e : α), l[i]? = some e → p e = true →
      (∀ (j : Nat) (e1 : α), j < i → l[j]? = some e1 → p e1 = false) → l.find? p = some e
  | [], i, e, h, _, _ => by simp at h
  | x :: xs, 0, e, h, hp, _ => by
    have hx : x = e := by simpa using h
    subst hx
    simp [List.find?, hp]
  | x :: xs, i + 1, e, h, hp, hfirst => by
    have hx : p x = false := hfirst 0 x (Nat.succ_pos i) (by simp)
    have h1 : xs[i]? = some e := by simpa using h
    have := find?_eq_some_of_first p xs i e h1 hp (fun j e1 hj hje =>
      hfirst (j + 1) e1 (Nat.succ_lt_succ hj) (by simpa using hje))
    simp [List.find?, hx, this]

theorem insertBeforeFirst_split (n ref : Node) :
    ∀ l : List Node, ref ∈ l →
      ∃ pre post, l = pre ++ ref :: post ∧ ref ∉ pre ∧
        insertBeforeFirst n ref l = pre ++ n :: ref :: post
  | [], h => by simp at h
  | x :: xs, h => by
    by_cases hx : x = ref
    · subst hx
      exact ⟨[], xs, rfl, by simp, by simp [insertBeforeFirst]⟩
    · have hmem : ref ∈ xs := by
        rcases List.mem_cons.1 h with h1 | h1
        · exact absurd h1.symm hx
        · exact h1
      obtain ⟨pre, post, h1, h2, h3⟩ := insertBeforeFirst_split n ref xs hmem
      refine ⟨x :: pre, post, by simp [h1], ?_, by simp [insertBeforeFirst, hx, h3]⟩
      intro hm
      rcases List.mem_cons.1 hm with h4 | h4
      · exact hx h4.symm
      · exact h2 h4

/-! ## Double arithmetic -/

theorem roundHalfEven_intCast (n : ℤ) : roundHalfEven (n : ℚ) = n := by
  simp [roundHalfEven]

theorem roundHalfEven_bounds (s : ℚ) : ⌊s⌋ ≤ roundHalfEven s ∧ roundHalfEven s ≤ ⌊s⌋ + 1 := by
  unfold roundHalfEven
  split_ifs <;> constructor <;> omega

theorem roundHalfEven_mono {s t : ℚ} (h : s ≤ t) : roundHalfEven s ≤ roundHalfEven t := by
  have hfl : ⌊s⌋ ≤ ⌊t⌋ := Int.floor_mono h
  rcases lt_or_eq_of_le hfl with hlt | heq
  · calc roundHalfEven s ≤ ⌊s⌋ + 1 := (roundHalfEven_bounds s).2
      _ ≤ ⌊t⌋ := hlt
      _ ≤ roundHalfEven t := (roundHalfEven_bounds t).1
  · unfold roundHalfEven
    rw [← heq]
    split_ifs <;> first | omega | (exfalso; linarith)

theorem roundPos_zero : roundPos 0 = 0 := by
  simp [roundPos, roundHalfEven]

theorem roundPos_nonneg {q : ℚ} (hq : 0 ≤ q) : 0 ≤ roundPos q := by
  unfold roundPos
  have h2 : (0 : ℚ) < 2 ^ ulpExponent q := by positivity
  have h1 : (0 : ℤ) ≤ roundHalfEven (q / 2 ^ ulpExponent q) := by
    have := roundHalfEven_mono (show (0 : ℚ) ≤ q / 2 ^ ulpExponent q by positivity)
    simpa [roundHalfEven] using this
  have h3 : (0 : ℚ) ≤ (roundHalfEven (q / 2 ^ ulpExponent q) : ℚ) := by exact_mod_cast h1
  positivity

theorem ulpExponent_mono {a b : ℚ} (ha : 0 < a) (hab : a ≤ b) :
    ulpExponent a ≤ ulpExponent b := by
  unfold ulpExponent
  have := Int.log_mono_right (b := 2) ha hab
  exact max_le_max (by omega) le_rfl

theorem roundPos_mono {a b : ℚ} (ha : 0 < a) (hab : a ≤ b) : roundPos a ≤ roundPos b := by
  have hb : 0 < b := lt_of_lt_of_le ha hab
  have hk := ulpExponent_mono ha hab
  rcases lt_or_eq_of_le hk with hlt | heq
  · -- different exponents: a power of two lies between
    have hkb : ulpExponent b = Int.log 2 b - 52 := by
      unfold ulpExponent at hlt ⊢
      have h1 : (-1074 : ℤ) ≤ max (Int.log 2 a - 52) (-1074) := le_max_right _ _
      rcases max_cases (Int.log 2 b - 52) (-1074) with ⟨h, _⟩ | ⟨h, _⟩
      · exact h
      · rw [h] at hlt
        omega
    have hka : Int.log 2 a - 52 ≤ ulpExponent a := le_max_left _ _
    -- P = 2 ^ (ulpExponent b + 52)
    have hPb : (2 : ℚ) ^ (ulpExponent b + 52) ≤ b := by
      have := Int.zpow_log_le_self (b := 2) (by norm_num) hb
      rw [hkb]
      simpa using this
    have haP : a < (2 : ℚ) ^ (ulpExponent b + 52) := by
      have := (Int.lt_zpow_iff_log_lt (b := 2) (by norm_num) ha (x := ulpExponent b + 52)).2
        (by omega)
      simpa using this
    have h2a : (0 : ℚ) < 2 ^ ulpExponent a := by positivity
    have h2b : (0 : ℚ) < 2 ^ ulpExponent b := by positivity
    -- lower bound for b
    have hlow : (2 : ℚ) ^ (ulpExponent b + 52) ≤ roundPos b := by
      unfold roundPos
      have hs : ((2 ^ 52 : ℤ) : ℚ) ≤ b / 2 ^ ulpExponent b := by
        rw [le_div_iff₀ h2b]
        have : ((2 ^ 52 : ℤ) : ℚ) * 2 ^ ulpExponent b = 2 ^ (ulpExponent b + 52) := by
          rw [zpow_add₀ (by norm_num : (2 : ℚ) ≠ 0)]
          push_cast
          ring
        rw [this]
        exact hPb
      have hr := roundHalfEven_mono hs
      rw [roundHalfEven_intCast] at hr
      have hr1 : ((2 ^ 52 : ℤ) : ℚ) ≤ (roundHalfEven (b / 2 ^ ulpExponent b) : ℚ) := by
        exact_mod_cast hr
      calc (2 : ℚ) ^ (ulpExponent b + 52) = ((2 ^ 52 : ℤ) : ℚ) * 2 ^ ulpExponent b := by
            rw [zpow_add₀ (by norm_num : (2 : ℚ) ≠ 0)]
            push_cast
            ring
        _ ≤ _ := by
            exact mul_le_mul_of_nonneg_right hr1 (le_of_lt h2b)
    have hup : roundPos a ≤ (2 : ℚ) ^ (ulpExponent b + 52) := by
      unfold roundPos
      obtain ⟨d, hd⟩ : ∃ d : ℕ, ulpExponent b + 52 - ulpExponent a = d :=
        ⟨(ulpExponent b + 52 - ulpExponent a).toNat, by omega⟩
      have hP : (2 : ℚ) ^ (ulpExponent b + 52) = ((2 ^ d : ℤ) : ℚ) * 2 ^ ulpExponent a := by
        have : ulpExponent b + 52 = (d : ℤ) + ulpExponent a := by omega
        rw [this, zpow_add₀ (by norm_num : (2 : ℚ) ≠ 0), zpow_natCast]
        push_cast
        ring
      have hs : a / 2 ^ ulpExponent a ≤ ((2 ^ d : ℤ) : ℚ) := by
        rw [div_le_iff₀ h2a, ← hP]
        exact le_of_lt haP
      have hr := roundHalfEven_mono hs
      rw [roundHalfEven_intCast] at hr
      have hr1 : (roundHalfEven (a / 2 ^ ulpExponent a) : ℚ) ≤ ((2 ^ d : ℤ) : ℚ) := by
        exact_mod_cast hr
      rw [hP]
      exact mul_le_mul_of_nonneg_right hr1 (le_of_lt h2a)
    exact le_trans hup hlow
  · unfold roundPos
    rw [← heq]
    have h2a : (0 : ℚ) < 2 ^ ulpExponent a := by positivity
    have hs : a / 2 ^ ulpExponent a ≤ b / 2 ^ ulpExponent a :=
      div_le_div_of_nonneg_right hab (le_of_lt h2a)
    have hr := roundHalfEven_mono hs
    have hr1 : (roundHalfEven (a / 2 ^ ulpExponent a) : ℚ) ≤
        (roundHalfEven (b / 2 ^ ulpExponent a) : ℚ) := by exact_mod_cast hr
    exact mul_le_mul_of_nonneg_right hr1 (le_of_lt h2a)

theorem roundDouble_zero : roundDouble 0 = 0 := by
  simp [roundDouble, roundPos_zero]

theorem roundDouble_mono : Monotone roundDouble := by
  intro a b hab
  unfold roundDouble
  by_cases ha : 0 ≤ a
  · have hb : 0 ≤ b := le_trans ha hab
    rw [if_pos ha, if_pos hb]
    rcases lt_or_eq_of_le ha with h | h
    · exact roundPos_mono h hab
    · rw [← h, roundPos_zero]
      exact roundPos_nonneg hb
  · have ha1 : a < 0 := lt_of_not_le ha
    rw [if_neg ha]
    by_cases hb : 0 ≤ b
    · rw [if_pos hb]
      have h1 := roundPos_nonneg (show (0 : ℚ) ≤ -a by linarith)
      have h2 := roundPos_nonneg hb
      linarith
    · rw [if_neg hb]
      have hb1 : b < 0 := lt_of_not_le hb
      have := roundPos_mono (show (0 : ℚ) < -b by linarith) (show -b ≤ -a by linarith)
      linarith

theorem roundPos_dyadic (m : ℕ) (k : ℤ) (hm : m < 2 ^ 53) (hk : -1074 ≤ k) :
    roundPos ((m : ℚ) * 2 ^ k) = (m : ℚ) * 2 ^ k := by
  rcases Nat.eq_zero_or_pos m with rfl | hpos
  · simp [roundPos_zero]
  have h2k : (0 : ℚ) < 2 ^ k := by positivity
  have hq : (0 : ℚ) < (m : ℚ) * 2 ^ k := by positivity
  have hu : ulpExponent ((m : ℚ) * 2 ^ k) ≤ k := by
    unfold ulpExponent
    apply max_le _ hk
    have hlt : (m : ℚ) * 2 ^ k < (2 : ℚ) ^ (k + 53) := by
      rw [zpow_add₀ (by norm_num : (2 : ℚ) ≠ 0), mul_comm ((2 : ℚ) ^ k)]
      apply mul_lt_mul_of_pos_right _ h2k
      exact_mod_cast hm
    have := (Int.lt_zpow_iff_log_lt (b := 2) (by norm_num) hq (x := k + 53)).1
      (by simpa using hlt)
    omega
  unfold roundPos
  obtain ⟨d, hd⟩ : ∃ d : ℕ, k - ulpExponent ((m : ℚ) * 2 ^ k) = d :=
    ⟨(k - ulpExponent ((m : ℚ) * 2 ^ k)).toNat, by omega⟩
  have h2u : (0 : ℚ) < 2 ^ ulpExponent ((m : ℚ) * 2 ^ k) := by positivity
  have hk2 : (2 : ℚ) ^ k = ((2 ^ d : ℤ) : ℚ) * 2 ^ ulpExponent ((m : ℚ) * 2 ^ k) := by
    have : k = (d : ℤ) + ulpExponent ((m : ℚ) * 2 ^ k) := by omega
    conv_lhs => rw [this]
    rw [zpow_add₀ (by norm_num : (2 : ℚ) ≠ 0), zpow_natCast]
    push_cast
    ring
  have hs : (m : ℚ) * 2 ^ k / 2 ^ ulpExponent ((m : ℚ) * 2 ^ k) = (((m : ℤ) * 2 ^ d : ℤ) : ℚ) := by
    rw [div_eq_iff (ne_of_gt h2u)]
    conv_lhs => rw [hk2]
    push_cast
    ring
  rw [hs, roundHalfEven_intCast]
  conv_rhs => rw [hk2]
  push_cast
  ring

theorem roundDouble_dyadic (m : ℤ) (k : ℤ) (hm : |m| < 2 ^ 53) (hk : -1074 ≤ k) :
    roundDouble ((m : ℚ) * 2 ^ k) = (m : ℚ) * 2 ^ k := by
  have h2k : (0 : ℚ) < 2 ^ k := by positivity
  unfold roundDouble
  by_cases h0 : 0 ≤ m
  · have hq : (0 : ℚ) ≤ (m : ℚ) * 2 ^ k := by
      have : (0 : ℚ) ≤ (m : ℚ) := by exact_mod_cast h0
      positivity
    rw [if_pos hq]
    obtain ⟨n, rfl⟩ := Int.eq_ofNat_of_zero_le h0
    have hn : n < 2 ^ 53 := by
      have := abs_lt.1 hm
      omega
    simpa using roundPos_dyadic n k hn hk
  · have hm0 : m < 0 := lt_of_not_le h0
    have hq : ¬ (0 : ℚ) ≤ (m : ℚ) * 2 ^ k := by
      have : (m : ℚ) < 0 := by exact_mod_cast hm0
      have := mul_neg_of_neg_of_pos this h2k
      linarith
    rw [if_neg hq]
    obtain ⟨n, hn⟩ : ∃ n : ℕ, -m = n := ⟨(-m).toNat, by omega⟩
    have hn1 : n < 2 ^ 53 := by
      have := abs_lt.1 hm
      omega
    have hmn : (m : ℚ) = -(n : ℚ) := by
      have : m = -(n : ℤ) := by omega
      rw [this]
      push_cast
      ring
    rw [hmn]
    have := roundPos_dyadic n k hn1 hk
    rw [show -(-(n : ℚ) * 2 ^ k) = (n : ℚ) * 2 ^ k by ring, this]
    ring

theorem roundDouble_intCast (n : ℤ) (hn : |n| < 2 ^ 53) : roundDouble (n : ℚ) = n := by
  simpa using roundDouble_dyadic n 0 hn (by norm_num)


theorem roundDouble_borderline :
    roundDouble (31 - 3152519739159347 / 4503599627370496) =
      8528691794332877 / 281474976710656 := by
  have hq : (0 : ℚ) < 31 - 3152519739159347 / 4503599627370496 := by norm_num
  have hlog : Int.log 2 ((31 : ℚ) - 3152519739159347 / 4503599627370496) = 4 := by
    have h1 : (4 : ℤ) ≤ Int.log 2 ((31 : ℚ) - 3152519739159347 / 4503599627370496) :=
      (Int.zpow_le_iff_le_log (by norm_num) hq).1 (by norm_num)
    have h2 : Int.log 2 ((31 : ℚ) - 3152519739159347 / 4503599627370496) < 5 :=
      (Int.lt_zpow_iff_log_lt (by norm_num) hq).1 (by norm_num)
    omega
  have hu : ulpExponent ((31 : ℚ) - 3152519739159347 / 4503599627370496) = -48 := by
    unfold ulpExponent
    rw [hlog]
    decide
  have hfloor : ⌊((31 : ℚ) - 3152519739159347 / 4503599627370496) / 2 ^ (-48 : ℤ)⌋ =
      8528691794332876 := by
    rw [Int.floor_eq_iff]
    constructor <;> norm_num
  unfold roundDouble
  rw [if_pos (le_of_lt hq)]
  unfold roundPos
  rw [hu]
  unfold roundHalfEven
  rw [hfloor]
  norm_num

theorem offset_eq_of_exactAt (fl : ℚ → ℚ) (y : ℚ) (e : CardEl) (h : ExactAt fl y e) :
    offset fl y e = y - e.box.top - e.box.height / 2 := by
  unfold offset
  rw [h.1, h.2.1, h.2.2]

theorem offset_neg_iff_of_exactAt (fl : ℚ → ℚ) (y : ℚ) (e : CardEl) (h : ExactAt fl y e) :
    offset fl y e < 0 ↔ y < midpoint e := by
  rw [offset_eq_of_exactAt fl y e h]
  unfold midpoint
  constructor <;> intro h1 <;> linarith

theorem midpoint_below_of_offset_neg (fl : ℚ → ℚ) (hmono : Monotone fl) (h0 : fl 0 = 0)
    (y : ℚ) (e : CardEl) (h : offset fl y e < 0) : y < midpoint e := by
  unfold offset at h
  have h1 : fl (y - e.box.top) - fl (e.box.height / 2) < 0 := by
    by_contra hge
    have := hmono (le_of_not_lt hge)
    rw [h0] at this
    linarith
  have h2 : y - e.box.top < e.box.height / 2 := by
    by_contra hge
    have := hmono (le_of_not_lt hge)
    linarith
  unfold midpoint
  linarith

theorem mkCardEl_dragging (dataId : String) (dragging : Bool) (top : ℚ) :
    (mkCardEl dataId dragging top).dragging = dragging := rfl

theorem exactAt_roundDouble_mkCardEl (y t : ℤ) (dataId : String) (dragging : Bool)
    (h1 : |y - t| < 2 ^ 53) (h2 : |y - t - 20| < 2 ^ 53) :
    ExactAt roundDouble (y : ℚ) (mkCardEl dataId dragging (t : ℚ)) := by
  have e1 : ((y : ℚ) - (t : ℚ)) = ((y - t : ℤ) : ℚ) := by push_cast; ring
  have e2 : ((40 : ℚ) / 2) = ((20 : ℤ) : ℚ) := by norm_num
  have e3 : ((y : ℚ) - (t : ℚ) - 40 / 2) = ((y - t - 20 : ℤ) : ℚ) := by push_cast; ring
  refine ⟨?_, ?_, ?_⟩
  · show roundDouble ((y : ℚ) - (t : ℚ)) = (y : ℚ) - (t : ℚ)
    rw [e1]
    exact roundDouble_intCast _ h1
  · show roundDouble ((40 : ℚ) / 2) = (40 : ℚ) / 2
    rw [e2]
    exact roundDouble_intCast _ (by norm_num)
  · show roundDouble ((y : ℚ) - (t : ℚ) - 40 / 2) = (y : ℚ) - (t : ℚ) - 40 / 2
    rw [e3]
    exact roundDouble_intCast _ h2

theorem offset_roundDouble_mkCardEl (y t : ℤ) (dataId : String) (dragging : Bool)
    (h1 : |y - t| < 2 ^ 53) (h2 : |y - t - 20| < 2 ^ 53) :
    offset roundDouble (y : ℚ) (mkCardEl dataId dragging (t : ℚ)) = (y : ℚ) - (t : ℚ) - 20 := by
  rw [offset_eq_of_exactAt _ _ _ (exactAt_roundDouble_mkCardEl y t dataId dragging h1 h2)]
  show (y : ℚ) - (t : ℚ) - 40 / 2 = (y : ℚ) - (t : ℚ) - 20
  norm_num

theorem offset_roundDouble_borderline : offset roundDouble 31 borderlineCard = 0 := by
  have hB : roundDouble (8528691794332877 / 140737488355328 / 2) =
      8528691794332877 / 281474976710656 := by
    have h := roundDouble_dyadic 8528691794332877 (-48) (by norm_num) (by norm_num)
    norm_num at h ⊢
    exact h
  show roundDouble (roundDouble (31 - 3152519739159347 / 4503599627370496) -
    roundDouble (8528691794332877 / 140737488355328 / 2)) = 0
  rw [roundDouble_borderline, hB, sub_self, roundDouble_zero]

theorem find?_congr_of_mem {α : Type} (p q : α → Bool) :
    ∀ l : List α, (∀ x ∈ l, p x = q x) → l.find? p = l.find? q
  | [], _ => rfl
  | x :: xs, h => by
    have hx : p x = q x := h x (by simp)
    have ih := find?_congr_of_mem p q xs (fun z hz => h z (List.mem_cons_of_mem _ hz))
    simp only [List.find?_cons, hx, ih]

/-! ## The element returned by getDragAfterElement -/

/-- C9 (counterexample): first, a `dragover` event with no `.dragging` element in the
document (nothing of the board is being dragged) and the pointer below every card:
`getDragAfterElement` returns no element, yet the handler returns at its guard and the
container gets no placeholder.  Second, a card with `top` 0.7 and `height` 60.6 and the
pointer at 31: the offset taken in exact arithmetic is negative, the offset computed in
doubles is 0, and no element is returned. -/
theorem dragoverHandler_idle_appends_nothing :
    getDragAfterElement roundDouble [Node.card (mkCardEl "card-1" false 0)] 100 = none ∧
    dragoverHandler roundDouble "column-1" 100 idleDom = idleDom ∧
    (∀ c ∈ dragoverHandler roundDouble "column-1" 100 idleDom,
      Node.placeholder ∉ c.children) ∧
    (31 : ℚ) - borderlineCard.box.top - borderlineCard.box.height / 2 < 0 ∧
    getDragAfterElement roundDouble [Node.card borderlineCard] 31 = none := by
  have o1 : offset roundDouble 100 (mkCardEl "card-1" false 0) = 80 := by
    have h := offset_roundDouble_mkCardEl 100 0 "card-1" false (by norm_num) (by norm_num)
    norm_num at h
    exact h
  have h1 : getDragAfterElement roundDouble [Node.card (mkCardEl "card-1" false 0)] 100 =
      none := by
    simp [getDragAfterElement, cardsNotDragging, closestStep, mkCardEl_dragging, o1]
    norm_num
  have h2 : dragoverHandler roundDouble "column-1" 100 idleDom = idleDom := by
    simp [dragoverHandler, idleDom, querySelectorDragging, isDragging, mkCardEl]
  refine ⟨h1, h2, ?_, ?_, ?_⟩
  · rw [h2]
    simp [idleDom]
  · norm_num [borderlineCard]
  · have hd : borderlineCard.dragging = false := rfl
    simp [getDragAfterElement, cardsNotDragging, closestStep, hd,
      offset_roundDouble_borderline]

/-- C9 (amended): with the offsets as the code computes them (`fl` rounds the result of
each operation), `getDragAfterElement` returns only non-dragging card elements of the
container; a returned element has a negative computed offset that is greatest among the
negative computed offsets and is the earliest element with that offset; it returns no
element exactly when no non-dragging card has a negative computed offset.  In that case
the `dragover` handler moves the placeholder to the end of the container when some
element of the document is being dragged, and leaves the document unchanged otherwise.
When the rounding is monotone and keeps 0, the exact offset of a returned element is
negative as well. -/
theorem getDragAfterElement_closest_negative (fl : ℚ → ℚ) (children : List Node) (y : ℚ) :
    (∀ el, getDragAfterElement fl children y = some el →
      el.dragging = false ∧ Node.card el ∈ children ∧
      ∃ i, (cardsNotDragging children)[i]? = some el ∧ offset fl y el < 0 ∧
        (∀ e1 ∈ cardsNotDragging children, offset fl y e1 < 0 →
          offset fl y e1 ≤ offset fl y el) ∧
        (∀ (j : Nat) (e1 : CardEl), j < i → (cardsNotDragging children)[j]? = some e1 →
          offset fl y e1 < 0 → offset fl y e1 < offset fl y el)) ∧
    (getDragAfterElement fl children y = none ↔
      ∀ e ∈ cardsNotDragging children, ¬ offset fl y e < 0) ∧
    (∀ (dom : List Container) (colId : String) (ctr : Container),
      dom.find? (fun c => c.columnId == colId) = some ctr → ctr.children = children →
      getDragAfterElement fl children y = none →
      (querySelectorDragging dom = none → dragoverHandler fl colId y dom = dom) ∧
      (querySelectorDragging dom ≠ none →
        ∃ pre post, dom = pre ++ ctr :: post ∧ (∀ c ∈ pre, c.columnId ≠ colId) ∧
          dragoverHandler fl colId y dom =
            pre ++ { ctr with children := children.erase Node.placeholder ++ [Node.placeholder] }
              :: post)) ∧
    (Monotone fl → fl 0 = 0 → ∀ el, getDragAfterElement fl children y = some el →
      y - el.box.top - el.box.height / 2 < 0) := by
  obtain ⟨c, hc, hget⟩ := getDragAfterElement_isClosest fl children y
  refine ⟨?_, ?_, ?_, ?_⟩
  · intro el hel
    rcases hc with ⟨rfl, _⟩ | ⟨i, e, hie, rfl, he, hmax, hfirst⟩
    · rw [hget] at hel
      cases hel
    · rw [hget] at hel
      have hee : e = el := by simpa using hel
      subst hee
      have hmem := dragging_false_of_mem_cardsNotDragging children e (List.getElem?_mem hie)
      exact ⟨hmem.1, hmem.2, i, hie, he, hmax, hfirst⟩
  · rcases hc with ⟨rfl, hneg⟩ | ⟨i, e, hie, rfl, he, _, _⟩
    · rw [hget]
      exact ⟨fun _ => hneg, fun _ => rfl⟩
    · rw [hget]
      constructor
      · intro h
        cases h
      · intro h
        exact absurd he (h e (List.getElem?_mem hie))
  · intro dom colId ctr hfind hch hnone
    constructor
    · intro hd
      simp [dragoverHandler, hfind, hd]
    · intro hd
      obtain ⟨el, hel⟩ := Option.ne_none_iff_exists'.1 hd
      obtain ⟨pre, post, h1, h2, h3⟩ := updateFirst_split (fun c => c.columnId == colId)
        (fun c => { c with
          children := children.erase Node.placeholder ++ [Node.placeholder] }) dom ctr hfind
      refine ⟨pre, post, h1, fun c hcm => by simpa using h2 c hcm, ?_⟩
      rw [← h3]
      simp [dragoverHandler, hfind, hel, hch, hnone, appendChild]
  · intro hmono h0 el hel
    rcases hc with ⟨rfl, _⟩ | ⟨i, e, hie, rfl, he, _, _⟩
    · rw [hget] at hel
      cases hel
    · rw [hget] at hel
      have hee : e = el := by simpa using hel
      subst hee
      have := midpoint_below_of_offset_neg fl hmono h0 y e he
      unfold midpoint at this
      linarith

/-- Witness for C9 (amended): the card of "column-1" is dragged over "column-2" with the
pointer below both of its cards; the placeholder is appended after them. -/
theorem getDragAfterElement_closest_negative_witness :
    ∃ pre post,
      draggingDom = pre ++ Container.mk "column-2" targetChildren :: post ∧
      (∀ c ∈ pre, c.columnId ≠ "column-2") ∧
      dragoverHandler roundDouble "column-2" 200 draggingDom =
        pre ++ Container.mk "column-2"
          (targetChildren.erase Node.placeholder ++ [Node.placeholder]) :: post :=
  ((getDragAfterElement_closest_negative roundDouble targetChildren 200).2.2.1
    draggingDom "column-2" (Container.mk "column-2" targetChildren)
    (by simp [draggingDom]) rfl
    (by
      have o2 : offset roundDouble 200 (mkCardEl "card-2" false 0) = 180 := by
        have h := offset_roundDouble_mkCardEl 200 0 "card-2" false (by norm_num) (by norm_num)
        norm_num at h
        exact h
      have o3 : offset roundDouble 200 (mkCardEl "card-3" false 50) = 130 := by
        have h := offset_roundDouble_mkCardEl 200 50 "card-3" false (by norm_num)
          (by norm_num)
        norm_num at h
        exact h
      simp [getDragAfterElement, cardsNotDragging, closestStep, mkCardEl_dragging,
        targetChildren, o2, o3]
      norm_num)).2
    (by simp [draggingDom, querySelectorDragging, isDragging, mkCardEl])


theorem pairwise_getElem? {α : Type} {R : α → α → Prop} {l : List α} (h : l.Pairwise R)
    {j i : Nat} {a b : α} (hj : l[j]? = some a) (hi : l[i]? = some b) (hlt : j < i) :
    R a b := by
  obtain ⟨hj1, rfl⟩ := List.getElem?_eq_some.1 hj
  obtain ⟨hi1, rfl⟩ := List.getElem?_eq_some.1 hi
  exact List.pairwise_iff_getElem.1 h j i hj1 hi1 hlt

theorem getDragAfterElement_eq_find? (fl : ℚ → ℚ) (children : List Node) (y : ℚ)
    (hsorted : (cardsNotDragging children).Pairwise
      (fun a b => offset fl y b ≤ offset fl y a)) :
    getDragAfterElement fl children y =
      (cardsNotDragging children).find? (fun e => decide (offset fl y e < 0)) := by
  obtain ⟨c, hc, hget⟩ := getDragAfterElement_isClosest fl children y
  rcases hc with ⟨rfl, hneg⟩ | ⟨i, e, hie, rfl, he, _, hfirst⟩
  · rw [hget]
    symm
    rw [List.find?_eq_none]
    intro x hx
    simpa using hneg x hx
  · rw [hget]
    symm
    apply find?_eq_some_of_first _ _ i e hie
    · simpa using he
    · intro j e1 hj hje
      by_contra hp
      have hp1 : offset fl y e1 < 0 := by simpa using hp
      have h1 := hfirst j e1 hj hje hp1
      have h2 : offset fl y e ≤ offset fl y e1 := pairwise_getElem? hsorted hje hie hj
      linarith

/-- C10 (counterexample): one card with `top` 0.7 and `height` 60.6 and the pointer at
31.  The midpoint of the card lies below the pointer, so the card is the first element
whose midpoint lies below it; the offset computed in doubles is 0, not negative, and
`getDragAfterElement` returns nothing. -/
theorem getDragAfterElement_misses_card_below :
    (cardsNotDragging [Node.card borderlineCard]).Pairwise
      (fun a b => midpoint a ≤ midpoint b) ∧
    midpoint borderlineCard > 31 ∧
    (cardsNotDragging [Node.card borderlineCard]).find?
      (fun e => decide (midpoint e > 31)) = some borderlineCard ∧
    offset roundDouble 31 borderlineCard = 0 ∧
    getDragAfterElement roundDouble [Node.card borderlineCard] 31 = none := by
  have hd : borderlineCard.dragging = false := rfl
  have hm : midpoint borderlineCard > 31 := by
    norm_num [midpoint, borderlineCard]
  refine ⟨by simp [cardsNotDragging, hd], hm, ?_, offset_roundDouble_borderline, ?_⟩
  · simp [cardsNotDragging, hd, List.find?_cons, hm]
  · simp [getDragAfterElement, cardsNotDragging, closestStep, hd,
      offset_roundDouble_borderline]

/-- C10 (amended): when the computed offsets of the non-dragging cards do not increase
along the container, `getDragAfterElement` returns the first of them whose computed
offset is negative, or nothing when there is none.  When moreover no operation rounds
(`ExactAt`, as with integer coordinates and even heights) and the cards are listed top
to bottom (midpoints non-decreasing), that element is the first card whose midpoint lies
below the pointer (`midpoint > y`).  The `insertBefore` performed by the `dragover`
handler during a drag puts the placeholder immediately before the returned element. -/
theorem getDragAfterElement_first_below (fl : ℚ → ℚ) (children : List Node) (y : ℚ) :
    ((cardsNotDragging children).Pairwise (fun a b => offset fl y b ≤ offset fl y a) →
      getDragAfterElement fl children y =
        (cardsNotDragging children).find? (fun e => decide (offset fl y e < 0))) ∧
    ((∀ e ∈ cardsNotDragging children, ExactAt fl y e) →
      (cardsNotDragging children).Pairwise (fun a b => midpoint a ≤ midpoint b) →
      getDragAfterElement fl children y =
        (cardsNotDragging children).find? (fun e => decide (midpoint e > y))) ∧
    (∀ el, getDragAfterElement fl children y = some el →
      ∃ pre post, children.erase Node.placeholder = pre ++ Node.card el :: post ∧
        Node.card el ∉ pre ∧
        insertBefore Node.placeholder (Node.card el) children =
          pre ++ Node.placeholder :: Node.card el :: post) ∧
    (∀ (dom : List Container) (colId : String) (ctr : Container) (el : CardEl),
      dom.find? (fun c => c.columnId == colId) = some ctr → ctr.children = children →
      querySelectorDragging dom ≠ none → getDragAfterElement fl children y = some el →
      ∃ dpre dpost, dom = dpre ++ ctr :: dpost ∧ (∀ c ∈ dpre, c.columnId ≠ colId) ∧
        dragoverHandler fl colId y dom =
          dpre ++ { ctr with
                    children := insertBefore Node.placeholder (Node.card el) children }
            :: dpost) := by
  obtain ⟨c, hc, hget⟩ := getDragAfterElement_isClosest fl children y
  refine ⟨getDragAfterElement_eq_find? fl children y, ?_, ?_, ?_⟩
  · intro hexact hsorted
    have hoff : ∀ e ∈ cardsNotDragging children,
        offset fl y e = y - e.box.top - e.box.height / 2 :=
      fun e he => offset_eq_of_exactAt fl y e (hexact e he)
    have hs : (cardsNotDragging children).Pairwise
        (fun a b => offset fl y b ≤ offset fl y a) := by
      refine List.Pairwise.imp_of_mem ?_ hsorted
      intro a b ha hb hab
      rw [hoff a ha, hoff b hb]
      unfold midpoint at hab
      linarith
    rw [getDragAfterElement_eq_find? fl children y hs]
    apply find?_congr_of_mem
    intro e he
    have := offset_neg_iff_of_exactAt fl y e (hexact e he)
    simp only [gt_iff_lt, decide_eq_decide]
    exact this
  · intro el hel
    have hmem : Node.card el ∈ children := by
      rcases hc with ⟨rfl, _⟩ | ⟨i, e, hie, rfl, _, _, _⟩
      · rw [hget] at hel
        cases hel
      · rw [hget] at hel
        have hee : e = el := by simpa using hel
        subst hee
        exact (dragging_false_of_mem_cardsNotDragging children e (List.getElem?_mem hie)).2
    have hmem1 : Node.card el ∈ children.erase Node.placeholder :=
      (List.mem_erase_of_ne (by simp)).2 hmem
    obtain ⟨pre, post, h1, h2, h3⟩ :=
      insertBeforeFirst_split Node.placeholder (Node.card el) _ hmem1
    exact ⟨pre, post, h1, h2, h3⟩
  · intro dom colId ctr el hfind hch hd hel
    obtain ⟨dl, hdl⟩ := Option.ne_none_iff_exists'.1 hd
    obtain ⟨pre, post, h1, h2, h3⟩ := updateFirst_split (fun c => c.columnId == colId)
      (fun c => { c with
        children := insertBefore Node.placeholder (Node.card el) children }) dom ctr hfind
    refine ⟨pre, post, h1, fun c hcm => by simpa using h2 c hcm, ?_⟩
    rw [← h3]
    simp [dragoverHandler, hfind, hdl, hch, hel]

/-- Witness for C10 (amended): two stacked cards with integer coordinates and a pointer
between their midpoints; no operation rounds, and the second card is returned. -/
theorem getDragAfterElement_first_below_witness :
    (∀ e ∈ cardsNotDragging targetChildren, ExactAt roundDouble 30 e) ∧
    getDragAfterElement roundDouble targetChildren 30 =
      (cardsNotDragging targetChildren).find? (fun e => decide (midpoint e > 30)) ∧
    (cardsNotDragging targetChildren).find? (fun e => decide (midpoint e > 30)) =
      some (mkCardEl "card-3" false 50) := by
  have hexact : ∀ e ∈ cardsNotDragging targetChildren, ExactAt roundDouble 30 e := by
    intro e he
    simp only [targetChildren, cardsNotDragging, mkCardEl_dragging, List.filterMap_cons,
      List.filterMap_nil] at he
    simp at he
    rcases he with rfl | rfl
    · have h := exactAt_roundDouble_mkCardEl 30 0 "card-2" false (by norm_num) (by norm_num)
      norm_num at h
      exact h
    · have h := exactAt_roundDouble_mkCardEl 30 50 "card-3" false (by norm_num) (by norm_num)
      norm_num at h
      exact h
  refine ⟨hexact, (getDragAfterElement_first_below roundDouble targetChildren 30).2.1 hexact
    (by simp [targetChildren, cardsNotDragging, mkCardEl, midpoint]), ?_⟩
  simp [targetChildren, cardsNotDragging, mkCardEl, midpoint, List.find?_cons]
  norm_num


/-! ## Drop handler -/

theorem updateFirst_getElem? {α : Type} (p : α → Bool) (f : α → α) :
    ∀ (l : List α) (b : Nat) (x : α), l[b]? = some x → p x = true →
      (∀ (j : Nat) (c : α), j < b → l[j]? = some c → p c = false) →
      (updateFirst p f l)[b]? = some (f x) ∧
      ∀ j : Nat, j ≠ b → (updateFirst p f l)[j]? = l[j]?
  | [], b, x, h, _, _ => by simp at h
  | y :: ys, 0, x, h, hp, _ => by
    have hy : y = x := by simpa using h
    subst hy
    refine ⟨by simp [updateFirst, hp], ?_⟩
    intro j hj
    cases j with
    | zero => exact absurd rfl hj
    | succ j => simp [updateFirst, hp]
  | y :: ys, b + 1, x, h, hp, hfirst => by
    have hy : p y = false := hfirst 0 y (Nat.succ_pos b) (by simp)
    have h1 : ys[b]? = some x := by simpa using h
    obtain ⟨ih1, ih2⟩ := updateFirst_getElem? p f ys b x h1 hp (fun j c hj hjc =>
      hfirst (j + 1) c (Nat.succ_lt_succ hj) (by simpa using hjc))
    refine ⟨by simpa [updateFirst, hy] using ih1, ?_⟩
    intro j hj
    cases j with
    | zero => simp [updateFirst, hy]
    | succ j =>
      have : j ≠ b := fun hjb => hj (by rw [hjb])
      simpa [updateFirst, hy] using ih2 j this

theorem updateFirst_length {α : Type} (p : α → Bool) (f : α → α) :
    ∀ l : List α, (updateFirst p f l).length = l.length
  | [] => rfl
  | x :: xs => by
    by_cases hx : p x = true
    · simp [updateFirst, hx]
    · simp [updateFirst, hx, updateFirst_length p f xs]

theorem mem_cardIdsOfChildren (children : List Node) (el : CardEl)
    (h : Node.card el ∈ children) : el.dataId ∈ cardIdsOfChildren children := by
  simp only [cardIdsOfChildren, List.mem_filterMap]
  exact ⟨Node.card el, h, rfl⟩

theorem cardIdsOfChildren_append (l1 l2 : List Node) :
    cardIdsOfChildren (l1 ++ l2) = cardIdsOfChildren l1 ++ cardIdsOfChildren l2 := by
  simp [cardIdsOfChildren, List.filterMap_append]

theorem find?_removeDragging (colId : String) :
    ∀ (dom : List Container) (n : Node), querySelectorDragging dom = some n →
      (∀ c ∈ dom, c.columnId = colId → n ∉ c.children) →
      (removeDragging dom).find? (fun c => c.columnId == colId) =
        dom.find? (fun c => c.columnId == colId)
  | [], n, h, _ => by simp [querySelectorDragging] at h
  | c :: cs, n, h, hno => by
    cases hfind : c.children.find? isDragging with
    | some m =>
      have hm : m = n := by simpa [querySelectorDragging, hfind] using h
      subst hm
      have hmem : m ∈ c.children := List.mem_of_find?_eq_some hfind
      have hne : c.columnId ≠ colId := fun heq => hno c (by simp) heq hmem
      have hb : (c.columnId == colId) = false := by simpa using hne
      simp [removeDragging, hfind, List.find?_cons, hb]
    | none =>
      have h1 : querySelectorDragging cs = some n := by
        simpa [querySelectorDragging, hfind] using h
      have ih := find?_removeDragging colId cs n h1
        (fun c1 hc1 => hno c1 (List.mem_cons_of_mem _ hc1))
      by_cases hc : c.columnId = colId
      · simp [removeDragging, hfind, List.find?_cons, hc]
      · have hb : (c.columnId == colId) = false := by simpa using hc
        simp [removeDragging, hfind, List.find?_cons, hb, ih]

theorem replace_placeholder_split (n : Node) (hn : n ≠ Node.placeholder) :
    ∀ children : List Node, Node.placeholder ∈ children →
      ∃ pre post, children = pre ++ Node.placeholder :: post ∧
        (insertBeforeFirst n Node.placeholder children).erase Node.placeholder =
          pre ++ n :: post := by
  intro children hmem
  obtain ⟨pre, post, h1, h2, h3⟩ := insertBeforeFirst_split n Node.placeholder children hmem
  refine ⟨pre, post, h1, ?_⟩
  rw [h3, List.erase_append_right _ h2, List.erase_cons_tail (by simpa using hn),
    List.erase_cons_head]


theorem find?_updateFirst {α : Type} (p : α → Bool) (f : α → α) :
    ∀ (l : List α) (x : α), l.find? p = some x → p (f x) = true →
      (updateFirst p f l).find? p = some (f x)
  | [], x, h, _ => by simp at h
  | y :: ys, x, h, hp => by
    by_cases hy : p y = true
    · have hxy : y = x := by simpa [List.find?_cons, hy] using h
      subst hxy
      simp [updateFirst, hy, List.find?_cons, hp]
    · have hy1 : p y = false := by simpa using hy
      have h1 : ys.find? p = some x := by simpa [List.find?_cons, hy1] using h
      simp [updateFirst, hy1, List.find?_cons, find?_updateFirst p f ys x h1 hp]

theorem length_filter_ne_add_count (X : String) :
    ∀ l : List String, (l.filter (fun id => id != X)).length + l.count X = l.length
  | [] => rfl
  | y :: ys => by
    have ih := length_filter_ne_add_count X ys
    by_cases h : y = X
    · subst h
      simp [List.filter_cons]
      omega
    · have h1 : (y != X) = true := by simpa using h
      have h2 : (y == X) = false := by simpa using h
      simp [List.filter_cons, h1, List.count_cons, h2]
      omega

/-- C2: card `X` is listed exactly once by column `A` (position `a`) and by no other
column, every rendered container lists exactly the `cardIds` of its column in order, the
container of column `B` (position `b`, different from `a`; `B` is the column its handler
is bound to) holds the drop placeholder, and the element being dragged is the card
element of `X`.  Then the drop handler of `B` returns normally and afterwards `X` is not
in the `cardIds` of `A`, occurs exactly once in the `cardIds` of `B` (at the place of
the placeholder, the other ids keeping their order) and in no other column. -/
theorem dropHandler_moves_card (w : World) (a b : Nat) (A B : Column) (X : String)
    (el : CardEl)
    (hA : w.store.columns[a]? = some A) (hB : w.store.columns[b]? = some B) (hab : a ≠ b)
    (hbind : ∀ (j : Nat) (c : Column), j < b → w.store.columns[j]? = some c → c.id ≠ B.id)
    (hcount : A.cardIds.count X = 1)
    (hother : ∀ (j : Nat) (c : Column), j ≠ a → w.store.columns[j]? = some c →
      X ∉ c.cardIds)
    (hdom : ∀ ctr ∈ w.dom, ∃ col,
      w.store.columns.find? (fun c => c.id == ctr.columnId) = some col ∧
      cardIdsOfChildren ctr.children = col.cardIds)
    (hph : ∃ ctr, w.dom.find? (fun c => c.columnId == B.id) = some ctr ∧
      Node.placeholder ∈ ctr.children)
    (hdrag : querySelectorDragging w.dom = some (Node.card el)) (hX : el.dataId = X) :
    ∃ w1 A1 B1, dropHandler B.id X w = Outcome.returned w1 ∧
      w1.store.columns.length = w.store.columns.length ∧
      w1.store.columns[a]? = some A1 ∧ w1.store.columns[b]? = some B1 ∧
      X ∉ A1.cardIds ∧ A1.cardIds = A.cardIds.filter (fun id => id != X) ∧
      A1.cardIds.length + 1 = A.cardIds.length ∧
      B1.cardIds.count X = 1 ∧
      (∃ l1 l2, B.cardIds = l1 ++ l2 ∧ B1.cardIds = l1 ++ X :: l2) ∧
      (∀ (j : Nat) (c : Column), j ≠ b → w1.store.columns[j]? = some c → X ∉ c.cardIds) := by
  obtain ⟨ctrB, hctrB, hphB⟩ := hph
  have hfindB : w.store.columns.find? (fun c => c.id == B.id) = some B :=
    find?_eq_some_of_first _ _ b B hB (by simp)
      (fun j c hj hjc => by simpa using hbind j c hj hjc)
  have hXB : X ∉ B.cardIds := hother b B (Ne.symm hab) hB
  have hidsB : ∀ c ∈ w.dom, c.columnId = B.id → cardIdsOfChildren c.children = B.cardIds := by
    intro c hc hcid
    obtain ⟨col, h1, h2⟩ := hdom c hc
    rw [hcid, hfindB] at h1
    cases h1
    exact h2
  have hno : ∀ c ∈ w.dom, c.columnId = B.id → Node.card el ∉ c.children := by
    intro c hc hcid hmem
    have := mem_cardIdsOfChildren c.children el hmem
    rw [hidsB c hc hcid, hX] at this
    exact hXB this
  have hfind1 : (removeDragging w.dom).find? (fun c => c.columnId == B.id) = some ctrB := by
    rw [find?_removeDragging B.id w.dom (Node.card el) hdrag hno]
    exact hctrB
  have hctrBid : ctrB.columnId = B.id := by
    have := List.find?_some hctrB
    simpa using this
  obtain ⟨pre, post, hsplit, hrepl⟩ :=
    replace_placeholder_split (Node.card el) (by simp) ctrB.children hphB
  have hfind2 : (updateFirst (fun c => c.columnId == B.id)
      (fun c => { c with
        children := (insertBeforeFirst (Node.card el) Node.placeholder c.children).erase
          Node.placeholder }) (removeDragging w.dom)).find? (fun c => c.columnId == B.id) =
      some { ctrB with children := pre ++ Node.card el :: post } := by
    rw [find?_updateFirst _ _ _ ctrB hfind1 (by simpa using hctrBid), hrepl]
  have hBids : B.cardIds = cardIdsOfChildren pre ++ cardIdsOfChildren post := by
    rw [← hidsB ctrB (List.mem_of_find?_eq_some hctrB) hctrBid, hsplit,
      cardIdsOfChildren_append]
    simp [cardIdsOfChildren]
  have hnew : cardIdsOfChildren (pre ++ Node.card el :: post) =
      cardIdsOfChildren pre ++ X :: cardIdsOfChildren post := by
    rw [cardIdsOfChildren_append]
    simp [cardIdsOfChildren, hX]
  have hXA : X ∈ A.cardIds := by
    rw [← List.count_pos_iff, hcount]
    exact Nat.one_pos
  obtain ⟨src, hsrc⟩ : ∃ src, w.store.columns.find?
      (fun col => col.cardIds.contains X) = some src := by
    cases hs : w.store.columns.find? (fun col => col.cardIds.contains X) with
    | some src => exact ⟨src, rfl⟩
    | none =>
      have := List.find?_eq_none.1 hs A (List.getElem?_mem hA)
      simp [hXA] at this
  have hmapB : (w.store.columns.map (fun col =>
      { col with cardIds := col.cardIds.filter (fun id => id != X) }))[b]? =
      some { B with cardIds := B.cardIds.filter (fun id => id != X) } := by
    simp [List.getElem?_map, hB]
  obtain ⟨hb1, hb2⟩ := updateFirst_getElem? (fun c => c.id == B.id)
    (fun c => { c with cardIds := cardIdsOfChildren pre ++ X :: cardIdsOfChildren post })
    (w.store.columns.map (fun col =>
      { col with cardIds := col.cardIds.filter (fun id => id != X) })) b _ hmapB (by simp)
    (by
      intro j c hj hjc
      simp only [List.getElem?_map, Option.map_eq_some'] at hjc
      obtain ⟨c0, hc0, rfl⟩ := hjc
      simpa using hbind j c0 hj hc0)
  have hres : dropHandler B.id X w = Outcome.returned
      { store := save ["columns"] { w.store with
          columns := updateFirst (fun c => c.id == B.id)
            (fun c => { c with cardIds := cardIdsOfChildren pre ++ X :: cardIdsOfChildren post })
            (w.store.columns.map (fun col =>
              { col with cardIds := col.cardIds.filter (fun id => id != X) })) }
        dom := updateFirst (fun c => c.columnId == B.id)
          (fun c => { c with
            children := (insertBeforeFirst (Node.card el) Node.placeholder c.children).erase
              Node.placeholder }) (removeDragging w.dom) } := by
    simp only [dropHandler, hctrB, hfindB, hphB, if_true, hdrag, hsrc, hfind2, hnew]
  have hfiltA : ∀ j : Nat, j ≠ b → ∀ c : Column,
      (updateFirst (fun c => c.id == B.id)
        (fun c => { c with cardIds := cardIdsOfChildren pre ++ X :: cardIdsOfChildren post })
        (w.store.columns.map (fun col =>
          { col with cardIds := col.cardIds.filter (fun id => id != X) })))[j]? = some c →
      ∃ c0, w.store.columns[j]? = some c0 ∧
        c = { c0 with cardIds := c0.cardIds.filter (fun id => id != X) } := by
    intro j hj c hc
    rw [hb2 j hj] at hc
    simp only [List.getElem?_map, Option.map_eq_some'] at hc
    obtain ⟨c0, hc0, rfl⟩ := hc
    exact ⟨c0, hc0, rfl⟩
  refine ⟨_, { A with cardIds := A.cardIds.filter (fun id => id != X) },
    { B with cardIds := cardIdsOfChildren pre ++ X :: cardIdsOfChildren post },
    hres, ?_, ?_, ?_, ?_, rfl, ?_, ?_, ?_, ?_⟩
  · simp [updateFirst_length]
  · simp only [save_columns]
    rw [hb2 a hab]
    simp [List.getElem?_map, hA]
  · simp only [save_columns]
    rw [hb1]
  · simp
  · have h := length_filter_ne_add_count X A.cardIds
    simp only at h ⊢
    omega
  · have hcp : List.count X (cardIdsOfChildren pre) = 0 ∧
        List.count X (cardIdsOfChildren post) = 0 := by
      constructor
      · exact List.count_eq_zero_of_not_mem (fun hm => hXB (by rw [hBids]; simp [hm]))
      · exact List.count_eq_zero_of_not_mem (fun hm => hXB (by rw [hBids]; simp [hm]))
    simp [List.count_append, hcp.1, hcp.2]
  · exact ⟨_, _, hBids, rfl⟩
  · intro j c hj hc
    simp only [save_columns] at hc
    obtain ⟨c0, _, rfl⟩ := hfiltA j hj c hc
    simp


/-- Witness for C2: "card-1" is dragged from "To Do" and dropped on "Doing" between its
two cards. -/
theorem dropHandler_moves_card_witness :
    (∃ w1 A1 B1, dropHandler "column-2" "card-1" dropWorld = Outcome.returned w1 ∧
      w1.store.columns.length = dropWorld.store.columns.length ∧
      w1.store.columns[0]? = some A1 ∧ w1.store.columns[1]? = some B1 ∧
      "card-1" ∉ A1.cardIds ∧
      A1.cardIds = sampleColumn.cardIds.filter (fun id => id != "card-1") ∧
      A1.cardIds.length + 1 = sampleColumn.cardIds.length ∧
      B1.cardIds.count "card-1" = 1 ∧
      (∃ l1 l2, ["card-2", "card-3"] = l1 ++ l2 ∧ B1.cardIds = l1 ++ "card-1" :: l2) ∧
      (∀ (j : Nat) (c : Column), j ≠ 1 → w1.store.columns[j]? = some c →
        "card-1" ∉ c.cardIds)) ∧
    (match dropHandler "column-2" "card-1" dropWorld with
      | Outcome.returned w1 => w1.store.columns.map (fun c => c.cardIds)
      | Outcome.threw _ => []) = [[], ["card-2", "card-1", "card-3"]] :=
  ⟨dropHandler_moves_card dropWorld 0 1 sampleColumn doingColumn
      "card-1" (mkCardEl "card-1" true 0) rfl rfl (by decide)
      (by
        intro j c hj hc
        have hj0 : j = 0 := by omega
        subst hj0
        have : c = sampleColumn := by simpa [dropWorld, initStore, emptySnapshot] using hc.symm
        subst this
        decide)
      (by decide)
      (by
        intro j c hj hc
        match j, hj, hc with
        | 0, hj, _ => exact absurd rfl hj
        | 1, _, hc =>
          have : c = doingColumn := by
            simpa [dropWorld, initStore, emptySnapshot] using hc.symm
          subst this
          decide
        | j + 2, _, hc => simp [dropWorld, initStore, emptySnapshot] at hc)
      (by
        intro ctr hctr
        simp only [dropWorld, List.mem_cons, List.mem_singleton, List.not_mem_nil,
          or_false] at hctr
        rcases hctr with rfl | rfl
        · exact ⟨sampleColumn, by decide, by decide⟩
        · exact ⟨doingColumn, by decide, by decide⟩)
      ⟨Container.mk "column-2" [Node.card (mkCardEl "card-2" false 0), Node.placeholder,
          Node.card (mkCardEl "card-3" false 50)], by decide, by decide⟩
      (by decide) rfl,
   by decide⟩


/-! ## The returned element and the pointer -/

/-- C11 (counterexample): two stacked cards (0 to 40 and 50 to 90) and the pointer at 45,
in the gap.  The last card fully above the pointer is "card-2", yet
`getDragAfterElement` returns "card-3", which lies fully below it.  With a card of `top`
0.7 and `height` 60.6 followed by a card from 100 to 140 and the pointer at 31, the first
card has its midpoint below the pointer and nearer to it, but its offset is computed as
0 and the second card is returned. -/
theorem getDragAfterElement_not_lastFullyAbove :
    getDragAfterElement roundDouble targetChildren 45 = some (mkCardEl "card-3" false 50) ∧
    lastFullyAbove targetChildren 45 = some (mkCardEl "card-2" false 0) ∧
    getDragAfterElement roundDouble targetChildren 45 ≠ lastFullyAbove targetChildren 45 ∧
    (31 : ℚ) < midpoint borderlineCard ∧
    midpoint borderlineCard < midpoint (mkCardEl "card-3" false 100) ∧
    getDragAfterElement roundDouble
      [Node.card borderlineCard, Node.card (mkCardEl "card-3" false 100)] 31 =
      some (mkCardEl "card-3" false 100) := by
  have o2 : offset roundDouble 45 (mkCardEl "card-2" false 0) = 25 := by
    have h := offset_roundDouble_mkCardEl 45 0 "card-2" false (by norm_num) (by norm_num)
    norm_num at h
    exact h
  have o3 : offset roundDouble 45 (mkCardEl "card-3" false 50) = -25 := by
    have h := offset_roundDouble_mkCardEl 45 50 "card-3" false (by norm_num) (by norm_num)
    norm_num at h
    exact h
  have o4 : offset roundDouble 31 (mkCardEl "card-3" false 100) = -89 := by
    have h := offset_roundDouble_mkCardEl 31 100 "card-3" false (by norm_num) (by norm_num)
    norm_num at h
    exact h
  have hd : borderlineCard.dragging = false := rfl
  have h1 : getDragAfterElement roundDouble targetChildren 45 =
      some (mkCardEl "card-3" false 50) := by
    simp [getDragAfterElement, cardsNotDragging, closestStep, mkCardEl_dragging,
      targetChildren, exceeds, o2, o3]
    norm_num
  have h2 : lastFullyAbove targetChildren 45 = some (mkCardEl "card-2" false 0) := by
    simp [lastFullyAbove, cardsNotDragging, fullyAbove, mkCardEl, targetChildren]
    norm_num
  refine ⟨h1, h2, ?_, ?_, ?_, ?_⟩
  · rw [h1, h2]
    decide
  · norm_num [midpoint, borderlineCard]
  · norm_num [midpoint, borderlineCard, mkCardEl]
  · simp [getDragAfterElement, cardsNotDragging, closestStep, mkCardEl_dragging, hd,
      exceeds, offset_roundDouble_borderline, o4]

/-- C11 (amended): an element returned by `getDragAfterElement` has a negative computed
offset, the greatest among the negative computed offsets of the non-dragging cards.
When the rounding is monotone and keeps 0, its vertical midpoint lies below the pointer,
and with a non-negative height its lower edge is below the pointer, so it does not lie
fully above the pointer.  When no operation rounds (`ExactAt`), no non-dragging card has
a midpoint strictly between the pointer and that midpoint, and when moreover the cards
are listed top to bottom, every card listed before it has its midpoint at or above the
pointer. -/
theorem getDragAfterElement_below_pointer (fl : ℚ → ℚ) (children : List Node) (y : ℚ)
    (el : CardEl) (hret : getDragAfterElement fl children y = some el) :
    (offset fl y el < 0 ∧
      ∀ e ∈ cardsNotDragging children, offset fl y e < 0 → offset fl y e ≤ offset fl y el) ∧
    (Monotone fl → fl 0 = 0 →
      y < midpoint el ∧ (0 ≤ el.box.height → fullyAbove y el = false)) ∧
    ((∀ e ∈ cardsNotDragging children, ExactAt fl y e) →
      (∀ e ∈ cardsNotDragging children, y < midpoint e → midpoint el ≤ midpoint e) ∧
      ((cardsNotDragging children).Pairwise (fun a b => midpoint a ≤ midpoint b) →
        ∃ i, (cardsNotDragging children)[i]? = some el ∧
          ∀ (j : Nat) (e : CardEl), j < i → (cardsNotDragging children)[j]? = some e →
            midpoint e ≤ y)) := by
  obtain ⟨c, hc, hget⟩ := getDragAfterElement_isClosest fl children y
  rcases hc with ⟨rfl, _⟩ | ⟨i, e, hie, rfl, he, hmax, hfirst⟩
  · rw [hget] at hret
    cases hret
  · rw [hget] at hret
    have hee : e = el := by simpa using hret
    subst hee
    have hmem : e ∈ cardsNotDragging children := List.getElem?_mem hie
    refine ⟨⟨he, hmax⟩, ?_, ?_⟩
    · intro hmono h0
      have hmid : y < midpoint e := midpoint_below_of_offset_neg fl hmono h0 y e he
      refine ⟨hmid, ?_⟩
      intro hh
      unfold fullyAbove
      rw [decide_eq_false_iff_not]
      unfold midpoint at hmid
      intro hle
      linarith
    · intro hexact
      have hoff : ∀ e1 ∈ cardsNotDragging children,
          offset fl y e1 = y - e1.box.top - e1.box.height / 2 :=
        fun e1 he1 => offset_eq_of_exactAt fl y e1 (hexact e1 he1)
      refine ⟨?_, ?_⟩
      · intro e1 he1 h1
        have h2 := hmax e1 he1 ((offset_neg_iff_of_exactAt fl y e1 (hexact e1 he1)).2 h1)
        rw [hoff e1 he1, hoff e hmem] at h2
        unfold midpoint
        linarith
      · intro hsorted
        refine ⟨i, hie, ?_⟩
        intro j e1 hj hje
        have he1 : e1 ∈ cardsNotDragging children := List.getElem?_mem hje
        by_contra hgt
        have h1 : y < midpoint e1 := lt_of_not_le hgt
        have h2 := hfirst j e1 hj hje
          ((offset_neg_iff_of_exactAt fl y e1 (hexact e1 he1)).2 h1)
        have h3 : midpoint e1 ≤ midpoint e := pairwise_getElem? hsorted hje hie hj
        rw [hoff e1 he1, hoff e hmem] at h2
        unfold midpoint at h3
        linarith

/-- Witness for C11 (amended): the pointer in the gap between the two stacked cards. -/
theorem getDragAfterElement_below_pointer_witness :
    offset roundDouble 45 (mkCardEl "card-3" false 50) < 0 ∧
    (45 : ℚ) < midpoint (mkCardEl "card-3" false 50) ∧
    fullyAbove 45 (mkCardEl "card-3" false 50) = false := by
  have o2 : offset roundDouble 45 (mkCardEl "card-2" false 0) = 25 := by
    have h := offset_roundDouble_mkCardEl 45 0 "card-2" false (by norm_num) (by norm_num)
    norm_num at h
    exact h
  have o3 : offset roundDouble 45 (mkCardEl "card-3" false 50) = -25 := by
    have h := offset_roundDouble_mkCardEl 45 50 "card-3" false (by norm_num) (by norm_num)
    norm_num at h
    exact h
  have h := getDragAfterElement_below_pointer roundDouble targetChildren 45
    (mkCardEl "card-3" false 50)
    (by
      simp [getDragAfterElement, cardsNotDragging, closestStep, mkCardEl_dragging,
        targetChildren, exceeds, o2, o3]
      norm_num)
  have h2 := h.2.1 roundDouble_mono roundDouble_zero
  exact ⟨h.1.1, h2.1, h2.2 (by norm_num [mkCardEl])⟩


/-! ## Drop of an id that no column lists -/

theorem dropHandler_threw_of_unlisted (colId draggedId : String) (w : World)
    (ctr : Container) (col : Column)
    (hctr : w.dom.find? (fun c => c.columnId == colId) = some ctr)
    (hcol : w.store.columns.find? (fun c => c.id == colId) = some col)
    (hunlisted : ∀ c ∈ w.store.columns, draggedId ∉ c.cardIds) :
    ∃ w1, dropHandler colId draggedId w = Outcome.threw w1 := by
  have hsrc : w.store.columns.find? (fun c => c.cardIds.contains draggedId) = none := by
    rw [List.find?_eq_none]
    intro c hc
    simpa using hunlisted c hc
  simp only [dropHandler, hctr, hcol, hsrc]
  split
  · exact ⟨_, rfl⟩
  · exact ⟨_, rfl⟩

/-- C13 (code defect): a piece of text that is no card id is dropped on the rendered
column "To Do" (no placeholder, nothing of the board being dragged).  No column lists
the dragged id, `sourceColumn` is `undefined`, and the handler throws on
`sourceColumn.id` before it reaches `save`. -/
theorem dropHandler_unlisted_id_throws :
    (∀ c ∈ idleWorld.store.columns, "hello" ∉ c.cardIds) ∧
    dropHandler "column-1" "hello" idleWorld = Outcome.threw idleWorld ∧
    (∀ w1, dropHandler "column-1" "hello" idleWorld ≠ Outcome.returned w1) := by
  have h : dropHandler "column-1" "hello" idleWorld = Outcome.threw idleWorld := by decide
  refine ⟨by decide, h, ?_⟩
  intro w1 hw
  rw [h] at hw
  cases hw

/-! ## Rendering a column and reading its card ids back -/

theorem cardIdsOfChildren_renderCardsFrom (layout : Nat → Box) (cards : List Card) :
    ∀ (cardIds : List String) (i : Nat) (children : List Node),
      renderCardsFrom layout cards i cardIds = some children →
      cardIdsOfChildren children =
        cardIds.filter (fun id => cards.any (fun c => c.id == id))
  | [], _, children, h => by
    have : children = [] := by simpa [renderCardsFrom] using h.symm
    rw [this]
    rfl
  | cardId :: rest, i, children, h => by
    cases hfind : cards.find? (fun c => c.id == cardId) with
    | none =>
      have hany : cards.any (fun c => c.id == cardId) = false := by
        rw [List.any_eq_false]
        intro c hc
        have := List.find?_eq_none.1 hfind c hc
        simpa using this
      have h1 : renderCardsFrom layout cards i rest = some children := by
        simpa [renderCardsFrom, hfind] using h
      simp [List.filter_cons, hany,
        cardIdsOfChildren_renderCardsFrom layout cards rest i children h1]
    | some card =>
      have hid : card.id = cardId := by
        have := List.find?_some hfind
        simpa using this
      have hany : cards.any (fun c => c.id == cardId) = true :=
        List.any_eq_true.2 ⟨card, List.mem_of_find?_eq_some hfind, by simpa using hid⟩
      by_cases hl : card.labels.isSome = true
      · simp only [renderCardsFrom, hfind, hl, if_true, Option.map_eq_some'] at h
        obtain ⟨rest1, hrest, rfl⟩ := h
        have ih := cardIdsOfChildren_renderCardsFrom layout cards rest (i + 1) rest1 hrest
        simp only [List.filter_cons, hany, if_true]
        rw [← ih]
        simp [cardIdsOfChildren, renderCard, hid]
      · simp [renderCardsFrom, hfind, hl] at h

theorem renderCardsFrom_isSome (layout : Nat → Box) (cards : List Card) :
    ∀ (cardIds : List String) (i : Nat),
      (∀ id ∈ cardIds, ∀ c, cards.find? (fun k => k.id == id) = some c → c.labels ≠ none) →
      ∃ children, renderCardsFrom layout cards i cardIds = some children
  | [], _, _ => ⟨[], rfl⟩
  | cardId :: rest, i, h => by
    cases hfind : cards.find? (fun c => c.id == cardId) with
    | none =>
      obtain ⟨children, hc⟩ := renderCardsFrom_isSome layout cards rest i
        (fun id hid => h id (List.mem_cons_of_mem _ hid))
      exact ⟨children, by simpa [renderCardsFrom, hfind] using hc⟩
    | some card =>
      have hl : card.labels.isSome = true := by
        have := h cardId (by simp) card hfind
        cases hlab : card.labels with
        | none => exact absurd hlab this
        | some ls => rfl
      obtain ⟨children, hc⟩ := renderCardsFrom_isSome layout cards rest (i + 1)
        (fun id hid => h id (List.mem_cons_of_mem _ hid))
      exact ⟨Node.card (renderCard card (layout i)) :: children,
        by simp [renderCardsFrom, hfind, hl, hc]⟩

/-- C14 (counterexample): after the delete-card action of `storeWithCard` the column
still lists "card-1" but no such card is stored; rendering skips the id, so the ids read
back from the container are not the column's `cardIds`. -/
theorem render_then_recompute_drops_dangling_id :
    (deleteCardClick sampleCard true storeWithCard).columns = [sampleColumn] ∧
    (deleteCardClick sampleCard true storeWithCard).cards = [] ∧
    (renderCards stackedLayout [] sampleColumn).map cardIdsOfChildren = some [] ∧
    (renderCards stackedLayout [] sampleColumn).map cardIdsOfChildren ≠
      some sampleColumn.cardIds := by
  decide

/-- C14 (amended): when the rendering of a column's cards completes, reading the ids of
the rendered card elements back in document order yields the ids of `cardIds` that
resolve to a stored card, in their original order, hence `cardIds` itself when every id
resolves.  The rendering completes when every card it renders has a `labels` list. -/
theorem render_then_recompute_cardIds (layout : Nat → Box) (cards : List Card)
    (column : Column) :
    (∀ children, renderCards layout cards column = some children →
      cardIdsOfChildren children =
        column.cardIds.filter (fun id => cards.any (fun c => c.id == id))) ∧
    ((∀ id ∈ column.cardIds, ∃ c ∈ cards, c.id = id) →
      ∀ children, renderCards layout cards column = some children →
        cardIdsOfChildren children = column.cardIds) ∧
    ((∀ id ∈ column.cardIds, ∀ c, cards.find? (fun k => k.id == id) = some c →
        c.labels ≠ none) →
      ∃ children, renderCards layout cards column = some children) := by
  have h := cardIdsOfChildren_renderCardsFrom layout cards column.cardIds 0
  refine ⟨h, ?_, renderCardsFrom_isSome layout cards column.cardIds 0⟩
  intro hall children hc
  rw [h children hc, List.filter_eq_self]
  intro id hid
  obtain ⟨c, hc1, hcid⟩ := hall id hid
  exact List.any_eq_true.2 ⟨c, hc1, by simpa using hcid⟩

/-- Witness for C14 (amended): the column of `storeWithCard`, whose only id resolves. -/
theorem render_then_recompute_cardIds_witness :
    (∃ children, renderCards stackedLayout storeWithCard.cards sampleColumn = some children) ∧
    ∀ children, renderCards stackedLayout storeWithCard.cards sampleColumn = some children →
      cardIdsOfChildren children = sampleColumn.cardIds :=
  ⟨(render_then_recompute_cardIds stackedLayout storeWithCard.cards sampleColumn).2.2
      (by decide),
   (render_then_recompute_cardIds stackedLayout storeWithCard.cards sampleColumn).2.1
      (by decide)⟩


/-! ## Persistence of edits -/

theorem save_written_getLast? (types : List String) (s : Store) :
    (save types s).written.getLast? = some (save types s).data := by
  simp [save]

theorem save_data_cards (types : List String) (s : Store) (h : "cards" ∈ types) :
    (save types s).data.cards = s.cards := by
  by_cases hl : "labels" ∈ types <;> simp [save, h, hl]

theorem save_data_subtasks (types : List String) (s : Store) :
    (save types s).data.subtasks = s.data.subtasks ∧
    (save types s).data.comments = s.data.comments := by
  by_cases hb : "boards" ∈ types <;> by_cases hc : "columns" ∈ types <;>
    by_cases hk : "cards" ∈ types <;> by_cases hl : "labels" ∈ types <;>
    simp [save, hb, hc, hk, hl]

theorem findIndex_isSome_of_mem {α : Type} (p : α → Bool) :
    ∀ (l : List α) (x : α), x ∈ l → p x = true → ∃ i, findIndex p l = some i
  | [], x, h, _ => by simp at h
  | y :: ys, x, h, hp => by
    by_cases hy : p y = true
    · exact ⟨0, by simp [findIndex, hy]⟩
    · have hy1 : p y = false := by simpa using hy
      have hx : x ∈ ys := by
        rcases List.mem_cons.1 h with h1 | h1
        · rw [h1] at hp
          exact absurd hp hy
        · exact h1
      obtain ⟨i, hi⟩ := findIndex_isSome_of_mem p ys x hx hp
      exact ⟨i + 1, by simp [findIndex, hy1, hi]⟩

/-- C16: for a card `C` stored at position `i` with `completed = false`,
`toggleCardCompletion` hands to `saveData` a document whose `cards` hold a card with the
id and name of `C` and `completed = true`, and the store reloaded from that document
holds such a card. -/
theorem toggleCardCompletion_persisted (s : Store) (i : Nat) (C : Card)
    (hC : s.cards[i]? = some C) (hfalse : C.completed = false) :
    ∃ d, (toggleCardCompletion i s).written.getLast? = some d ∧
      (∃ c ∈ d.cards, c.id = C.id ∧ c.name = C.name ∧ c.completed = true) ∧
      ∃ s1, reload (toggleCardCompletion i s) = some s1 ∧
        ∃ c ∈ s1.cards, c.id = C.id ∧ c.name = C.name ∧ c.completed = true := by
  have hi : i < s.cards.length := getElem?_lt_length hC
  have hmem : ({ C with completed := !C.completed } : Card) ∈
      s.cards.set i { C with completed := !C.completed } :=
    List.mem_iff_getElem?.2 ⟨i, by simp [List.getElem?_set, hi]⟩
  obtain ⟨j, hj⟩ := findIndex_isSome_of_mem (fun c => c.id == C.id)
    (s.cards.set i { C with completed := !C.completed }) _ hmem (by simp)
  obtain ⟨pre, old, post, _, _, _, _, h5⟩ := findIndex_split (fun c => c.id == C.id)
    ({ C with completed := !C.completed } : Card)
    (s.cards.set i { C with completed := !C.completed }) j hj
  have hres : toggleCardCompletion i s =
      save ["cards"] { s with cards := pre ++ { C with completed := !C.completed } :: post } := by
    simp only [toggleCardCompletion, hC, updateCard, hj, h5]
  have hcard : ∃ c ∈ pre ++ ({ C with completed := !C.completed } : Card) :: post,
      c.id = C.id ∧ c.name = C.name ∧ c.completed = true :=
    ⟨{ C with completed := !C.completed }, by simp, rfl, rfl, by simp [hfalse]⟩
  have hd : (toggleCardCompletion i s).written.getLast? =
      some (toggleCardCompletion i s).data := by
    rw [hres]
    exact save_written_getLast? _ _
  have hcards : (toggleCardCompletion i s).data.cards =
      pre ++ { C with completed := !C.completed } :: post := by
    rw [hres]
    exact save_data_cards _ _ (by simp)
  refine ⟨_, hd, ?_, ?_⟩
  · rw [hcards]
    exact hcard
  · refine ⟨initStore (toggleCardCompletion i s).data, by simp [reload, hd], ?_⟩
    simp only [initStore]
    rw [hcards]
    exact hcard

/-- Witness for C16: the card "Write spec" of `storeWithCard` is marked complete. -/
theorem toggleCardCompletion_persisted_witness :
    ∃ d, (toggleCardCompletion 0 storeWithCard).written.getLast? = some d ∧
      (∃ c ∈ d.cards, c.id = sampleCard.id ∧ c.name = sampleCard.name ∧ c.completed = true) ∧
      ∃ s1, reload (toggleCardCompletion 0 storeWithCard) = some s1 ∧
        ∃ c ∈ s1.cards, c.id = sampleCard.id ∧ c.name = sampleCard.name ∧
          c.completed = true :=
  toggleCardCompletion_persisted storeWithCard 0 sampleCard (by decide) (by decide)

/-- C17 (code defect): `save` copies only `boards`, `columns`, `cards` and `labels` into
the document; the names "subtasks" and "comments" have no effect.  After the confirmed
delete-card action on a store loaded with one subtask entry of that card, the in-memory
`subtasks` are empty while the document written still holds the entry; started from a
document without `subtasks`, the written document has none although the in-memory
collection is the empty list. -/
theorem save_ignores_subtasks :
    (deleteCardClick sampleCard true storeWithSubtasks).subtasks = [] ∧
    (deleteCardClick sampleCard true storeWithSubtasks).written.getLast?.map
        (fun d => d.subtasks) =
      some (some [{ id := "subtask-1", cardId := some "card-1", boardId := some "board-1" }]) ∧
    (deleteColumn "board-1" "column-1" true storeWithSubtasks).subtasks = [] ∧
    (deleteColumn "board-1" "column-1" true storeWithSubtasks).written.getLast?.map
        (fun d => d.subtasks) =
      some (some [{ id := "subtask-1", cardId := some "card-1", boardId := some "board-1" }]) ∧
    (deleteBoard "board-1" storeWithSubtasks).subtasks = [] ∧
    (deleteBoard "board-1" storeWithSubtasks).written.getLast?.map (fun d => d.subtasks) =
      some (some [{ id := "subtask-1", cardId := some "card-1", boardId := some "board-1" }]) ∧
    (deleteBoard "board-1" storeWithCard).subtasks = [] ∧
    (deleteBoard "board-1" storeWithCard).written.getLast?.map (fun d => d.subtasks) =
      some none := by
  decide

/-! ## Declined confirmation -/

/-- C19: when the user declines the confirmation, `deleteColumn`, the delete-label
action and the delete-card action return the store as it was: no collection changes and
nothing is written. -/
theorem declined_delete_is_noop (s : Store) (boardId columnId : String) (L : Label)
    (c : Card) :
    deleteColumn boardId columnId false s = s ∧
    deleteLabelClick L false s = s ∧
    deleteCardClick c false s = s := by
  refine ⟨?_, by simp [deleteLabelClick], by simp [deleteCardClick]⟩
  cases h : s.columns.find? (fun c => c.id == columnId) <;> simp [deleteColumn, h]


/-! ## Edits made in the card modal -/

/-- C18 (code defect): with every stored name non-empty, clearing the title in the card
modal stores the empty name, on blur as well as on close: the two handlers compare the
trimmed text with the old name only.  The board and column title handlers test the
trimmed text and leave the store as it was. -/
theorem card_title_accepts_empty_name :
    openModal "card-1" storeWithCard = some sampleModal ∧
    storeWithCard.cards.map (fun c => c.name) = ["Write spec"] ∧
    (titleBlur "   " sampleModal).store.cards.map (fun c => c.name) = [""] ∧
    (closeModal "" sampleModal).cards.map (fun c => c.name) = [""] ∧
    (∀ (s : Store) (boardId text : String), jsTrim text = "" →
      boardTitleBlur boardId text s = s) ∧
    (∀ (s : Store) (colId text : String), jsTrim text = "" →
      columnTitleBlur colId text s = s) := by
  refine ⟨by decide, by decide, by decide, by decide, ?_, ?_⟩
  · intro s boardId text h
    cases hb : s.boards.find? (fun b => b.id == boardId) <;> simp [boardTitleBlur, hb, h]
  · intro s colId text h
    cases hc : s.columns.find? (fun c => c.id == colId) <;> simp [columnTitleBlur, hc, h]

/-- C15 (code defect): two runs on the modal of the card "Write spec".
First run: the priority is set to "High" (`updateCard` stores a copy), then a note is
typed; the note handler only calls `save("cards")`, so the stored card and the written
document never get the note, also not when the modal closes.
Second run: the description is committed, the completion toggle marks the stored copy
complete, then the description is committed again from the modal's own object, which
stores `completed = false` again. -/
theorem modal_edits_dropped_or_reverted :
    openModal "card-1" storeWithCard = some sampleModal ∧
    (noteBlur "call Ann" (priorityChange "High" sampleModal)).card.note = "call Ann" ∧
    (noteBlur "call Ann" (priorityChange "High" sampleModal)).store.cards.map
        (fun c => (c.priority, c.note)) = [("High", "")] ∧
    (closeModal "Write spec" (noteBlur "call Ann" (priorityChange "High" sampleModal))).cards.map
        (fun c => (c.priority, c.note)) = [("High", "")] ∧
    (reload (closeModal "Write spec"
        (noteBlur "call Ann" (priorityChange "High" sampleModal)))).map
        (fun s => s.cards.map (fun c => (c.priority, c.note))) = some [("High", "")] ∧
    (completeToggleClick (descriptionBlur "draft" sampleModal)).store.cards.map
        (fun c => (c.description, c.completed)) = [("draft", true)] ∧
    (descriptionBlur "final"
        (completeToggleClick (descriptionBlur "draft" sampleModal))).store.cards.map
        (fun c => (c.description, c.completed)) = [("final", false)] := by
  decide


/-! ## Board and column links -/

theorem find?_filter_of_pos {α : Type} (p q : α → Bool) :
    ∀ (l : List α) (x : α), l.find? p = some x → q x = true →
      (l.filter q).find? p = some x
  | [], x, h, _ => by simp at h
  | y :: ys, x, h, hq => by
    by_cases hy : p y = true
    · have hxy : y = x := by simpa [List.find?_cons, hy] using h
      subst hxy
      simp [List.filter_cons, hq, List.find?_cons, hy]
    · have hy1 : p y = false := by simpa using hy
      have h1 : ys.find? p = some x := by simpa [List.find?_cons, hy1] using h
      have ih := find?_filter_of_pos p q ys x h1 hq
      by_cases hqy : q y = true
      · simp [List.filter_cons, hqy, List.find?_cons, hy1, ih]
      · simp [List.filter_cons, hqy, ih]

theorem mem_updateFirst {α : Type} (p : α → Bool) (f : α → α) :
    ∀ (l : List α) (y : α), y ∈ updateFirst p f l →
      ∃ (i : Nat) (x : α), l[i]? = some x ∧
        ((findIndex p l = some i ∧ y = f x) ∨ (findIndex p l ≠ some i ∧ y = x))
  | [], y, h => by simp [updateFirst] at h
  | x :: xs, y, h => by
    by_cases hx : p x = true
    · simp only [updateFirst, hx, if_true, List.mem_cons] at h
      rcases h with h | h
      · exact ⟨0, x, by simp, Or.inl ⟨by simp [findIndex, hx], h⟩⟩
      · obtain ⟨n, hn⟩ := List.mem_iff_getElem?.1 h
        exact ⟨n + 1, y, by simpa using hn, Or.inr ⟨by simp [findIndex, hx], rfl⟩⟩
    · have hx1 : p x = false := by simpa using hx
      simp only [updateFirst, hx1, Bool.false_eq_true, if_false, List.mem_cons] at h
      rcases h with h | h
      · refine ⟨0, x, by simp, Or.inr ⟨?_, h⟩⟩
        simp [findIndex, hx1]
      · obtain ⟨i, z, hz, hcase⟩ := mem_updateFirst p f xs y h
        refine ⟨i + 1, z, by simpa using hz, ?_⟩
        rcases hcase with ⟨h1, h2⟩ | ⟨h1, h2⟩
        · exact Or.inl ⟨by simp [findIndex, hx1, h1], h2⟩
        · refine Or.inr ⟨?_, h2⟩
          simpa [findIndex, hx1] using h1

theorem findIndex_some_pos {α : Type} (p : α → Bool) :
    ∀ (l : List α) (i : Nat) (x : α), findIndex p l = some i → l[i]? = some x → p x = true
  | [], i, x, h, _ => by simp [findIndex] at h
  | y :: ys, i, x, h, hx => by
    by_cases hy : p y = true
    · have hi : i = 0 := by simpa [findIndex, hy, eq_comm] using h
      subst hi
      have : y = x := by simpa using hx
      rw [← this]
      exact hy
    · have hy1 : p y = false := by simpa using hy
      simp only [findIndex, hy1, Bool.false_eq_true, if_false, Option.map_eq_some'] at h
      obtain ⟨j, hj, rfl⟩ := h
      exact findIndex_some_pos p ys j x hj (by simpa using hx)

theorem columnIdsResolve_deleteBoard (s : Store) (id : String) (hinv : ColumnIdsResolve s) :
    ColumnIdsResolve (deleteBoard id s) := by
  intro b hb cid hcid
  simp only [deleteBoard, save_boards, List.mem_filter] at hb
  have hne : b.id ≠ id := by simpa using hb.2
  have h := hinv b hb.1 cid hcid
  cases hfind : s.columns.find? (fun c => c.id == cid) with
  | none => simp [hfind] at h
  | some col =>
    have hcb : col.boardId = b.id := by simpa [hfind] using h
    have hq : (fun c : Column => c.boardId != id) col = true := by
      simp [hcb, hne]
    have h1 := find?_filter_of_pos (fun c => c.id == cid) (fun c => c.boardId != id)
      s.columns col hfind hq
    simp only [deleteBoard, save_columns, List.find?_map]
    have hcomp : ((fun c : Column => c.id == cid) ∘ fun col : Column =>
        { col with
          cardIds := col.cardIds.filter (fun cardId =>
            !((s.cards.filter (fun card => card.boardId == some id)).map
              (fun card => card.id)).contains cardId) }) =
        (fun c : Column => c.id == cid) := rfl
    rw [hcomp, h1]
    simp [hcb]

theorem columnIdsResolve_addColumnToBoard (s : Store)
    (boardId name colour freshId : String) (hinv : ColumnIdsResolve s)
    (hfresh : ∀ c ∈ s.columns, c.id ≠ freshId) :
    ColumnIdsResolve (addColumnToBoard boardId name colour freshId s) := by
  cases hfind : s.boards.find? (fun b => b.id == boardId) with
  | none =>
    simp only [addColumnToBoard, hfind]
    exact hinv
  | some board =>
    intro b hb cid hcid
    simp only [addColumnToBoard, hfind, save_boards, save_columns] at hb ⊢
    have hold : ∀ b0 ∈ s.boards, cid ∈ b0.columnIds →
        ((s.columns ++ [createColumn name colour boardId freshId]).find?
          (fun c => c.id == cid)).map (fun c => c.boardId) = some b0.id := by
      intro b0 hb0 hc0
      have h := hinv b0 hb0 cid hc0
      cases hf : s.columns.find? (fun c => c.id == cid) with
      | none => simp [hf] at h
      | some col =>
        rw [List.find?_append, hf]
        simpa [hf] using h
    obtain ⟨i, x, hx, hcase⟩ := mem_updateFirst _ _ _ _ hb
    rcases hcase with ⟨h1, rfl⟩ | ⟨_, rfl⟩
    · have hxid : x.id = boardId := by
        simpa using findIndex_some_pos _ _ _ _ h1 hx
      simp only [List.mem_append, List.mem_singleton] at hcid
      rcases hcid with hc | hc
      · exact hold x (List.getElem?_mem hx) hc
      · have hnone : s.columns.find? (fun c => c.id == cid) = none := by
          rw [List.find?_eq_none]
          intro c hcm
          have := hfresh c hcm
          rw [hc]
          simpa [createColumn] using this
        rw [List.find?_append, hnone]
        simp [createColumn, hc, hxid]
    · exact hold b (List.getElem?_mem hx) hcid

theorem columnIdsResolve_deleteColumn (s : Store) (boardId columnId : String)
    (confirmed : Bool) (hinv : ColumnIdsResolve s) (hsole : ListedOnlyBy s boardId columnId) :
    ColumnIdsResolve (deleteColumn boardId columnId confirmed s) := by
  cases hfind : s.columns.find? (fun c => c.id == columnId) with
  | none =>
    simp only [deleteColumn, hfind]
    exact hinv
  | some column =>
    cases confirmed with
    | false =>
      simp only [deleteColumn, hfind, Bool.not_false, if_true]
      exact hinv
    | true =>
      intro b hb cid hcid
      simp only [deleteColumn, hfind, Bool.not_true, Bool.false_eq_true, if_false,
        save_boards, save_columns] at hb ⊢
      have hkeep : ∀ b0 ∈ s.boards, cid ∈ b0.columnIds → cid ≠ columnId →
          ((s.columns.filter (fun c => c.id != columnId)).find?
            (fun c => c.id == cid)).map (fun c => c.boardId) = some b0.id := by
        intro b0 hb0 hc0 hne
        have h := hinv b0 hb0 cid hc0
        cases hf : s.columns.find? (fun c => c.id == cid) with
        | none => simp [hf] at h
        | some col =>
          have hcid2 : col.id = cid := by
            have := List.find?_some hf
            simpa using this
          have hq : (fun c : Column => c.id != columnId) col = true := by
            simp [hcid2, hne]
          rw [find?_filter_of_pos _ _ _ _ hf hq]
          simpa [hf] using h
      obtain ⟨i, x, hx, hcase⟩ := mem_updateFirst _ _ _ _ hb
      rcases hcase with ⟨_, rfl⟩ | ⟨h1, rfl⟩
      · simp only [List.mem_filter] at hcid
        exact hkeep x (List.getElem?_mem hx) hcid.1 (by simpa using hcid.2)
      · refine hkeep b (List.getElem?_mem hx) hcid ?_
        intro heq
        exact h1 (hsole i b hx (heq ▸ hcid))


/-- C20: in `uuidColumnStore` every listed column id resolves to a column of the listing
board.  A column is added to "Sprint 2" and `crypto.randomUUID()` returns the value the
id of the column of "Sprint 1" was built from: `addColumnToBoard` does not look at the
ids present, "Sprint 2" then lists an id that `columns.find` resolves to the column of
"Sprint 1", and the property is lost. -/
theorem columnIdsResolve_not_preserved :
    ColumnIdsResolve uuidColumnStore ∧
    (addColumnToBoard "board-2" "Review" "grey" "column-123e4567-e89b-42d3-a456-426614174000"
      uuidColumnStore).columns.map (fun c => (c.id, c.boardId)) =
      [("column-123e4567-e89b-42d3-a456-426614174000", "board-1"),
       ("column-123e4567-e89b-42d3-a456-426614174000", "board-2")] ∧
    ¬ ColumnIdsResolve
      (addColumnToBoard "board-2" "Review" "grey" "column-123e4567-e89b-42d3-a456-426614174000"
        uuidColumnStore) := by
  refine ⟨?_, by decide, ?_⟩
  · unfold ColumnIdsResolve
    decide
  · unfold ColumnIdsResolve
    decide

/-- Where `ColumnIdsResolve` is kept: after `deleteBoard`; after `addColumnToBoard` for
any `boardId` when the generated id is not the id of a stored column; and after
`deleteColumn` when no board other than the one passed lists the column id.
`addColumnToBoard` with a `boardId` that matches no board returns the store as it
was. -/
theorem columnIdsResolve_preserved (s : Store) (hinv : ColumnIdsResolve s) :
    (∀ id : String, ColumnIdsResolve (deleteBoard id s)) ∧
    (∀ boardId name colour freshId : String, (∀ c ∈ s.columns, c.id ≠ freshId) →
      ColumnIdsResolve (addColumnToBoard boardId name colour freshId s)) ∧
    (∀ boardId name colour freshId : String,
      s.boards.find? (fun b => b.id == boardId) = none →
      addColumnToBoard boardId name colour freshId s = s) ∧
    (∀ (boardId columnId : String) (confirmed : Bool), ListedOnlyBy s boardId columnId →
      ColumnIdsResolve (deleteColumn boardId columnId confirmed s)) := by
  refine ⟨fun id => columnIdsResolve_deleteBoard s id hinv,
    fun boardId name colour freshId hfresh =>
      columnIdsResolve_addColumnToBoard s boardId name colour freshId hinv hfresh,
    ?_,
    fun boardId columnId confirmed hsole =>
      columnIdsResolve_deleteColumn s boardId columnId confirmed hinv hsole⟩
  intro boardId name colour freshId hnone
  simp [addColumnToBoard, hnone]

/-- The store `twoBoardStore`: a column added to "board-2" under a new id, an unknown
board id, and "column-1" deleted from the view of "board-1". -/
theorem columnIdsResolve_preserved_witness :
    ColumnIdsResolve (deleteBoard "board-1" twoBoardStore) ∧
    ColumnIdsResolve (addColumnToBoard "board-2" "Review" "grey" "column-2" twoBoardStore) ∧
    addColumnToBoard "board-9" "Review" "grey" "column-2" twoBoardStore = twoBoardStore ∧
    ColumnIdsResolve (deleteColumn "board-1" "column-1" true twoBoardStore) :=
  have h := columnIdsResolve_preserved twoBoardStore (by unfold ColumnIdsResolve; decide)
  ⟨h.1 "board-1",
   h.2.1 "board-2" "Review" "grey" "column-2" (by decide),
   h.2.2.1 "board-9" "Review" "grey" "column-2" (by decide),
   h.2.2.2 "board-1" "column-1" true (by
    intro i b hb hmem
    match i, hb with
    | 0, _ => decide
    | 1, hb =>
      have hb2 : b = mkBoard "board-2" "Sprint 2" [] := by
        simpa [twoBoardStore, initStore, emptySnapshot] using hb.symm
      rw [hb2] at hmem
      simp [mkBoard] at hmem
    | i + 2, hb => simp [twoBoardStore, initStore, emptySnapshot] at hb)⟩


/-! ## Drag from one column to the top of another -/

theorem getDragAfterElement_eq_head? (fl : ℚ → ℚ) (children : List Node) (y : ℚ)
    (hsorted : (cardsNotDragging children).Pairwise
      (fun a b => offset fl y b ≤ offset fl y a))
    (hy : ∀ e ∈ cardsNotDragging children, offset fl y e < 0) :
    getDragAfterElement fl children y = (cardsNotDragging children).head? := by
  rw [getDragAfterElement_eq_find? fl children y hsorted]
  cases hl : cardsNotDragging children with
  | nil => rfl
  | cons e es =>
    have he : offset fl y e < 0 := hy e (by rw [hl]; simp)
    simp [List.find?_cons, he]

theorem cardsNotDragging_erase_placeholder :
    ∀ l : List Node, cardsNotDragging (l.erase Node.placeholder) = cardsNotDragging l
  | [] => rfl
  | n :: ns => by
    cases n with
    | placeholder => simp [cardsNotDragging]
    | card e =>
      have ih := cardsNotDragging_erase_placeholder ns
      rw [List.erase_cons_tail (by simp)]
      simp only [cardsNotDragging, List.filterMap_cons] at ih ⊢
      rw [ih]

theorem cardIdsOfChildren_erase_placeholder :
    ∀ l : List Node, cardIdsOfChildren (l.erase Node.placeholder) = cardIdsOfChildren l
  | [] => rfl
  | n :: ns => by
    cases n with
    | placeholder => simp [cardIdsOfChildren]
    | card e =>
      have ih := cardIdsOfChildren_erase_placeholder ns
      rw [List.erase_cons_tail (by simp)]
      simp only [cardIdsOfChildren, List.filterMap_cons] at ih ⊢
      rw [ih]

theorem noDrag_erase (l : List Node) (n : Node) (h : ∀ m ∈ l, isDragging m = false) :
    ∀ m ∈ l.erase n, isDragging m = false :=
  fun m hm => h m (List.mem_of_mem_erase hm)

theorem cardIdsOfChildren_eq_nil_of_cardsNotDragging (l : List Node)
    (hidle : ∀ m ∈ l, isDragging m = false) (h : cardsNotDragging l = []) :
    cardIdsOfChildren l = [] := by
  induction l with
  | nil => rfl
  | cons n ns ih =>
    cases n with
    | placeholder =>
      have h1 : cardsNotDragging ns = [] := by simpa [cardsNotDragging] using h
      have := ih (fun m hm => hidle m (List.mem_cons_of_mem _ hm)) h1
      simpa [cardIdsOfChildren] using this
    | card e =>
      have he : e.dragging = false := by
        have := hidle (Node.card e) (by simp)
        simpa [isDragging] using this
      simp [cardsNotDragging, he] at h

theorem insertBeforeFirst_head_card (e0 : CardEl) :
    ∀ D : List Node, (∀ m ∈ D, isDragging m = false) →
      (cardsNotDragging D).head? = some e0 →
      ∃ pre post, D = pre ++ Node.card e0 :: post ∧ cardIdsOfChildren pre = [] ∧
        insertBeforeFirst Node.placeholder (Node.card e0) D =
          pre ++ Node.placeholder :: Node.card e0 :: post
  | [], _, h => by simp [cardsNotDragging] at h
  | n :: ns, hidle, h => by
    cases n with
    | placeholder =>
      have h1 : (cardsNotDragging ns).head? = some e0 := by
        simpa [cardsNotDragging] using h
      obtain ⟨pre, post, h2, h3, h4⟩ := insertBeforeFirst_head_card e0 ns
        (fun m hm => hidle m (List.mem_cons_of_mem _ hm)) h1
      refine ⟨Node.placeholder :: pre, post, by simp [h2], ?_, ?_⟩
      · simpa [cardIdsOfChildren] using h3
      · simp [insertBeforeFirst, h4]
    | card e =>
      have he : e.dragging = false := by
        have := hidle (Node.card e) (by simp)
        simpa [isDragging] using this
      have hee : e = e0 := by
        simpa [cardsNotDragging, he] using h
      subst hee
      exact ⟨[], ns, rfl, rfl, by simp [insertBeforeFirst]⟩

theorem cardIdsOfChildren_replace_first_placeholder (el : CardEl) (Q : List Node) :
    ∀ P : List Node, cardIdsOfChildren P = [] →
      cardIdsOfChildren
        ((insertBeforeFirst (Node.card el) Node.placeholder
          (P ++ Node.placeholder :: Q)).erase Node.placeholder) =
        el.dataId :: cardIdsOfChildren Q
  | [], _ => by
    simp [insertBeforeFirst, cardIdsOfChildren]
  | n :: ns, h => by
    cases n with
    | placeholder =>
      have h1 : cardIdsOfChildren ns = [] := by simpa [cardIdsOfChildren] using h
      simp only [List.cons_append, insertBeforeFirst, if_true]
      rw [List.erase_cons_tail (by simp), List.erase_cons_head]
      have h2 : cardIdsOfChildren (Node.card el :: (ns ++ Node.placeholder :: Q)) =
          el.dataId :: (cardIdsOfChildren ns ++ cardIdsOfChildren (Node.placeholder :: Q)) := by
        rw [← cardIdsOfChildren_append]
        simp [cardIdsOfChildren]
      refine h2.trans ?_
      rw [h1]
      simp [cardIdsOfChildren]
    | card e => simp [cardIdsOfChildren] at h


theorem placeholder_first_after_dragover (fl : ℚ → ℚ) (C : List Node) (y : ℚ)
    (hidle : ∀ m ∈ C, isDragging m = false)
    (hy : ∀ e ∈ cardsNotDragging C, offset fl y e < 0)
    (hsorted : (cardsNotDragging C).Pairwise (fun a b => offset fl y b ≤ offset fl y a)) :
    ∃ P Q,
      (match getDragAfterElement fl C y with
        | none => appendChild Node.placeholder C
        | some el => insertBefore Node.placeholder (Node.card el) C) =
        P ++ Node.placeholder :: Q ∧
      cardIdsOfChildren P = [] ∧ cardIdsOfChildren Q = cardIdsOfChildren C ∧
      ∀ m ∈ P ++ Node.placeholder :: Q, isDragging m = false := by
  rw [getDragAfterElement_eq_head? fl C y hsorted hy]
  have hidleD : ∀ m ∈ C.erase Node.placeholder, isDragging m = false :=
    noDrag_erase C Node.placeholder hidle
  cases hl : (cardsNotDragging C).head? with
  | none =>
    have hnil : cardsNotDragging C = [] := by
      cases hc : cardsNotDragging C with
      | nil => rfl
      | cons e es => simp [hc] at hl
    have hids : cardIdsOfChildren C = [] :=
      cardIdsOfChildren_eq_nil_of_cardsNotDragging C hidle hnil
    refine ⟨C.erase Node.placeholder, [], rfl, ?_, ?_, ?_⟩
    · rw [cardIdsOfChildren_erase_placeholder, hids]
    · rw [hids]
      rfl
    · intro m hm
      rcases List.mem_append.1 hm with h1 | h1
      · exact hidleD m h1
      · have : m = Node.placeholder := by simpa using h1
        rw [this]
        rfl
  | some e0 =>
    have hhead : (cardsNotDragging (C.erase Node.placeholder)).head? = some e0 := by
      rw [cardsNotDragging_erase_placeholder]
      exact hl
    obtain ⟨pre, post, h1, h2, h3⟩ :=
      insertBeforeFirst_head_card e0 (C.erase Node.placeholder) hidleD hhead
    refine ⟨pre, Node.card e0 :: post, h3, h2, ?_, ?_⟩
    · have h4 : cardIdsOfChildren (C.erase Node.placeholder) =
          cardIdsOfChildren pre ++ cardIdsOfChildren (Node.card e0 :: post) := by
        rw [h1, cardIdsOfChildren_append]
      rw [← cardIdsOfChildren_erase_placeholder C, h4, h2]
      rfl
    · intro m hm
      rcases List.mem_append.1 hm with h5 | h5
      · exact hidleD m (by rw [h1]; exact List.mem_append_left _ h5)
      · rcases List.mem_cons.1 h5 with h6 | h6
        · rw [h6]
          rfl
        · exact hidleD m (by rw [h1]; exact List.mem_append_right _ h6)

theorem find?_isDragging_eq_none (l : List Node) (h : ∀ m ∈ l, isDragging m = false) :
    l.find? isDragging = none := by
  rw [List.find?_eq_none]
  intro m hm
  simp [h m hm]

theorem querySelectorDragging_updateFirst (p : Container → Bool) (f : Container → Container) :
    ∀ (dom : List Container) (c : Container), dom.find? p = some c →
      (∀ m ∈ c.children, isDragging m = false) →
      (∀ m ∈ (f c).children, isDragging m = false) →
      querySelectorDragging (updateFirst p f dom) = querySelectorDragging dom
  | [], c, h, _, _ => by simp at h
  | d :: ds, c, h, h1, h2 => by
    by_cases hd : p d = true
    · have hdc : d = c := by simpa [List.find?_cons, hd] using h
      subst hdc
      simp [updateFirst, hd, querySelectorDragging, find?_isDragging_eq_none _ h1,
        find?_isDragging_eq_none _ h2]
    · have hd1 : p d = false := by simpa using hd
      have h3 : ds.find? p = some c := by simpa [List.find?_cons, hd1] using h
      have ih := querySelectorDragging_updateFirst p f ds c h3 h1 h2
      simp [updateFirst, hd1, querySelectorDragging, ih]

theorem find?_removeDragging_of_idle (colId : String) :
    ∀ (dom : List Container) (c : Container),
      dom.find? (fun c => c.columnId == colId) = some c →
      (∀ m ∈ c.children, isDragging m = false) →
      (removeDragging dom).find? (fun c => c.columnId == colId) = some c
  | [], c, h, _ => by simp at h
  | d :: ds, c, h, hidle => by
    by_cases hd : d.columnId = colId
    · have hdc : d = c := by simpa [List.find?_cons, hd] using h
      subst hdc
      simp [removeDragging, find?_isDragging_eq_none _ hidle, List.find?_cons, hd]
    · have hb : (d.columnId == colId) = false := by simpa using hd
      have h3 : ds.find? (fun c => c.columnId == colId) = some c := by
        simpa [List.find?_cons, hb] using h
      have ih := find?_removeDragging_of_idle colId ds c h3 hidle
      cases hfind : d.children.find? isDragging with
      | some m => simp [removeDragging, hfind, List.find?_cons, hb, h3]
      | none => simp [removeDragging, hfind, List.find?_cons, hb, ih]


/-- C12 (counterexample): "card-1" is dragged from "To Do" over "Doing" with the pointer
at 5, above the midpoints (70 and 20) of both cards of "Doing", whose boxes do not
follow the document order.  `getDragAfterElement` picks the card with the nearest
midpoint, the second child, and the drop yields "card-2", "card-1", "card-3" instead of
"card-1" followed by the old list.  Likewise when the only card of "Doing" has `top`
0.7 and `height` 60.6 and the pointer is at 31, above its midpoint: the computed offset
is 0, the placeholder is appended at the end and the drop yields "card-2", "card-1". -/
theorem dragover_then_drop_unordered_boxes :
    (∀ e ∈ cardsNotDragging unorderedChildren, (5 : ℚ) < midpoint e) ∧
    getDragAfterElement roundDouble unorderedChildren 5 = some (mkCardEl "card-3" false 0) ∧
    (match dropHandler "column-2" "card-1"
        { unorderedWorld with
          dom := dragoverHandler roundDouble "column-2" 5 unorderedWorld.dom } with
      | Outcome.returned w1 => w1.store.columns.map (fun c => c.cardIds)
      | Outcome.threw _ => []) = [[], ["card-2", "card-1", "card-3"]] ∧
    ["card-2", "card-1", "card-3"] ≠ "card-1" :: doingColumn.cardIds ∧
    (∀ e ∈ cardsNotDragging [Node.card borderlineCard], (31 : ℚ) < midpoint e) ∧
    (match dropHandler "column-2" "card-1"
        { borderlineWorld with
          dom := dragoverHandler roundDouble "column-2" 31 borderlineWorld.dom } with
      | Outcome.returned w1 => w1.store.columns.map (fun c => c.cardIds)
      | Outcome.threw _ => []) = [[], ["card-2", "card-1"]] := by
  have hd : borderlineCard.dragging = false := rfl
  have h3 : getDragAfterElement roundDouble [Node.card borderlineCard] 31 = none := by
    simp [getDragAfterElement, cardsNotDragging, closestStep, hd,
      offset_roundDouble_borderline]
  have h4 : dragoverHandler roundDouble "column-2" 31 borderlineWorld.dom =
      [{ columnId := "column-1", children := [Node.card (mkCardEl "card-1" true 0)] },
       { columnId := "column-2", children := [Node.card borderlineCard,
           Node.placeholder] }] := by
    simp only [dragoverHandler, borderlineWorld, List.find?_cons]
    simp only [show (("column-1" : String) == "column-2") = false by decide,
      show (("column-2" : String) == "column-2") = true by decide, h3]
    decide!
  have o2 : offset roundDouble 5 (mkCardEl "card-2" false 50) = -65 := by
    have h := offset_roundDouble_mkCardEl 5 50 "card-2" false (by norm_num) (by norm_num)
    norm_num at h
    exact h
  have o3 : offset roundDouble 5 (mkCardEl "card-3" false 0) = -15 := by
    have h := offset_roundDouble_mkCardEl 5 0 "card-3" false (by norm_num) (by norm_num)
    norm_num at h
    exact h
  have h1 : getDragAfterElement roundDouble unorderedChildren 5 =
      some (mkCardEl "card-3" false 0) := by
    simp [getDragAfterElement, cardsNotDragging, closestStep, mkCardEl_dragging,
      unorderedChildren, exceeds, o2, o3]
    norm_num
  have h2 : dragoverHandler roundDouble "column-2" 5 unorderedWorld.dom =
      [{ columnId := "column-1", children := [Node.card (mkCardEl "card-1" true 0)] },
       { columnId := "column-2", children := [Node.card (mkCardEl "card-2" false 50),
           Node.placeholder, Node.card (mkCardEl "card-3" false 0)] }] := by
    simp only [dragoverHandler, unorderedWorld, List.find?_cons]
    simp only [show (("column-1" : String) == "column-2") = false by decide,
      show (("column-2" : String) == "column-2") = true by decide, h1]
    decide
  refine ⟨?_, h1, ?_, by decide, ?_, ?_⟩
  · intro e he
    simp only [unorderedChildren, cardsNotDragging, mkCardEl, List.filterMap_cons,
      List.filterMap_nil] at he
    simp at he
    rcases he with rfl | rfl <;> norm_num [midpoint]
  · rw [h2]
    decide
  · intro e he
    simp [cardsNotDragging, hd] at he
    rw [he]
    norm_num [midpoint, borderlineCard]
  · rw [h4]
    decide!


/-- C12 (amended): columns `A` and `B` at different positions, `B` the column its
handlers are bound to, the container of `B` listing `B.cardIds` in order with no child
being dragged; card `X`, the last entry of `A.cardIds`, is the element being dragged.
If, when the `dragover` and then the `drop` handler of `B` run, the offset that the code
computes is negative for every card of `B` (the pointer is above every midpoint and no
difference is rounded to 0) and these computed offsets do not increase in document order
(the cards are laid out top to bottom), the drop returns normally, `B.cardIds` becomes
the id of `X` followed by the old `B.cardIds`, and `A.cardIds` becomes the old
`A.cardIds` without the id of `X`. -/
theorem dragover_then_drop_to_top (fl : ℚ → ℚ) (w : World) (a b : Nat) (A B : Column)
    (X : String) (el : CardEl) (ctrB : Container) (y : ℚ)
    (hA : w.store.columns[a]? = some A) (hB : w.store.columns[b]? = some B) (hab : a ≠ b)
    (hbind : ∀ (j : Nat) (c : Column), j < b → w.store.columns[j]? = some c → c.id ≠ B.id)
    (hlast : ∃ init, A.cardIds = init ++ [X])
    (hctrB : w.dom.find? (fun c => c.columnId == B.id) = some ctrB)
    (hlist : cardIdsOfChildren ctrB.children = B.cardIds)
    (hdrag : querySelectorDragging w.dom = some (Node.card el)) (hX : el.dataId = X)
    (hidle : ∀ m ∈ ctrB.children, isDragging m = false)
    (hy : ∀ e ∈ cardsNotDragging ctrB.children, offset fl y e < 0)
    (hsorted : (cardsNotDragging ctrB.children).Pairwise
      (fun e1 e2 => offset fl y e2 ≤ offset fl y e1)) :
    ∃ w1 A1 B1,
      dropHandler B.id X { w with dom := dragoverHandler fl B.id y w.dom } =
        Outcome.returned w1 ∧
      w1.store.columns[a]? = some A1 ∧ w1.store.columns[b]? = some B1 ∧
      B1.cardIds = X :: B.cardIds ∧
      A1.cardIds = A.cardIds.filter (fun id => id != X) ∧
      X ∉ A1.cardIds := by
  have hfindB : w.store.columns.find? (fun c => c.id == B.id) = some B :=
    find?_eq_some_of_first _ _ b B hB (by simp)
      (fun j c hj hjc => by simpa using hbind j c hj hjc)
  have hctrBid : ctrB.columnId = B.id := by
    have := List.find?_some hctrB
    simpa using this
  obtain ⟨P, Q, hT, hP, hQ, hidleT⟩ :=
    placeholder_first_after_dragover fl ctrB.children y hidle hy hsorted
  have hover : dragoverHandler fl B.id y w.dom =
      updateFirst (fun c => c.columnId == B.id)
        (fun c => { c with children := P ++ Node.placeholder :: Q }) w.dom := by
    simp only [dragoverHandler, hctrB, hdrag]
    rw [hT]
  have hfind1 : (dragoverHandler fl B.id y w.dom).find? (fun c => c.columnId == B.id) =
      some { ctrB with children := P ++ Node.placeholder :: Q } := by
    rw [hover]
    exact find?_updateFirst _ _ _ ctrB hctrB (by simpa using hctrBid)
  have hdrag1 : querySelectorDragging (dragoverHandler fl B.id y w.dom) =
      some (Node.card el) := by
    rw [hover, querySelectorDragging_updateFirst _ _ w.dom ctrB hctrB hidle hidleT]
    exact hdrag
  have hfind2 : (removeDragging (dragoverHandler fl B.id y w.dom)).find?
      (fun c => c.columnId == B.id) =
      some { ctrB with children := P ++ Node.placeholder :: Q } :=
    find?_removeDragging_of_idle B.id _ _ hfind1 hidleT
  have hfind3 : (updateFirst (fun c => c.columnId == B.id)
      (fun c => { c with
        children := (insertBeforeFirst (Node.card el) Node.placeholder c.children).erase
          Node.placeholder })
      (removeDragging (dragoverHandler fl B.id y w.dom))).find?
        (fun c => c.columnId == B.id) =
      some { ctrB with
        children := (insertBeforeFirst (Node.card el) Node.placeholder
          (P ++ Node.placeholder :: Q)).erase Node.placeholder } :=
    find?_updateFirst _ _ _ _ hfind2 (by simpa using hctrBid)
  have hnew : cardIdsOfChildren ((insertBeforeFirst (Node.card el) Node.placeholder
      (P ++ Node.placeholder :: Q)).erase Node.placeholder) = X :: B.cardIds := by
    rw [cardIdsOfChildren_replace_first_placeholder el Q P hP, hQ, hlist, hX]
  have hXA : X ∈ A.cardIds := by
    obtain ⟨init, hinit⟩ := hlast
    rw [hinit]
    simp
  obtain ⟨src, hsrc⟩ : ∃ src, w.store.columns.find?
      (fun col => col.cardIds.contains X) = some src := by
    cases hs : w.store.columns.find? (fun col => col.cardIds.contains X) with
    | some src => exact ⟨src, rfl⟩
    | none =>
      have := List.find?_eq_none.1 hs A (List.getElem?_mem hA)
      simp [hXA] at this
  have hmapB : (w.store.columns.map (fun col =>
      { col with cardIds := col.cardIds.filter (fun id => id != X) }))[b]? =
      some { B with cardIds := B.cardIds.filter (fun id => id != X) } := by
    simp [List.getElem?_map, hB]
  obtain ⟨hb1, hb2⟩ := updateFirst_getElem? (fun c => c.id == B.id)
    (fun c => { c with cardIds := X :: B.cardIds })
    (w.store.columns.map (fun col =>
      { col with cardIds := col.cardIds.filter (fun id => id != X) })) b _ hmapB (by simp)
    (by
      intro j c hj hjc
      simp only [List.getElem?_map, Option.map_eq_some'] at hjc
      obtain ⟨c0, hc0, rfl⟩ := hjc
      simpa using hbind j c0 hj hc0)
  have hphT : Node.placeholder ∈ P ++ Node.placeholder :: Q := by simp
  have hres : dropHandler B.id X { w with dom := dragoverHandler fl B.id y w.dom } =
      Outcome.returned
      { store := save ["columns"] { w.store with
          columns := updateFirst (fun c => c.id == B.id)
            (fun c => { c with cardIds := X :: B.cardIds })
            (w.store.columns.map (fun col =>
              { col with cardIds := col.cardIds.filter (fun id => id != X) })) }
        dom := updateFirst (fun c => c.columnId == B.id)
          (fun c => { c with
            children := (insertBeforeFirst (Node.card el) Node.placeholder c.children).erase
              Node.placeholder })
          (removeDragging (dragoverHandler fl B.id y w.dom)) } := by
    simp only [dropHandler, hfind1, hfindB, hphT, if_true, hdrag1, hsrc, hfind3, hnew]
  refine ⟨_, { A with cardIds := A.cardIds.filter (fun id => id != X) },
    { B with cardIds := X :: B.cardIds }, hres, ?_, ?_, rfl, rfl, ?_⟩
  · simp only [save_columns]
    rw [hb2 a hab]
    simp [List.getElem?_map, hA]
  · simp only [save_columns]
    rw [hb1]
  · simp

/-- Witness for C12 (amended): "card-1" is dragged from "To Do" to the top of "Doing",
whose two cards are stacked top to bottom. -/
theorem dragover_then_drop_to_top_witness :
    ∃ w1 A1 B1,
      dropHandler "column-2" "card-1"
          { stackedWorld with
            dom := dragoverHandler roundDouble "column-2" (-5) stackedWorld.dom } =
        Outcome.returned w1 ∧
      w1.store.columns[0]? = some A1 ∧ w1.store.columns[1]? = some B1 ∧
      B1.cardIds = "card-1" :: ["card-2", "card-3"] ∧
      A1.cardIds = sampleColumn.cardIds.filter (fun id => id != "card-1") ∧
      "card-1" ∉ A1.cardIds := by
  have o2 : offset roundDouble (-5) (mkCardEl "card-2" false 0) = -25 := by
    have h := offset_roundDouble_mkCardEl (-5) 0 "card-2" false (by norm_num) (by norm_num)
    norm_num at h
    exact h
  have o3 : offset roundDouble (-5) (mkCardEl "card-3" false 50) = -75 := by
    have h := offset_roundDouble_mkCardEl (-5) 50 "card-3" false (by norm_num) (by norm_num)
    norm_num at h
    exact h
  have hcards : cardsNotDragging targetChildren =
      [mkCardEl "card-2" false 0, mkCardEl "card-3" false 50] := by
    simp [targetChildren, cardsNotDragging, mkCardEl_dragging]
  exact dragover_then_drop_to_top roundDouble stackedWorld 0 1 sampleColumn doingColumn
    "card-1" (mkCardEl "card-1" true 0) (Container.mk "column-2" targetChildren) (-5)
    rfl rfl (by decide)
    (by
      intro j c hj hc
      have hj0 : j = 0 := by omega
      subst hj0
      have : c = sampleColumn := by
        simpa [stackedWorld, dropWorld, initStore, emptySnapshot] using hc.symm
      subst this
      decide)
    ⟨[], rfl⟩ (by decide) (by decide) (by decide) rfl (by decide)
    (by
      intro e he
      rw [hcards] at he
      simp at he
      rcases he with rfl | rfl
      · rw [o2]
        norm_num
      · rw [o3]
        norm_num)
    (by
      rw [hcards]
      simp [o2, o3]
      norm_num)


/-! ## Label references of a card -/

theorem count_map_id_append_singleton (ls : List LabelRef) (labelId : String) :
    ((ls ++ [({ id := labelId } : LabelRef)]).map (fun l => l.id)).count labelId =
      (ls.map (fun l => l.id)).count labelId + 1 := by
  simp [List.count_append]

theorem count_map_id_eq_zero_of_not_any (ls : List LabelRef) (labelId : String)
    (h : ls.any (fun l => l.id == labelId) = false) :
    (ls.map (fun l => l.id)).count labelId = 0 := by
  apply List.count_eq_zero_of_not_mem
  intro hm
  obtain ⟨l, hl, hid⟩ := List.mem_map.1 hm
  have := List.any_eq_false.1 h l hl
  simp [hid] at this

/-- C21: for a card with label list `ls`, after the checkbox of a label is checked the
list holds exactly one reference with that id when it held none or one before, and after
it is unchecked it holds none; in both cases the references to other labels are the old
ones in their old order and nothing else of the card changes.  A list without two
references of the same id stays such a list. -/
theorem labelCheckboxChange_keeps_refs_unique (card : Card) (ls : List LabelRef)
    (labelId : String) (checked : Bool) (hls : card.labels = some ls) :
    ∃ ls1, labelCheckboxChange labelId checked card = some { card with labels := some ls1 } ∧
      (checked = true → (ls.map (fun l => l.id)).count labelId ≤ 1 →
        (ls1.map (fun l => l.id)).count labelId = 1) ∧
      (checked = false → (ls1.map (fun l => l.id)).count labelId = 0) ∧
      ls1.filter (fun l => l.id != labelId) = ls.filter (fun l => l.id != labelId) ∧
      ((ls.map (fun l => l.id)).Nodup → (ls1.map (fun l => l.id)).Nodup) := by
  cases checked with
  | false =>
    refine ⟨ls.filter (fun l => l.id != labelId), by simp [labelCheckboxChange, hls],
      by simp, ?_, by simp [List.filter_filter], ?_⟩
    · intro _
      apply List.count_eq_zero_of_not_mem
      intro hm
      obtain ⟨l, hl, hid⟩ := List.mem_map.1 hm
      have := (List.mem_filter.1 hl).2
      simp [hid] at this
    · intro hnd
      exact (List.filter_sublist ls).map (fun l => l.id) |>.nodup hnd
  | true =>
    by_cases hany : ls.any (fun l => l.id == labelId) = true
    · refine ⟨ls, ?_, ?_, by simp, rfl, fun h => h⟩
      · have hc : ({ card with labels := some ls } : Card) = card := by
          cases card
          simp_all
        simp [labelCheckboxChange, hls, hany, hc]
      · intro _ hle
        obtain ⟨l, hl, hid⟩ := List.any_eq_true.1 hany
        have hmem : labelId ∈ ls.map (fun l => l.id) :=
          List.mem_map.2 ⟨l, hl, by simpa using hid⟩
        have := List.count_pos_iff.2 hmem
        omega
    · have hany1 : ls.any (fun l => l.id == labelId) = false := by simpa using hany
      have hzero := count_map_id_eq_zero_of_not_any ls labelId hany1
      refine ⟨ls ++ [{ id := labelId }], by simp [labelCheckboxChange, hls, hany1], ?_,
        by simp, by simp [List.filter_append], ?_⟩
      · intro _ _
        rw [count_map_id_append_singleton, hzero]
      · intro hnd
        simp only [List.map_append, List.map_cons, List.map_nil]
        refine List.Nodup.append hnd (List.nodup_singleton _) ?_
        intro x hx hx2
        have hx3 : x = labelId := by simpa using hx2
        rw [hx3] at hx
        have := List.count_pos_iff.2 hx
        omega

/-- Witness for C21: the label "label-1" is checked on a card that carries "label-2". -/
theorem labelCheckboxChange_keeps_refs_unique_witness :
    ∃ ls1, labelCheckboxChange "label-1" true { sampleCard with labels := some [⟨"label-2"⟩] } =
        some { { sampleCard with labels := some [⟨"label-2"⟩] } with labels := some ls1 } ∧
      (true = true → ([(⟨"label-2"⟩ : LabelRef)].map (fun l => l.id)).count "label-1" ≤ 1 →
        (ls1.map (fun l => l.id)).count "label-1" = 1) ∧
      (true = false → (ls1.map (fun l => l.id)).count "label-1" = 0) ∧
      ls1.filter (fun l => l.id != "label-1") =
        [(⟨"label-2"⟩ : LabelRef)].filter (fun l => l.id != "label-1") ∧
      (([(⟨"label-2"⟩ : LabelRef)].map (fun l => l.id)).Nodup →
        (ls1.map (fun l => l.id)).Nodup) :=
  labelCheckboxChange_keeps_refs_unique { sampleCard with labels := some [⟨"label-2"⟩] }
    [⟨"label-2"⟩] "label-1" true rfl


/-! ## deleteBoard: subtasks, labels, cards and card ids -/

/-- C22 (counterexample): in `storeWithUnboundSubtask` the subtask entry names "card-1"
but carries no `boardId`; `deleteBoard` filters `subtasks` by `boardId`, so the entry
survives although its card is removed. -/
theorem deleteBoard_keeps_subtask_of_removed_card :
    sampleCard ∈ storeWithUnboundSubtask.cards ∧
    sampleCard ∉ (deleteBoard "board-1" storeWithUnboundSubtask).cards ∧
    ∃ sub ∈ (deleteBoard "board-1" storeWithUnboundSubtask).subtasks,
      sub.cardId = some sampleCard.id := by
  refine ⟨by decide, by decide,
    { id := "subtask-1", cardId := some "card-1", boardId := none }, by decide, by decide⟩

/-- C22 (amended): after `deleteBoard id` no entry of `subtasks` has `boardId = id`, and
the entries kept are exactly the others, in order.  Hence no entry names a card removed
by the call, provided every entry that names such a card carries `boardId = id`. -/
theorem deleteBoard_subtasks_by_boardId (s : Store) (id : String) :
    (deleteBoard id s).subtasks = s.subtasks.filter (fun sub => sub.boardId != some id) ∧
    (∀ sub ∈ (deleteBoard id s).subtasks, sub.boardId ≠ some id) ∧
    ((∀ sub ∈ s.subtasks, ∀ c ∈ s.cards, c.boardId = some id → sub.cardId = some c.id →
        sub.boardId = some id) →
      ∀ sub ∈ (deleteBoard id s).subtasks, ∀ c ∈ s.cards,
        c ∉ (deleteBoard id s).cards → sub.cardId ≠ some c.id) := by
  have hsub : ∀ sub ∈ (deleteBoard id s).subtasks, sub ∈ s.subtasks ∧ sub.boardId ≠ some id := by
    intro sub hs
    simp only [deleteBoard, save_subtasks, List.mem_filter] at hs
    exact ⟨hs.1, by simpa using hs.2⟩
  refine ⟨rfl, fun sub hs => (hsub sub hs).2, ?_⟩
  intro hlink sub hs c hc hgone hcid
  have hcb : c.boardId = some id := by
    by_contra hne
    apply hgone
    simp only [deleteBoard, save_cards, List.mem_filter]
    exact ⟨hc, by simpa using hne⟩
  exact (hsub sub hs).2 (hlink sub (hsub sub hs).1 c hc hcb hcid)

/-- Witness for C22 (amended): the subtask entry of `storeWithSubtasks` carries the id of
its board and goes with the card. -/
theorem deleteBoard_subtasks_by_boardId_witness :
    ∀ sub ∈ (deleteBoard "board-1" storeWithSubtasks).subtasks, ∀ c ∈ storeWithSubtasks.cards,
      c ∉ (deleteBoard "board-1" storeWithSubtasks).cards → sub.cardId ≠ some c.id :=
  (deleteBoard_subtasks_by_boardId storeWithSubtasks "board-1").2.2 (by decide)

/-- C23: `deleteBoard` returns the `labels` collection as it was, and the cards it keeps
are stored cards, unchanged in every field (their `labels` included), in their original
order. -/
theorem deleteBoard_keeps_labels (s : Store) (id : String) :
    (deleteBoard id s).labels = s.labels ∧
    (deleteBoard id s).labels.length = s.labels.length ∧
    (deleteBoard id s).cards = s.cards.filter (fun c => c.boardId != some id) ∧
    (deleteBoard id s).cards.Sublist s.cards ∧
    (∀ c ∈ (deleteBoard id s).cards, ∃ c0 ∈ s.cards, c0 = c ∧ c.labels = c0.labels) ∧
    (∀ c ∈ s.cards, c.boardId ≠ some id → c ∈ (deleteBoard id s).cards) := by
  refine ⟨rfl, rfl, rfl, List.filter_sublist _, ?_, ?_⟩
  · intro c hc
    simp only [deleteBoard, save_cards, List.mem_filter] at hc
    exact ⟨c, hc.1, rfl, rfl⟩
  · intro c hc hne
    simp only [deleteBoard, save_cards, List.mem_filter]
    exact ⟨hc, by simpa using hne⟩

/-! ## createCard, createBoard -/

/-- C24: in the card built by `createCard`, a field given in `overrides` has the given
value (the id included); a field not given has its default: `name`, `description`,
`note`, `priority`, `difficulty` empty, `subtasks` and `labels` the empty list,
`completed` false, `dueDate`, `dueTime`, `updatedAt` null.  Without overrides the card
has `completed = false`, empty `subtasks` and `labels` and null `dueDate` and
`dueTime`. -/
theorem createCard_defaults_and_overrides (freshId : String) (now : Nat) (o : CardOverrides) :
    ((∀ v, o.id = some v → (createCard freshId now o).id = v) ∧
     (∀ v, o.name = some v → (createCard freshId now o).name = v) ∧
     (∀ v, o.description = some v → (createCard freshId now o).description = v) ∧
     (∀ v, o.subtasks = some v → (createCard freshId now o).subtasks = v) ∧
     (∀ v, o.labels = some v → (createCard freshId now o).labels = some v) ∧
     (∀ v, o.note = some v → (createCard freshId now o).note = v) ∧
     (∀ v, o.completed = some v → (createCard freshId now o).completed = v) ∧
     (∀ v, o.priority = some v → (createCard freshId now o).priority = v) ∧
     (∀ v, o.difficulty = some v → (createCard freshId now o).difficulty = v) ∧
     (∀ v, o.dueDate = some v → (createCard freshId now o).dueDate = some v) ∧
     (∀ v, o.dueTime = some v → (createCard freshId now o).dueTime = some v) ∧
     (∀ v, o.createdAt = some v → (createCard freshId now o).createdAt = v) ∧
     (∀ v, o.updatedAt = some v → (createCard freshId now o).updatedAt = some v) ∧
     (∀ v, o.boardId = some v → (createCard freshId now o).boardId = some v) ∧
     (∀ v, o.columnId = some v → (createCard freshId now o).columnId = some v)) ∧
    ((o.id = none → (createCard freshId now o).id = freshId) ∧
     (o.name = none → (createCard freshId now o).name = "") ∧
     (o.description = none → (createCard freshId now o).description = "") ∧
     (o.subtasks = none → (createCard freshId now o).subtasks = []) ∧
     (o.labels = none → (createCard freshId now o).labels = some []) ∧
     (o.note = none → (createCard freshId now o).note = "") ∧
     (o.completed = none → (createCard freshId now o).completed = false) ∧
     (o.priority = none → (createCard freshId now o).priority = "") ∧
     (o.difficulty = none → (createCard freshId now o).difficulty = "") ∧
     (o.dueDate = none → (createCard freshId now o).dueDate = none) ∧
     (o.dueTime = none → (createCard freshId now o).dueTime = none) ∧
     (o.createdAt = none → (createCard freshId now o).createdAt = now) ∧
     (o.updatedAt = none → (createCard freshId now o).updatedAt = none)) ∧
    ((createCard freshId now {}).completed = false ∧
     (createCard freshId now {}).subtasks = [] ∧
     (createCard freshId now {}).labels = some [] ∧
     (createCard freshId now {}).dueDate = none ∧
     (createCard freshId now {}).dueTime = none) := by
  refine ⟨⟨?_, ?_, ?_, ?_, ?_, ?_, ?_, ?_, ?_, ?_, ?_, ?_, ?_, ?_, ?_⟩, ?_,
    ⟨rfl, rfl, rfl, rfl, rfl⟩⟩
  any_goals (intro v h; simp [createCard, h])
  refine ⟨?_, ?_, ?_, ?_, ?_, ?_, ?_, ?_, ?_, ?_, ?_, ?_, ?_⟩ <;>
  intro h <;> simp [createCard, h]


/-- C25: a board is created while `crypto.randomUUID()` returns the value that the id of
the board of `uuidBoardStore` was built from.  `createBoard` does not look at the ids
present: the boards are the old board followed by one new board with the given name and
empty `columnIds`, and the new board has the id of the old one. -/
theorem createBoard_duplicates_existing_id :
    (createBoard (some "Sprint 2") "board-123e4567-e89b-42d3-a456-426614174000"
        "2025-02-01T00:00:00.000Z" uuidBoardStore).boards =
      uuidBoardStore.boards ++
        [{ id := "board-123e4567-e89b-42d3-a456-426614174000", name := "Sprint 2",
           createdAt := "2025-02-01T00:00:00.000Z", columnIds := [], background := none,
           blurAmount := none, titleColor := none }] ∧
    (createBoard (some "Sprint 2") "board-123e4567-e89b-42d3-a456-426614174000"
        "2025-02-01T00:00:00.000Z" uuidBoardStore).boards.map (fun b => b.id) =
      ["board-123e4567-e89b-42d3-a456-426614174000",
       "board-123e4567-e89b-42d3-a456-426614174000"] ∧
    ∃ b ∈ uuidBoardStore.boards,
      (createBoard (some "Sprint 2") "board-123e4567-e89b-42d3-a456-426614174000"
        "2025-02-01T00:00:00.000Z" uuidBoardStore).boards.getLast?.map (fun nb => nb.id) =
        some b.id := by
  refine ⟨by decide, by decide,
    mkBoard "board-123e4567-e89b-42d3-a456-426614174000" "Sprint 1" [], by decide, by decide⟩

/-- C29: `deleteBoard id` keeps a card exactly when the card's own `boardId` is not
`id`, and maps every remaining column to itself with the ids of the removed cards
filtered out of `cardIds`; every id left in a remaining column that resolved before
resolves to the same card afterwards.  If every card listed by a column carries that
column's `boardId`, the remaining columns are unchanged, every id of a remaining column
that resolved before still resolves to the same card, and no card listed by a removed
column remains. -/
theorem deleteBoard_card_ids (s : Store) (id : String) :
    (∀ c, c ∈ (deleteBoard id s).cards ↔ c ∈ s.cards ∧ c.boardId ≠ some id) ∧
    (deleteBoard id s).columns =
      (s.columns.filter (fun col => col.boardId != id)).map (fun col =>
        { col with cardIds := col.cardIds.filter (fun cardId =>
            !((s.cards.filter (fun c => c.boardId == some id)).map
                (fun c => c.id)).contains cardId) }) ∧
    (∀ col1 ∈ (deleteBoard id s).columns, ∃ col ∈ s.columns,
      col.boardId ≠ id ∧ col1.header = col.header ∧
      ∀ cardId, cardId ∈ col1.cardIds ↔
        cardId ∈ col.cardIds ∧ ∀ c ∈ s.cards, c.id = cardId → c ∉ (deleteBoard id s).cards →
          False) ∧
    (∀ col1 ∈ (deleteBoard id s).columns, ∀ cardId ∈ col1.cardIds, ∀ c,
      s.cards.find? (fun c => c.id == cardId) = some c →
      (deleteBoard id s).cards.find? (fun c => c.id == cardId) = some c) ∧
    (CardsFollowColumns s →
      (deleteBoard id s).columns = s.columns.filter (fun col => col.boardId != id) ∧
      (∀ col ∈ s.columns, col.boardId ≠ id → col ∈ (deleteBoard id s).columns ∧
        ∀ cardId ∈ col.cardIds, ∀ c, s.cards.find? (fun c => c.id == cardId) = some c →
          (deleteBoard id s).cards.find? (fun c => c.id == cardId) = some c) ∧
      (∀ col ∈ s.columns, col.boardId = id → col ∉ (deleteBoard id s).columns ∧
        ∀ c ∈ (deleteBoard id s).cards, c.id ∉ col.cardIds)) := by
  have hcards : ∀ c, c ∈ (deleteBoard id s).cards ↔ c ∈ s.cards ∧ c.boardId ≠ some id := by
    intro c
    simp only [deleteBoard, save_cards, List.mem_filter]
    simp
  have hkeep : ∀ cardId : String,
      (!((s.cards.filter (fun c => c.boardId == some id)).map
          (fun c => c.id)).contains cardId) = true ↔
        ∀ c ∈ s.cards, c.id = cardId → c.boardId ≠ some id := by
    intro cardId
    simp only [Bool.not_eq_true', List.contains_eq_any_beq, List.any_eq_false, List.mem_map,
      List.mem_filter, beq_iff_eq]
    constructor
    · intro h c hc hcid hb
      exact h c.id ⟨c, ⟨hc, by simpa using hb⟩, rfl⟩ (by simpa using hcid.symm)
    · rintro h x ⟨c, ⟨hc, hb⟩, rfl⟩ hx
      exact h c hc (by simpa using Eq.symm hx) (by simpa using hb)
  have hfind : ∀ cardId : String, (∀ c ∈ s.cards, c.id = cardId → c.boardId ≠ some id) →
      ∀ c, s.cards.find? (fun c => c.id == cardId) = some c →
        (deleteBoard id s).cards.find? (fun c => c.id == cardId) = some c := by
    intro cardId hall c hc
    have hmem := List.mem_of_find?_eq_some hc
    have hid : c.id = cardId := by simpa using List.find?_some hc
    simp only [deleteBoard, save_cards]
    exact find?_filter_of_pos _ _ s.cards c hc (by simpa using hall c hmem hid)
  refine ⟨hcards, rfl, ?_, ?_, ?_⟩
  · intro col1 h1
    simp only [deleteBoard, save_columns, List.mem_map, List.mem_filter] at h1
    obtain ⟨col, ⟨hcol, hb⟩, rfl⟩ := h1
    refine ⟨col, hcol, by simpa using hb, rfl, ?_⟩
    intro cardId
    simp only [List.mem_filter, hkeep]
    constructor
    · rintro ⟨hm, hall⟩
      exact ⟨hm, fun c hc hcid hgone => hgone ((hcards c).2 ⟨hc, hall c hc hcid⟩)⟩
    · rintro ⟨hm, hall⟩
      refine ⟨hm, fun c hc hcid hb => hall c hc hcid ?_⟩
      intro hin
      exact ((hcards c).1 hin).2 hb
  · intro col1 h1 cardId hcid c hc
    simp only [deleteBoard, save_columns, List.mem_map, List.mem_filter] at h1
    obtain ⟨col, _, rfl⟩ := h1
    simp only [List.mem_filter, hkeep] at hcid
    exact hfind cardId hcid.2 c hc
  · intro hfollow
    have hsame : ∀ col ∈ s.columns, col.boardId ≠ id →
        ∀ cardId ∈ col.cardIds, ∀ c ∈ s.cards, c.id = cardId → c.boardId ≠ some id := by
      intro col hcol hb cardId hcid c hc hid hcb
      have := hfollow col hcol c hc (by rw [hid]; exact hcid)
      rw [this] at hcb
      exact hb (by simpa using hcb)
    have hcols : (deleteBoard id s).columns =
        s.columns.filter (fun col => col.boardId != id) := by
      simp only [deleteBoard, save_columns]
      conv_rhs => rw [← List.map_id (s.columns.filter (fun col => col.boardId != id))]
      apply List.map_congr_left
      intro col hcol
      simp only [List.mem_filter] at hcol
      have hb : col.boardId ≠ id := by simpa using hcol.2
      have hfil : col.cardIds.filter (fun cardId =>
          !((s.cards.filter (fun c => c.boardId == some id)).map
              (fun c => c.id)).contains cardId) = col.cardIds := by
        rw [List.filter_eq_self]
        intro cardId hcid
        exact (hkeep cardId).2 (hsame col hcol.1 hb cardId hcid)
      show ({ col with cardIds := col.cardIds.filter (fun cardId =>
          !((s.cards.filter (fun c => c.boardId == some id)).map
              (fun c => c.id)).contains cardId) } : Column) = col
      rw [hfil]
    refine ⟨hcols, ?_, ?_⟩
    · intro col hcol hb
      refine ⟨?_, ?_⟩
      · rw [hcols]
        simp only [List.mem_filter]
        exact ⟨hcol, by simpa using hb⟩
      · intro cardId hcid c hc
        exact hfind cardId (hsame col hcol hb cardId hcid) c hc
    · intro col hcol hb
      refine ⟨?_, ?_⟩
      · rw [hcols]
        simp only [List.mem_filter]
        rintro ⟨_, h⟩
        simp [hb] at h
      · intro c hc hmem
        have hc1 := (hcards c).1 hc
        have := hfollow col hcol c hc1.1 hmem
        rw [hb] at this
        exact hc1.2 this

/-- Witness for C29: in `twoBoardCardsStore` every card carries the id of the board of
the column that lists it; deleting "board-1" leaves the column of "board-2" as it was
and removes the card of "column-1". -/
theorem deleteBoard_card_ids_witness :
    CardsFollowColumns twoBoardCardsStore ∧
    (deleteBoard "board-1" twoBoardCardsStore).columns =
      twoBoardCardsStore.columns.filter (fun col => col.boardId != "board-1") ∧
    (deleteBoard "board-1" twoBoardCardsStore).columns.map (fun col => col.cardIds) =
      [["card-2"]] ∧
    ∀ c ∈ (deleteBoard "board-1" twoBoardCardsStore).cards, c.id ∉ sampleColumn.cardIds := by
  have hf : CardsFollowColumns twoBoardCardsStore := by
    unfold CardsFollowColumns
    decide
  have h := (deleteBoard_card_ids twoBoardCardsStore "board-1").2.2.2.2 hf
  exact ⟨hf, h.1, by decide, (h.2.2 sampleColumn (by decide) (by decide)).2⟩


/-! ## Drop inside one column -/

theorem removeDragging_eq_updateFirst (colId : String) (n : Node) :
    ∀ (dom : List Container) (ctr : Container),
      dom.find? (fun c => c.columnId == colId) = some ctr →
      ctr.children.find? isDragging = some n →
      (∀ c ∈ dom, c.columnId ≠ colId → ∀ m ∈ c.children, isDragging m = false) →
      querySelectorDragging dom = some n ∧
      removeDragging dom = updateFirst (fun c => c.columnId == colId)
        (fun c => { c with children := c.children.eraseP isDragging }) dom
  | [], ctr, h, _, _ => by simp at h
  | d :: ds, ctr, h, hn, hidle => by
    by_cases hd : d.columnId = colId
    · have hdc : d = ctr := by simpa [List.find?_cons, hd] using h
      subst hdc
      simp [querySelectorDragging, removeDragging, hn, updateFirst, hd]
    · have hnone : d.children.find? isDragging = none :=
        find?_isDragging_eq_none _ (hidle d (by simp) hd)
      have h1 : ds.find? (fun c => c.columnId == colId) = some ctr := by
        simpa [List.find?_cons, hd] using h
      obtain ⟨h2, h3⟩ := removeDragging_eq_updateFirst colId n ds ctr h1 hn
        (fun c hc => hidle c (by simp [hc]))
      simp [querySelectorDragging, removeDragging, hnone, updateFirst, hd, h2, h3]

theorem eraseP_split_of_find? {α : Type} (p : α → Bool) :
    ∀ (l : List α) (x : α), l.find? p = some x →
      ∃ pre post, l = pre ++ x :: post ∧ l.eraseP p = pre ++ post
  | [], x, h => by simp at h
  | y :: ys, x, h => by
    by_cases hy : p y = true
    · have hxy : y = x := by simpa [List.find?_cons, hy] using h
      subst hxy
      exact ⟨[], ys, rfl, by simp [List.eraseP_cons, hy]⟩
    · have hy1 : p y = false := by simpa using hy
      have h1 : ys.find? p = some x := by simpa [List.find?_cons, hy1] using h
      obtain ⟨pre, post, h2, h3⟩ := eraseP_split_of_find? p ys x h1
      exact ⟨y :: pre, post, by simp [h2], by simp [List.eraseP_cons, hy1, h3]⟩

/-- C30: column `B` (position `b`, the column its handler is bound to) is rendered by
the container `ctrB`, which lists the `cardIds` of `B` in order, holds the placeholder
and holds the element being dragged, the card element of `X`; no other column's
container holds a dragging element.  Then the drop handler of `B` returns normally, the
new `cardIds` of `B` is a permutation of the old one, the ids other than `X` keep their
relative order, and every other column that did not list `X` is unchanged. -/
theorem dropHandler_same_column_permutes (w : World) (b : Nat) (B : Column) (X : String)
    (el : CardEl) (ctrB : Container)
    (hB : w.store.columns[b]? = some B)
    (hbind : ∀ (j : Nat) (c : Column), j < b → w.store.columns[j]? = some c → c.id ≠ B.id)
    (hctr : w.dom.find? (fun c => c.columnId == B.id) = some ctrB)
    (hids : cardIdsOfChildren ctrB.children = B.cardIds)
    (hph : Node.placeholder ∈ ctrB.children)
    (hdrag : ctrB.children.find? isDragging = some (Node.card el)) (hX : el.dataId = X)
    (hidle : ∀ c ∈ w.dom, c.columnId ≠ B.id → ∀ m ∈ c.children, isDragging m = false) :
    ∃ w1 B1, dropHandler B.id X w = Outcome.returned w1 ∧
      w1.store.columns.length = w.store.columns.length ∧
      w1.store.columns[b]? = some B1 ∧ B1.header = B.header ∧
      B1.cardIds.Perm B.cardIds ∧
      B1.cardIds.filter (fun id => id != X) = B.cardIds.filter (fun id => id != X) ∧
      (∀ (j : Nat) (c : Column), j ≠ b → w.store.columns[j]? = some c → X ∉ c.cardIds →
        w1.store.columns[j]? = some c) := by
  have hfindB : w.store.columns.find? (fun c => c.id == B.id) = some B :=
    find?_eq_some_of_first _ _ b B hB (by simp)
      (fun j c hj hjc => by simpa using hbind j c hj hjc)
  have hctrBid : ctrB.columnId = B.id := by
    have := List.find?_some hctr
    simpa using this
  obtain ⟨hq, hrem⟩ := removeDragging_eq_updateFirst B.id (Node.card el) w.dom ctrB hctr hdrag
    hidle
  obtain ⟨L, R, hLR, herase⟩ := eraseP_split_of_find? isDragging ctrB.children _ hdrag
  have hph1 : Node.placeholder ∈ ctrB.children.eraseP isDragging := by
    rw [herase]
    rw [hLR] at hph
    simp only [List.mem_append, List.mem_cons] at hph ⊢
    rcases hph with h | h | h
    · exact Or.inl h
    · cases h
    · exact Or.inr h
  obtain ⟨P, Q, hPQ, hrepl⟩ :=
    replace_placeholder_split (Node.card el) (by simp) (ctrB.children.eraseP isDragging) hph1
  have hfind1 : (removeDragging w.dom).find? (fun c => c.columnId == B.id) =
      some { ctrB with children := ctrB.children.eraseP isDragging } := by
    rw [hrem]
    exact find?_updateFirst _ _ _ ctrB hctr (by simpa using hctrBid)
  have hfind2 : (updateFirst (fun c => c.columnId == B.id)
      (fun c => { c with
        children := (insertBeforeFirst (Node.card el) Node.placeholder c.children).erase
          Node.placeholder }) (removeDragging w.dom)).find? (fun c => c.columnId == B.id) =
      some { ctrB with children := P ++ Node.card el :: Q } := by
    rw [find?_updateFirst _ _ _ _ hfind1 (by simpa using hctrBid)]
    simp only [hrepl]
  have hBids : B.cardIds = cardIdsOfChildren L ++ X :: cardIdsOfChildren R := by
    rw [← hids, hLR, cardIdsOfChildren_append]
    simp [cardIdsOfChildren, hX]
  have hLRPQ : cardIdsOfChildren L ++ cardIdsOfChildren R =
      cardIdsOfChildren P ++ cardIdsOfChildren Q := by
    rw [← cardIdsOfChildren_append, ← herase, hPQ, cardIdsOfChildren_append]
    simp [cardIdsOfChildren]
  have hnew : cardIdsOfChildren (P ++ Node.card el :: Q) =
      cardIdsOfChildren P ++ X :: cardIdsOfChildren Q := by
    rw [cardIdsOfChildren_append]
    simp [cardIdsOfChildren, hX]
  have hXB : X ∈ B.cardIds := by
    rw [hBids]
    simp
  obtain ⟨src, hsrc⟩ : ∃ src, w.store.columns.find?
      (fun col => col.cardIds.contains X) = some src := by
    cases hs : w.store.columns.find? (fun col => col.cardIds.contains X) with
    | some src => exact ⟨src, rfl⟩
    | none =>
      have := List.find?_eq_none.1 hs B (List.getElem?_mem hB)
      simp [hXB] at this
  have hmapB : (w.store.columns.map (fun col =>
      { col with cardIds := col.cardIds.filter (fun id => id != X) }))[b]? =
      some { B with cardIds := B.cardIds.filter (fun id => id != X) } := by
    simp [List.getElem?_map, hB]
  obtain ⟨hb1, hb2⟩ := updateFirst_getElem? (fun c => c.id == B.id)
    (fun c => { c with cardIds := cardIdsOfChildren P ++ X :: cardIdsOfChildren Q })
    (w.store.columns.map (fun col =>
      { col with cardIds := col.cardIds.filter (fun id => id != X) })) b _ hmapB (by simp)
    (by
      intro j c hj hjc
      simp only [List.getElem?_map, Option.map_eq_some'] at hjc
      obtain ⟨c0, hc0, rfl⟩ := hjc
      simpa using hbind j c0 hj hc0)
  have hres : dropHandler B.id X w = Outcome.returned
      { store := save ["columns"] { w.store with
          columns := updateFirst (fun c => c.id == B.id)
            (fun c => { c with cardIds := cardIdsOfChildren P ++ X :: cardIdsOfChildren Q })
            (w.store.columns.map (fun col =>
              { col with cardIds := col.cardIds.filter (fun id => id != X) })) }
        dom := updateFirst (fun c => c.columnId == B.id)
          (fun c => { c with
            children := (insertBeforeFirst (Node.card el) Node.placeholder c.children).erase
              Node.placeholder }) (removeDragging w.dom) } := by
    simp only [dropHandler, hctr, hfindB, hph, if_true, hq, hsrc, hfind2, hnew]
  refine ⟨_, { B with cardIds := cardIdsOfChildren P ++ X :: cardIdsOfChildren Q },
    hres, ?_, ?_, rfl, ?_, ?_, ?_⟩
  · simp [updateFirst_length]
  · simp only [save_columns]
    rw [hb1]
  · show (cardIdsOfChildren P ++ X :: cardIdsOfChildren Q).Perm B.cardIds
    rw [hBids]
    refine List.perm_middle.trans ?_
    refine List.Perm.trans ?_ List.perm_middle.symm
    rw [hLRPQ]
  · show (cardIdsOfChildren P ++ X :: cardIdsOfChildren Q).filter (fun id => id != X) =
      B.cardIds.filter (fun id => id != X)
    rw [hBids]
    simp only [List.filter_append, List.filter_cons, bne_self_eq_false, Bool.false_eq_true,
      if_false]
    rw [← List.filter_append, ← List.filter_append, hLRPQ]
  · intro j c hj hc hXc
    simp only [save_columns]
    rw [hb2 j hj]
    simp only [List.getElem?_map, hc, Option.map_some']
    have hfil : c.cardIds.filter (fun id => id != X) = c.cardIds := by
      rw [List.filter_eq_self]
      intro a ha
      have : a ≠ X := fun h => hXc (h ▸ ha)
      simpa using this
    rw [hfil]

/-- Witness for C30: "card-3" is dragged from the second to the first place of "Doing";
"To Do" keeps its `cardIds`. -/
theorem dropHandler_same_column_permutes_witness :
    (∃ w1 B1, dropHandler "column-2" "card-3" reorderWorld = Outcome.returned w1 ∧
      w1.store.columns.length = reorderWorld.store.columns.length ∧
      w1.store.columns[1]? = some B1 ∧ B1.header = doingColumn.header ∧
      B1.cardIds.Perm doingColumn.cardIds ∧
      B1.cardIds.filter (fun id => id != "card-3") =
        doingColumn.cardIds.filter (fun id => id != "card-3") ∧
      (∀ (j : Nat) (c : Column), j ≠ 1 → reorderWorld.store.columns[j]? = some c →
        "card-3" ∉ c.cardIds → w1.store.columns[j]? = some c)) ∧
    (match dropHandler "column-2" "card-3" reorderWorld with
      | Outcome.returned w1 => w1.store.columns.map (fun c => c.cardIds)
      | Outcome.threw _ => []) = [["card-1"], ["card-3", "card-2"]] :=
  ⟨dropHandler_same_column_permutes reorderWorld 1 doingColumn "card-3"
      (mkCardEl "card-3" true 50)
      { columnId := "column-2", children := [Node.placeholder,
          Node.card (mkCardEl "card-2" false 0), Node.card (mkCardEl "card-3" true 50)] }
      rfl
      (by
        intro j c hj hc
        have hj0 : j = 0 := by omega
        subst hj0
        have : c = sampleColumn := by
          simpa [reorderWorld, dropWorld, initStore, emptySnapshot] using hc.symm
        subst this
        decide)
      (by decide) (by decide) (by decide) (by decide) rfl (by decide),
    by decide⟩


/-! ## storage.js -/

/-- C26: `loadData` never raises: it returns the parsed document when the file is read
and parsed, and the document with empty `boards`, `columns`, `cards` and `labels` when
the file cannot be read or its text cannot be parsed. -/
theorem loadData_never_raises (parse : String → Except String Json) (file : Option String) :
    (∃ d, loadData parse file = Except.ok d) ∧
    loadData parse none = Except.ok emptyDocument ∧
    (∀ raw, loadData parse (some raw) =
      match parse raw with
      | Except.ok d => Except.ok d
      | Except.error _ => Except.ok emptyDocument) ∧
    emptyDocument = Json.obj [("boards", Json.arr []), ("columns", Json.arr []),
      ("cards", Json.arr []), ("labels", Json.arr [])] := by
  have hsome : ∀ raw, loadData parse (some raw) =
      match parse raw with
      | Except.ok d => Except.ok d
      | Except.error _ => Except.ok emptyDocument := by
    intro raw
    simp only [loadData, readFileSync, tryCatch]
    cases parse raw <;> rfl
  refine ⟨?_, rfl, hsome, rfl⟩
  cases file with
  | none => exact ⟨emptyDocument, rfl⟩
  | some raw =>
    rw [hsome raw]
    cases parse raw with
    | ok d => exact ⟨d, rfl⟩
    | error e => exact ⟨emptyDocument, rfl⟩

/-- C27: the file holds a text that `JSON.parse` accepts, as the document `d`.  Then
`loadData` returns `d`, `saveData(loadData())` writes the text of `d`, and, the JSON
functions of the engine being stable, a second `saveData(loadData())` writes the same
text again. -/
theorem saveLoaded_twice_same_bytes (parse : String → Except String Json)
    (stringify : Json → String) (hstable : StringifyStable parse stringify)
    (raw : String) (d : Json) (hparse : parse raw = Except.ok d) :
    loadData parse (some raw) = Except.ok d ∧
    saveLoaded parse stringify (some raw) = some (stringify d) ∧
    saveLoaded parse stringify (saveLoaded parse stringify (some raw)) =
      saveLoaded parse stringify (some raw) := by
  have hload : ∀ r x, parse r = Except.ok x → loadData parse (some r) = Except.ok x := by
    intro r x h
    simp [loadData, readFileSync, tryCatch, h]
  have h1 : saveLoaded parse stringify (some raw) = some (stringify d) := by
    simp [saveLoaded, hload raw d hparse, saveData]
  obtain ⟨d1, hd1, hs1⟩ := hstable raw d hparse
  refine ⟨hload raw d hparse, h1, ?_⟩
  rw [h1]
  simp [saveLoaded, hload _ d1 hd1, saveData, hs1]

/-- Witness for C27: the file holds "[]". -/
theorem saveLoaded_twice_same_bytes_witness :
    StringifyStable parseTiny stringifyTiny ∧
    saveLoaded parseTiny stringifyTiny (some "[]") = some "[]" ∧
    saveLoaded parseTiny stringifyTiny (saveLoaded parseTiny stringifyTiny (some "[]")) =
      saveLoaded parseTiny stringifyTiny (some "[]") := by
  have hstable : StringifyStable parseTiny stringifyTiny := by
    intro raw d h
    unfold parseTiny at h
    split at h
    · cases h
      exact ⟨Json.null, by simp [parseTiny, stringifyTiny], rfl⟩
    · split at h
      · cases h
        exact ⟨Json.arr [], by simp [parseTiny, stringifyTiny], rfl⟩
      · cases h
  have h := saveLoaded_twice_same_bytes parseTiny stringifyTiny hstable "[]" (Json.arr [])
    (by simp [parseTiny])
  exact ⟨hstable, h.2.1, h.2.2⟩


/-! ## The card-element cache -/

theorem mapGet_mapSet_self (k : String) (v : Nat) :
    ∀ m : List (String × Nat), mapGet k (mapSet k v m) = some v
  | [] => by simp [mapSet, mapGet]
  | e :: rest => by
    by_cases he : e.1 = k
    · simp [mapSet, mapGet, he]
    · have ih := mapGet_mapSet_self k v rest
      simp only [mapGet] at ih
      simp [mapSet, mapGet, he, List.find?_cons, ih]

theorem mapGet_mapSet_of_ne (k k1 : String) (v : Nat) (hne : k1 ≠ k) :
    ∀ m : List (String × Nat), mapGet k1 (mapSet k v m) = mapGet k1 m
  | [] => by
    have : (k == k1) = false := by simpa using Ne.symm hne
    simp [mapSet, mapGet, List.find?_cons, this]
  | e :: rest => by
    have ih := mapGet_mapSet_of_ne k k1 v hne rest
    simp only [mapGet] at ih
    by_cases he : e.1 = k
    · have h1 : (e.1 == k1) = false := by
        rw [he]
        simpa using Ne.symm hne
      have h2 : (k == k1) = false := by simpa using Ne.symm hne
      simp [mapSet, mapGet, he, List.find?_cons, h1, h2]
    · have he0 : (e.1 == k) = false := by simpa using he
      by_cases he1 : e.1 = k1
      · have he2 : (e.1 == k1) = true := by simpa using he1
        simp only [mapSet, mapGet, he0, Bool.false_eq_true, if_false, List.find?_cons, he2]
      · have he2 : (e.1 == k1) = false := by simpa using he1
        simp only [mapSet, mapGet, he0, Bool.false_eq_true, if_false, List.find?_cons, he2]
        exact ih

theorem mem_mapSet (k : String) (v : Nat) (x : String × Nat) :
    ∀ m : List (String × Nat), x ∈ mapSet k v m → x = (k, v) ∨ x ∈ m
  | [], h => by
    simp only [mapSet, List.mem_singleton] at h
    exact Or.inl h
  | e :: rest, h => by
    by_cases he : e.1 = k
    · simp only [mapSet, he, beq_self_eq_true, if_true, List.mem_cons] at h
      rcases h with h | h
      · exact Or.inl h
      · exact Or.inr (List.mem_cons_of_mem _ h)
    · have he1 : (e.1 == k) = false := by simpa using he
      simp only [mapSet, he1, Bool.false_eq_true, if_false, List.mem_cons] at h
      rcases h with h | h
      · exact Or.inr (by simp [h])
      · rcases mem_mapSet k v x rest h with h1 | h1
        · exact Or.inl h1
        · exact Or.inr (List.mem_cons_of_mem _ h1)

theorem tracks_appendCard (v : CardView) (h : v.Tracks) (cardId : String)
    (hnew : ∀ m ∈ v.mounted, m.1 ≠ cardId) :
    (v.appendCard cardId).Tracks ∧
    (v.appendCard cardId).mounted = v.mounted ++ [(cardId, v.created)] ∧
    mapGet cardId (v.appendCard cardId).cardElements = some v.created := by
  obtain ⟨h1, h2, h3, h4⟩ := h
  refine ⟨⟨?_, ?_, ?_, ?_⟩, rfl, mapGet_mapSet_self _ _ _⟩
  · simp only [CardView.appendCard, CardView.renderCard, List.map_append, List.map_cons,
      List.map_nil]
    rw [List.nodup_append]
    refine ⟨h1, by simp, ?_⟩
    intro a ha hb
    simp only [List.mem_singleton] at hb
    simp only [List.mem_map] at ha
    obtain ⟨m, hm, rfl⟩ := ha
    exact hnew m hm hb
  · intro m hm
    simp only [CardView.appendCard, CardView.renderCard, List.mem_append,
      List.mem_singleton] at hm ⊢
    rcases hm with hm | rfl
    · rw [mapGet_mapSet_of_ne _ _ _ (hnew m hm)]
      exact h2 m hm
    · exact mapGet_mapSet_self _ _ _
  · intro m hm
    simp only [CardView.appendCard, CardView.renderCard, List.mem_append,
      List.mem_singleton] at hm ⊢
    rcases hm with hm | rfl
    · exact Nat.lt_succ_of_lt (h3 m hm)
    · exact Nat.lt_succ_self _
  · intro e he
    simp only [CardView.appendCard, CardView.renderCard] at he ⊢
    rcases mem_mapSet _ _ _ _ he with rfl | he1
    · exact Nat.lt_succ_self _
    · exact Nat.lt_succ_of_lt (h4 e he1)

theorem tracks_foldl_appendCard :
    ∀ (cardIds : List String) (v : CardView), v.Tracks →
      (v.mounted.map (fun m => m.1) ++ cardIds).Nodup →
      (cardIds.foldl (fun acc cardId => acc.appendCard cardId) v).Tracks ∧
      (cardIds.foldl (fun acc cardId => acc.appendCard cardId) v).mounted.map (fun m => m.1) =
        v.mounted.map (fun m => m.1) ++ cardIds
  | [], v, h, _ => by simpa using h
  | cardId :: rest, v, h, hnd => by
    have hnew : ∀ m ∈ v.mounted, m.1 ≠ cardId := by
      intro m hm heq
      rw [List.nodup_append] at hnd
      exact hnd.2.2 (List.mem_map.2 ⟨m, hm, rfl⟩) (by simp [heq])
    obtain ⟨ht, hm, _⟩ := tracks_appendCard v h cardId hnew
    have hnd1 : ((v.appendCard cardId).mounted.map (fun m => m.1) ++ rest).Nodup := by
      rw [hm]
      simpa using hnd
    obtain ⟨ih1, ih2⟩ := tracks_foldl_appendCard rest (v.appendCard cardId) ht hnd1
    refine ⟨ih1, ?_⟩
    simp only [List.foldl_cons]
    rw [ih2, hm]
    simp

theorem tracks_of_sublist (v : CardView) (h : v.Tracks) (l : List (String × Nat))
    (hl : l.Sublist v.mounted) : CardView.Tracks { v with mounted := l } := by
  obtain ⟨h1, h2, h3, h4⟩ := h
  exact ⟨List.Nodup.sublist (List.Sublist.map _ hl) h1, fun m hm => h2 m (hl.subset hm),
    fun m hm => h3 m (hl.subset hm), h4⟩

theorem nodup_fst_split (pre post : List (String × Nat)) (x : String × Nat)
    (h : ((pre ++ x :: post).map (fun m => m.1)).Nodup) :
    (∀ m ∈ pre, m.1 ≠ x.1) ∧ (∀ m ∈ post, m.1 ≠ x.1) := by
  simp only [List.map_append, List.map_cons] at h
  rw [List.nodup_append] at h
  obtain ⟨_, h2, h3⟩ := h
  rw [List.nodup_cons] at h2
  constructor
  · intro m hm heq
    exact h3 (List.mem_map.2 ⟨m, hm, rfl⟩) (by simp [heq])
  · intro m hm heq
    exact h2.1 (List.mem_map.2 ⟨m, hm, heq⟩)


theorem tracks_closeModal (v : CardView) (h : v.Tracks) (cardId : String) (stored : Bool) :
    (v.closeModal cardId stored).Tracks ∧
    (stored = true → ∀ old, (cardId, old) ∈ v.mounted →
      mapGet cardId (v.closeModal cardId stored).cardElements = some v.created ∧
      (cardId, v.created) ∈ (v.closeModal cardId stored).mounted ∧
      (cardId, old) ∉ (v.closeModal cardId stored).mounted) := by
  cases stored with
  | false => exact ⟨by simpa [CardView.closeModal] using h, by simp⟩
  | true =>
    cases hfind : v.mounted.find? (fun m => m.1 == cardId) with
    | none =>
      refine ⟨by simpa [CardView.closeModal, hfind] using h, ?_⟩
      intro _ old hold
      have := List.find?_eq_none.1 hfind (cardId, old) hold
      simp at this
    | some x =>
      obtain ⟨pre, post, hsplit, _, hupd⟩ :=
        updateFirst_split (fun m => m.1 == cardId) (fun _ => (cardId, v.created)) v.mounted x
          hfind
      have hx : x.1 = cardId := by simpa using List.find?_some hfind
      have hres : v.closeModal cardId true =
          { cardElements := mapSet cardId v.created v.cardElements
            mounted := pre ++ (cardId, v.created) :: post
            created := v.created + 1 } := by
        simp only [CardView.closeModal, if_true, hfind, CardView.renderCard, hupd]
      obtain ⟨h1, h2, h3, h4⟩ := h
      obtain ⟨hpre, hpost⟩ := nodup_fst_split pre post x (by rw [← hsplit]; exact h1)
      rw [hx] at hpre hpost
      have hmem : ∀ m ∈ pre ++ (cardId, v.created) :: post,
          m = (cardId, v.created) ∨ (m ∈ v.mounted ∧ m.1 ≠ cardId) := by
        intro m hm
        simp only [List.mem_append, List.mem_cons] at hm
        rcases hm with hm | hm | hm
        · exact Or.inr ⟨by rw [hsplit]; simp [hm], hpre m hm⟩
        · exact Or.inl hm
        · exact Or.inr ⟨by rw [hsplit]; simp [hm], hpost m hm⟩
      rw [hres]
      refine ⟨⟨?_, ?_, ?_, ?_⟩, ?_⟩
      · have : (pre ++ (cardId, v.created) :: post).map (fun m => m.1) =
            v.mounted.map (fun m => m.1) := by
          rw [hsplit]
          simp [hx]
        show ((pre ++ (cardId, v.created) :: post).map (fun m => m.1)).Nodup
        rw [this]
        exact h1
      · intro m hm
        rcases hmem m hm with rfl | ⟨hm1, hne⟩
        · exact mapGet_mapSet_self _ _ _
        · show mapGet m.1 (mapSet cardId v.created v.cardElements) = some m.2
          rw [mapGet_mapSet_of_ne _ _ _ hne]
          exact h2 m hm1
      · intro m hm
        rcases hmem m hm with rfl | ⟨hm1, _⟩
        · exact Nat.lt_succ_self _
        · exact Nat.lt_succ_of_lt (h3 m hm1)
      · intro e he
        rcases mem_mapSet _ _ _ _ he with rfl | he1
        · exact Nat.lt_succ_self _
        · exact Nat.lt_succ_of_lt (h4 e he1)
      · intro _ old hold
        refine ⟨mapGet_mapSet_self _ _ _, by simp, ?_⟩
        intro hin
        rcases hmem _ hin with heq | ⟨_, hne⟩
        · have hlt := h3 _ hold
          have : old = v.created := by simpa using heq
          simp only at hlt
          omega
        · exact hne rfl

theorem tracks_deleteCard (v : CardView) (h : v.Tracks) (cardId : String) :
    (v.deleteCard cardId).Tracks ∧
    (v.deleteCard cardId).cardElements = v.cardElements ∧
    (v.deleteCard cardId).mounted = v.mounted.eraseP (fun m => m.1 == cardId) ∧
    ∀ m ∈ (v.deleteCard cardId).mounted, m.1 ≠ cardId := by
  have hres : v.deleteCard cardId =
      { v with mounted := v.mounted.eraseP (fun m => m.1 == cardId) } := by
    simp [CardView.deleteCard, CardView.closeModal]
  rw [hres]
  refine ⟨tracks_of_sublist v h _ (List.eraseP_sublist _), rfl, rfl, ?_⟩
  intro m hm
  show m.1 ≠ cardId
  simp only at hm
  cases hfind : v.mounted.find? (fun m => m.1 == cardId) with
  | none =>
    have := List.find?_eq_none.1 hfind m (List.mem_of_mem_eraseP hm)
    simpa using this
  | some x =>
    obtain ⟨pre, post, hsplit, herase⟩ := eraseP_split_of_find? _ v.mounted x hfind
    have hx : x.1 = cardId := by simpa using List.find?_some hfind
    obtain ⟨hpre, hpost⟩ := nodup_fst_split pre post x (by rw [← hsplit]; exact h.1)
    rw [hx] at hpre hpost
    rw [herase, List.mem_append] at hm
    rcases hm with hm | hm
    · exact hpre m hm
    · exact hpost m hm

/-- C28 (counterexample): a card is added to the empty page and then deleted.  The
element created for it is detached, and `cardElements` still holds the entry that
refers to it. -/
theorem cardElements_keeps_removed_element :
    (CardView.deleteCard "card-1" (CardView.appendCard "card-1" CardView.initial)).mounted
      = [] ∧
    (CardView.deleteCard "card-1"
      (CardView.appendCard "card-1" CardView.initial)).cardElements = [("card-1", 0)] ∧
    ∃ e ∈ (CardView.deleteCard "card-1"
        (CardView.appendCard "card-1" CardView.initial)).cardElements,
      e ∉ (CardView.deleteCard "card-1" (CardView.appendCard "card-1" CardView.initial)).mounted
      := by
  refine ⟨by decide, by decide, ("card-1", 0), by decide, by decide⟩

/-- C28 (amended): in a state where no two attached card elements share a `data-id` and
the entry of `cardElements` for the `data-id` of every attached card element is that
element, the same holds after a card with a new id is added, after `renderColumns` for
distinct ids, after the re-render of `closeModal`, after a card is deleted and after a
column is removed from the document.  After `closeModal` replaces the element of a card
the entry for the card is the new element, which is attached in place of the old one.
Deleting a card or removing a column leaves `cardElements` as it was: the entry of the
removed element stays. -/
theorem cardElements_tracks_mounted (v : CardView) (h : v.Tracks) :
    (∀ cardId, (∀ m ∈ v.mounted, m.1 ≠ cardId) →
      (v.appendCard cardId).Tracks ∧
      (v.appendCard cardId).mounted = v.mounted ++ [(cardId, v.created)] ∧
      mapGet cardId (v.appendCard cardId).cardElements = some v.created) ∧
    (∀ cardIds : List String, cardIds.Nodup →
      (v.renderColumns cardIds).Tracks ∧
      (v.renderColumns cardIds).mounted.map (fun m => m.1) = cardIds) ∧
    (∀ cardId stored, (v.closeModal cardId stored).Tracks ∧
      (stored = true → ∀ old, (cardId, old) ∈ v.mounted →
        mapGet cardId (v.closeModal cardId stored).cardElements = some v.created ∧
        (cardId, v.created) ∈ (v.closeModal cardId stored).mounted ∧
        (cardId, old) ∉ (v.closeModal cardId stored).mounted)) ∧
    (∀ cardId, (v.deleteCard cardId).Tracks ∧
      (v.deleteCard cardId).cardElements = v.cardElements ∧
      (v.deleteCard cardId).mounted = v.mounted.eraseP (fun m => m.1 == cardId) ∧
      ∀ m ∈ (v.deleteCard cardId).mounted, m.1 ≠ cardId) ∧
    (∀ els, (v.removeSubtree els).Tracks ∧
      (v.removeSubtree els).cardElements = v.cardElements ∧
      ∀ m ∈ (v.removeSubtree els).mounted, m.2 ∉ els) := by
  refine ⟨fun cardId hnew => tracks_appendCard v h cardId hnew, ?_,
    fun cardId stored => tracks_closeModal v h cardId stored,
    fun cardId => tracks_deleteCard v h cardId, ?_⟩
  · intro cardIds hnd
    have h0 : CardView.Tracks { v with mounted := [] } :=
      tracks_of_sublist v h [] (List.nil_sublist _)
    have := tracks_foldl_appendCard cardIds { v with mounted := [] } h0 (by simpa using hnd)
    simpa [CardView.renderColumns] using this
  · intro els
    refine ⟨tracks_of_sublist v h _ (List.filter_sublist _), rfl, ?_⟩
    intro m hm
    simp only [CardView.removeSubtree, List.mem_filter] at hm
    simpa using hm.2

/-- Witness for C28 (amended): the page holds the element 0 of "card-1"; `closeModal`
replaces it by the element 1, which becomes the entry of `cardElements`. -/
theorem cardElements_tracks_mounted_witness :
    (CardView.appendCard "card-1" CardView.initial).Tracks ∧
    (CardView.closeModal "card-1" true (CardView.appendCard "card-1" CardView.initial)).Tracks ∧
    mapGet "card-1" (CardView.closeModal "card-1" true
      (CardView.appendCard "card-1" CardView.initial)).cardElements = some 1 ∧
    ("card-1", 1) ∈ (CardView.closeModal "card-1" true
      (CardView.appendCard "card-1" CardView.initial)).mounted ∧
    ("card-1", 0) ∉ (CardView.closeModal "card-1" true
      (CardView.appendCard "card-1" CardView.initial)).mounted := by
  have ht : (CardView.appendCard "card-1" CardView.initial).Tracks := by
    unfold CardView.Tracks
    decide
  have h := (cardElements_tracks_mounted _ ht).2.2.1 "card-1" true
  exact ⟨ht, h.1, h.2 rfl 0 (by decide)⟩

end TaskApp
